import Mathlib

/-!
# Plumb-X inventory: the client-side item store

A shallow embedding of the local-storage routines of the inventory pages
(`frontend/app/inventory/add_new/page.jsx`, `.../added_items/page.jsx`) and
theorems about them.

JavaScript values are embedded as the inductive type `JVal`.  An object is a
total map from property names to values in which `undefined` stands for an
absent property: the program reads properties only with the dot operator,
spreads objects and serialises them, and none of these distinguishes an absent
property from one holding `undefined`, nor depends on the order of the keys.
-/

namespace PlumbX

/-! ## JavaScript values -/

/-- A JavaScript number: `NaN`, an infinity, or a finite value.  The two zeros
are identified; no operation of the store tells them apart. -/
inductive JNum where
  | nan
  | inf (neg : Bool)
  | fin (q : ℚ)
  deriving DecidableEq

/-- A JavaScript value. -/
inductive JVal where
  | undefined
  | null
  | bool (b : Bool)
  | num (n : JNum)
  | str (s : String)
  | arr (items : List JVal)
  | obj (props : String → JVal)

/-- The properties of a JavaScript object. -/
abbrev Obj := String → JVal

/-- The object `{}`. -/
def Obj.empty : Obj := fun _ => JVal.undefined

/-- The object `{...o, k: v}`. -/
def Obj.set (o : Obj) (k : String) (v : JVal) : Obj :=
  fun k' => if k' = k then v else o k'

/-- An object literal, the leftmost binding of a key winning. -/
def Obj.ofList : List (String × JVal) → Obj
  | [] => Obj.empty
  | (k, v) :: rest => fun k' => if k' = k then v else Obj.ofList rest k'

/-- Truthiness of a number: `NaN` and zero are falsy. -/
def JNum.truthy : JNum → Bool
  | .nan => false
  | .inf _ => true
  | .fin q => decide (q ≠ 0)

/-- Truthiness of a value, as tested by `||`, `&&`, `!!` and `if`. -/
def JVal.truthy : JVal → Bool
  | .undefined => false
  | .null => false
  | .bool b => b
  | .num n => n.truthy
  | .str s => decide (s ≠ "")
  | .arr _ => true
  | .obj _ => true

/-- The expression `a || b`. -/
def JVal.or (a b : JVal) : JVal := if a.truthy then a else b

/-- Strict equality of numbers: `NaN` equals nothing. -/
def JNum.strictEq : JNum → JNum → Bool
  | .fin a, .fin b => decide (a = b)
  | .inf a, .inf b => a == b
  | _, _ => false

/-- The expression `a === b`, for `a` read out of freshly parsed JSON and `b`
supplied by the caller: two objects or arrays are then never the same
reference, so they compare unequal. -/
def JVal.strictEq : JVal → JVal → Bool
  | .undefined, .undefined => true
  | .null, .null => true
  | .bool a, .bool b => a == b
  | .num a, .num b => a.strictEq b
  | .str a, .str b => decide (a = b)
  | _, _ => false

/-- Whether a value is an infinite number, the one kind of truthy value that
`JSON.stringify` turns into `null`. -/
def JVal.isInf : JVal → Bool
  | .num (.inf _) => true
  | _ => false

/-- Whether a value is `undefined`. -/
def JVal.isUndefined : JVal → Bool
  | .undefined => true
  | _ => false

/-- A thrown JavaScript error; `domException` is what the storage throws (a
quota that is exceeded, an access that is denied), `rangeError` what an
invalid date throws. -/
inductive JsError where
  | typeError
  | syntaxError
  | domException
  | rangeError
  deriving DecidableEq

/-- The expression `v.k` for a data property `k` that no prototype defines
(`id`, `itemCode`, ...): reading it off `null` or `undefined` throws, off a
primitive or an array it gives `undefined`. -/
def JVal.prop (v : JVal) (k : String) : Except JsError JVal :=
  match v with
  | .undefined => .error .typeError
  | .null => .error .typeError
  | .obj o => .ok (o k)
  | _ => .ok .undefined

/-- The conversions of the JavaScript engine that `Number(v)` falls back on for
strings and arrays. -/
structure Engine where
  strToNumber : String → JNum
  arrToNumber : List JVal → JNum

/-- The expression `Number(v)`. -/
def Engine.toNumber (e : Engine) : JVal → JNum
  | .undefined => .nan
  | .null => .fin 0
  | .bool b => if b then .fin 1 else .fin 0
  | .num n => n
  | .str s => e.strToNumber s
  | .arr xs => e.arrToNumber xs
  | .obj _ => .nan

/-! ## JSON -/

mutual
/-- The value `JSON.parse(JSON.stringify(v))` for `v` inside an array or under
a key: non-finite numbers and `undefined` array elements become `null`,
properties holding `undefined` disappear. -/
def JVal.jsonify : JVal → JVal
  | .undefined => .null
  | .null => .null
  | .bool b => .bool b
  | .num (.fin q) => .num (.fin q)
  | .num .nan => .null
  | .num (.inf _) => .null
  | .str s => .str s
  | .arr xs => .arr (jsonifyList xs)
  | .obj o => .obj (fun k => if (o k).isUndefined then .undefined else (o k).jsonify)
/-- The map of `JVal.jsonify` over the elements of an array. -/
def jsonifyList : List JVal → List JVal
  | [] => []
  | x :: xs => x.jsonify :: jsonifyList xs
end

/-- The properties of `JSON.parse(JSON.stringify(o))` for an object `o`. -/
def jsonifyObj (o : Obj) : Obj :=
  fun k => if (o k).isUndefined then .undefined else (o k).jsonify

/-- The text held by a local-storage slot: the empty string, a non-empty text
that `JSON.parse` rejects, or the text `JSON.stringify` produces for a value. -/
inductive Text where
  | empty
  | malformed
  | json (v : JVal)

/-- Truthiness of a string: only the empty one is falsy. -/
def Text.truthy : Text → Bool
  | .empty => false
  | _ => true

/-- The call `JSON.stringify(v)`. -/
def JSON.stringify (v : JVal) : Text := Text.json v

/-- The call `JSON.parse(t)`. -/
def JSON.parse : Text → Except JsError JVal
  | .json v => .ok v.jsonify
  | _ => .error .syntaxError

/-! ## The browser -/

/-- The content of `window.localStorage`, key by key. -/
abbrev Storage := String → Option Text

/-- The storage after `setItem(k, t)`. -/
def Storage.put (st : Storage) (k : String) (t : Text) : Storage :=
  fun k' => if k' = k then some t else st k'

/-- The storage after `removeItem(k)`. -/
def Storage.remove (st : Storage) (k : String) : Storage :=
  fun k' => if k' = k then none else st k'

/-- What evaluating `window.localStorage` does. -/
inductive StorageAccess where
  | available
  | missing
  | denied
  deriving DecidableEq

/-- The environment a page runs in. -/
structure Env where
  isMounted : Bool
  hasWindow : Bool
  localStorage : StorageAccess
  getItemThrows : Bool
  setItemOk : String → Text → Bool
  removeItemThrows : Bool

/-- The readings of the clock in one call of `storeAddedItem`: `Date.now()`
and the two calls of `new Date().toISOString()`. -/
structure Clock where
  now : ℕ
  isoAdded : String
  isoModified : String

/-- The key of the collection. -/
def recentKey : String := "recentlyAddedItems"

/-- The key of the edit handoff. -/
def updateKey : String := "itemToUpdate"

/-- The wrapper `safeLocalStorage.getItem`. -/
def safeLocalStorage.getItem (env : Env) (st : Storage) (key : String) : Option Text :=
  if !env.hasWindow then none
  else match env.localStorage with
    | .available => if env.getItemThrows then none else st key
    | _ => none

/-- The wrapper `safeLocalStorage.setItem`. -/
def safeLocalStorage.setItem (env : Env) (st : Storage) (key : String) (value : Text) :
    Bool × Storage :=
  if !env.hasWindow then (false, st)
  else match env.localStorage with
    | .available => if env.setItemOk key value then (true, st.put key value) else (false, st)
    | _ => (false, st)

/-- The wrapper `safeLocalStorage.removeItem`. -/
def safeLocalStorage.removeItem (env : Env) (st : Storage) (key : String) : Bool × Storage :=
  if !env.hasWindow then (false, st)
  else match env.localStorage with
    | .available => if env.removeItemThrows then (false, st) else (true, st.remove key)
    | _ => (false, st)

/-! ## `storeAddedItem` -/

/-- The object `itemToStore` that `storeAddedItem` prepares from `item`. -/
def itemToStore (e : Engine) (c : Clock) (item : Obj) : Obj :=
  item
    |>.set "id" ((item "id").or (.num (.fin c.now)))
    |>.set "name" ((item "itemName").or (.str "Unnamed Item"))
    |>.set "itemName" ((item "itemName").or (.str "Unnamed Item"))
    |>.set "material" ((item "material").or (.str "Unknown"))
    |>.set "size" ((item "size").or (.str "Standard"))
    |>.set "stockLevel" ((JVal.num (e.toNumber (item "stockLevel"))).or (.num (.fin 0)))
    |>.set "price" ((JVal.num (e.toNumber (item "price"))).or (.num (.fin 0)))
    |>.set "dateAdded" ((item "dateAdded").or (.str c.isoAdded))
    |>.set "dateModified" (.str c.isoModified)
    |>.set "image" ((item "image").or .null)
    |>.set "hasImage" (.bool (item "image").truthy)

/-- The call `items.findIndex(i => i.key === target)`; `none` is `-1`. -/
def findIndexBy (key : String) (target : JVal) : List JVal → Except JsError (Option ℕ)
  | [] => .ok none
  | x :: xs =>
    match x.prop key with
    | .error err => .error err
    | .ok v =>
      if v.strictEq target then .ok (some 0)
      else match findIndexBy key target xs with
        | .ok (some i) => .ok (some (i + 1))
        | r => r

/-- The index an update writes to: the first record with the item's `id`, else,
when the item has a truthy `originalItemCode`, the first record with that
`itemCode`. -/
def locate (items : List JVal) (item : Obj) : Except JsError (Option ℕ) :=
  match findIndexBy "id" (item "id") items with
  | .error err => .error err
  | .ok (some k) => .ok (some k)
  | .ok none =>
    if (item "originalItemCode").truthy then
      findIndexBy "itemCode" (item "originalItemCode") items
    else .ok none

/-- The branch `if (isUpdate) ... else ...` of `storeAddedItem`: the array
`items` after the record `stored` has been put into it. -/
def placeItem (items : List JVal) (item stored : Obj) (isUpdate : Bool) :
    Except JsError (List JVal) :=
  if isUpdate then
    match locate items item with
    | .error err => .error err
    | .ok (some k) =>
      match (items.getD k .undefined).prop "id" with
      | .error err => .error err
      | .ok oldId => .ok (items.set k (.obj (stored.set "id" (oldId.or (stored "id")))))
    | .ok none => .ok (.obj stored :: items)
  else .ok (.obj stored :: items)

/-- The array that `storeAddedItem` starts from. -/
def existingItems (env : Env) (st : Storage) : List JVal :=
  match safeLocalStorage.getItem env st recentKey with
  | none => []
  | some t =>
    if t.truthy then
      match JSON.parse t with
      | .ok (.arr xs) => xs
      | _ => []
    else []

/-- The statement `if (items.length > 20) items = items.slice(0, 20)`. -/
def keepLast20 (items : List JVal) : List JVal :=
  if items.length > 20 then items.take 20 else items

/-- The function `storeAddedItem(item, isUpdate)`: its result and the storage
it leaves. -/
def storeAddedItem (env : Env) (e : Engine) (c : Clock) (st : Storage) (item : Obj)
    (isUpdate : Bool) : Bool × Storage :=
  if !env.isMounted then (false, st)
  else
    match placeItem (existingItems env st) item (itemToStore e c item) isUpdate with
    | .error _ => (false, st)
    | .ok items =>
      if !env.hasWindow then (false, st)
      else match env.localStorage with
        | .available =>
          let r := safeLocalStorage.setItem env st recentKey (JSON.stringify (.arr (keepLast20 items)))
          if isUpdate && r.1 then (r.1, (safeLocalStorage.removeItem env r.2 updateKey).2)
          else r
        | _ => (false, st)

/-! ## The edit form -/

/-- The form data that the edit-mode effect loads from the parsed
`itemToUpdate` record. -/
def editFormData (parsedItem : Obj) : Obj :=
  Obj.ofList
    [("itemCode", (parsedItem "itemCode").or (.str "")),
     ("itemName", ((parsedItem "name").or (parsedItem "itemName")).or (.str "")),
     ("price", (parsedItem "price").or (.str "")),
     ("size", (parsedItem "size").or (.str "")),
     ("category", (parsedItem "category").or (.str "")),
     ("stockLevel", (parsedItem "stockLevel").or (.num (.fin 0))),
     ("material", (parsedItem "material").or (.str "PVC")),
     ("description", (parsedItem "description").or (.str "")),
     ("id", parsedItem "id"),
     ("originalItemCode", parsedItem "itemCode")]

/-- The image preview that the edit-mode effect leaves: the record's image when
it has one, else the initial `null`. -/
def editImagePreview (parsedItem : Obj) : JVal :=
  if (parsedItem "image").truthy then parsedItem "image" else .null

/-- The object `itemToSave` that `handleSubmit` passes to `storeAddedItem`;
`c` holds the clock readings of `handleSubmit` and `randomCode` the text
of the generated item code. -/
def itemToSave (formData : Obj) (isEditMode : Bool) (imagePreview : JVal) (c : Clock)
    (randomCode : String) : Obj :=
  formData
    |>.set "name" (formData "itemName")
    |>.set "id" ((formData "id").or (.num (.fin c.now)))
    |>.set "itemCode" ((formData "itemCode").or (.str randomCode))
    |>.set "dateAdded" (if isEditMode then formData "dateAdded" else .str c.isoAdded)
    |>.set "dateModified" (.str c.isoModified)
    |>.set "image" imagePreview
    |>.set "originalItemCode" (formData "originalItemCode")

/-! ## `fetchAddedItems` -/

/-- The callback `item => item && item.id` of the filter in `fetchAddedItems`,
as a truth value. -/
def isValidItem (item : JVal) : Bool :=
  item.truthy && match item.prop "id" with
    | .ok v => v.truthy
    | .error _ => false

/-- Whether the debugging callback of `parsedItems.forEach`, which reads
`item.image`, returns for `item` rather than throwing. -/
def logsImage (item : JVal) : Bool :=
  match item.prop "image" with
  | .ok _ => true
  | .error _ => false

/-- The state `addedItems` after `fetchAddedItems()`, `prev` being the state
before. -/
def fetchAddedItems (env : Env) (st : Storage) (prev : List JVal) : List JVal :=
  if env.hasWindow then
    match env.localStorage with
    | .available =>
      if env.getItemThrows then []
      else match st recentKey with
        | none => []
        | some t =>
          if t.truthy then
            match JSON.parse t with
            | .ok (.arr xs) => if xs.all logsImage then xs.filter isValidItem else []
            | _ => []
          else []
    | _ => []
  else prev

/-! ## The handlers of the listing page -/

/-- The statement `localStorage.setItem(key, value)`, written outside any
wrapper: what it leaves, or what it throws. -/
def localStorage.setItem (env : Env) (st : Storage) (key : String) (value : Text) :
    Except JsError Storage :=
  match env.localStorage with
  | .available => if env.setItemOk key value then .ok (st.put key value) else .error .domException
  | .missing => .error .typeError
  | .denied => .error .domException

/-- The statement `localStorage.removeItem(key)`, written outside any wrapper. -/
def localStorage.removeItem (env : Env) (st : Storage) (key : String) : Except JsError Storage :=
  match env.localStorage with
  | .available => if env.removeItemThrows then .error .domException else .ok (st.remove key)
  | .missing => .error .typeError
  | .denied => .error .domException

/-- Whether a value is an array or an object, which `===` compares by
reference. -/
def JVal.isRef : JVal → Bool
  | .arr _ => true
  | .obj _ => true
  | _ => false

/-- The callback `i => i.id !== item.id` of `handleDeleteItem`, for the entry
`i` at index `m` of the listed sequence.  `pos` is the index at which `item`
is itself an entry of that sequence (the page calls the handler with the entry
it renders), `none` for an item that is no entry of it.  Ids that are primitive
values are compared by value; an id that is an array or an object is the same
reference as the id of `item` only in the entry that `item` is, every entry
having been read from JSON on its own. -/
def keepsItem (item : JVal) (pos : Option ℕ) (m : ℕ) (i : JVal) : Except JsError Bool :=
  match i.prop "id" with
  | .error err => .error err
  | .ok a =>
    match item.prop "id" with
    | .error err => .error err
    | .ok b => .ok (!(if a.isRef && b.isRef then decide (pos = some m) else a.strictEq b))

/-- The call `addedItems.filter(i => i.id !== item.id)`, from the entry at
index `m` on. -/
def filterOut (item : JVal) (pos : Option ℕ) : ℕ → List JVal → Except JsError (List JVal)
  | _, [] => .ok []
  | m, i :: rest =>
    match keepsItem item pos m i with
    | .error err => .error err
    | .ok keep =>
      match filterOut item pos (m + 1) rest with
      | .error err => .error err
      | .ok r => .ok (if keep then i :: r else r)

/-- The function `handleDeleteItem(item)`, `pos` being the index of `item` in
`addedItems` as for `keepsItem`: the storage and the state `addedItems` it
leaves. -/
def handleDeleteItem (env : Env) (st : Storage) (addedItems : List JVal) (item : JVal)
    (pos : Option ℕ) : Storage × List JVal :=
  if !env.hasWindow then (st, addedItems)
  else
    match filterOut item pos 0 addedItems with
    | .error _ => (st, addedItems)
    | .ok updatedItems =>
      match localStorage.setItem env st recentKey (JSON.stringify (.arr updatedItems)) with
      | .error _ => (st, addedItems)
      | .ok st' => (st', updatedItems)

/-- The function `handleClearItems()`, `confirmed` being the answer to the
confirmation dialog: the storage and the state `addedItems` it leaves, or the
error that leaves it. -/
def handleClearItems (env : Env) (confirmed : Bool) (st : Storage) (addedItems : List JVal) :
    Except JsError (Storage × List JVal) :=
  if confirmed && env.hasWindow then
    match localStorage.removeItem env st recentKey with
    | .error err => .error err
    | .ok st' => .ok (st', [])
  else .ok (st, addedItems)

/-- The function `handleUpdateItem(item)`, up to the call of the router: the
storage it leaves, or the error that leaves it. -/
def handleUpdateItem (env : Env) (st : Storage) (item : JVal) : Except JsError Storage :=
  match (if env.hasWindow then localStorage.setItem env st updateKey (JSON.stringify item)
    else .ok st) with
  | .error err => .error err
  | .ok st' =>
    match item.prop "id" with
    | .error err => .error err
    | .ok _ => .ok st'

/-- The array the collection slot holds, when its text parses to one. -/
def persisted (st : Storage) : Option (List JVal) :=
  match st recentKey with
  | some t =>
    match JSON.parse t with
    | .ok (.arr xs) => some xs
    | _ => none
  | none => none

/-! ## Auxiliary definitions -/

/-- The keys that `itemToStore` writes. -/
def writtenKeys : List String :=
  ["id", "name", "itemName", "material", "size", "stockLevel", "price", "dateAdded",
   "dateModified", "image", "hasImage"]

/-- The record an update leaves at the index it located. -/
def updatedRecord (e : Engine) (c : Clock) (item : Obj) (oldId : JVal) : Obj :=
  jsonifyObj ((itemToStore e c item).set "id" (oldId.or (itemToStore e c item "id")))

/-- Whether a value serves as a record id: it is truthy, `===` finds it again,
and `JSON.stringify` keeps it (a non-zero finite number, a non-empty string or
`true`). -/
def JVal.isId (v : JVal) : Bool := v.truthy && v.strictEq v && !v.isInf

/-- Whether none of the values that `itemToStore` copies or converts from
`item` is an infinite number, so that `JSON.stringify` keeps each of them. -/
def Engine.finiteInput (e : Engine) (item : Obj) : Bool :=
  !(item "itemName").isInf && !(item "material").isInf && !(item "size").isInf &&
  !(item "dateAdded").isInf && !(item "image").isInf &&
  !(JVal.num (e.toNumber (item "stockLevel"))).isInf &&
  !(JVal.num (e.toNumber (item "price"))).isInf

/-- The property `key` of the record at index `i` of the persisted collection. -/
def storedField (st : Storage) (i : ℕ) (key : String) : Option (Except JsError JVal) :=
  ((persisted st).bind fun xs => xs[i]?).map fun x => x.prop key

/-! ## Concrete inputs -/

/-- An engine that converts the empty string and strings of decimal digits as
JavaScript does; the examples below convert no other string and no array. -/
def Engine.decimal : Engine where
  strToNumber := fun s =>
    if s.isEmpty then .fin 0
    else match s.toNat? with
      | some n => .fin n
      | none => .nan
  arrToNumber := fun xs =>
    match xs with
    | [] => .fin 0
    | _ => .nan

/-- A mounted page in a browser whose local storage works. -/
def browser : Env where
  isMounted := true
  hasWindow := true
  localStorage := .available
  getItemThrows := false
  setItemOk := fun _ _ => true
  removeItemThrows := false

/-- The clock on 14 November 2023. -/
def clock1 : Clock := ⟨1700000000000, "2023-11-14T22:13:20.000Z", "2023-11-14T22:13:20.000Z"⟩

/-- The clock on 15 June 2025. -/
def clock2 : Clock := ⟨1750000000000, "2025-06-15T15:06:40.000Z", "2025-06-15T15:06:40.000Z"⟩

/-- The clock half a second later. -/
def clock3 : Clock := ⟨1750000000500, "2025-06-15T15:06:40.500Z", "2025-06-15T15:06:40.500Z"⟩

/-- A local storage with no key set. -/
def noStorage : Storage := fun _ => none

/-- The item of the scenario of the specification, its name under `name`. -/
def elbow : Obj :=
  Obj.ofList
    [("itemCode", .str "PVC-001"), ("name", .str "Elbow"), ("price", .num (.fin 50)),
     ("stockLevel", .num (.fin 10)), ("category", .str "fittings")]

/-- The same item with its name under `itemName`, the key the form uses. -/
def elbowForm : Obj :=
  Obj.ofList
    [("itemCode", .str "PVC-001"), ("itemName", .str "Elbow"), ("price", .num (.fin 50)),
     ("stockLevel", .num (.fin 10)), ("category", .str "fittings")]

/-- The record that adding `elbowForm` at `clock1` persists. -/
def elbowRecord : Obj := jsonifyObj (itemToStore Engine.decimal clock1 elbowForm)

/-- The storage after `elbowForm` has been added to an empty one at `clock1`. -/
def oneItem : Storage :=
  (storeAddedItem browser Engine.decimal clock1 noStorage elbowForm false).2

/-- The update `{id: 1700000000000, stockLevel: 5}` of the scenario. -/
def stockUpdate : Obj :=
  Obj.ofList [("id", .num (.fin 1700000000000)), ("stockLevel", .num (.fin 5))]

/-- An update that carries every field of the form, and a stale `dateModified`. -/
def fullUpdate : Obj :=
  Obj.ofList
    [("id", .num (.fin 1700000000000)), ("itemCode", .str "PVC-001"),
     ("itemName", .str "Elbow"), ("price", .num (.fin 55)), ("stockLevel", .num (.fin 5)),
     ("category", .str "fittings"), ("dateModified", .str "1999-01-01T00:00:00.000Z")]

/-- An update with an unknown id and the item code of the stored record, but
no `originalItemCode`. -/
def recoded : Obj :=
  Obj.ofList
    [("id", .num (.fin 42)), ("itemCode", .str "PVC-001"), ("itemName", .str "Elbow 90")]

/-- An update with an unknown id whose `originalItemCode` is the item code of
the stored record. -/
def renamed : Obj :=
  Obj.ofList
    [("id", .num (.fin 42)), ("itemCode", .str "PVC-002"), ("itemName", .str "Elbow 90"),
     ("originalItemCode", .str "PVC-001")]

/-- A collection holding one legacy record, which has no id. -/
def legacyRecords : List JVal :=
  [.obj (Obj.ofList [("itemCode", .str "PVC-001"), ("name", .str "Elbow")])]

/-- A storage holding `legacyRecords`. -/
def legacyStorage : Storage :=
  fun key => if key = recentKey then some (.json (.arr legacyRecords)) else none

/-- Twenty records with the ids 1 to 20. -/
def twentyRecords : List JVal :=
  (List.range 20).map fun i =>
    JVal.obj (Obj.ofList [("id", .num (.fin (i + 1 : ℕ))), ("itemName", .str "Pipe")])

/-- A storage holding `twentyRecords`. -/
def fullStorage : Storage :=
  fun key => if key = recentKey then some (.json (.arr twentyRecords)) else none

/-- The item that `handleSubmit` passes on when the edit form was loaded from
`elbowRecord` and submitted unchanged at `clock2`. -/
def editedElbow : Obj :=
  itemToSave (editFormData elbowRecord) true (editImagePreview elbowRecord) clock2 "ITEM4711"

/-- The elbow record as written under the id 1700000000000. -/
def writtenElbow : Obj :=
  jsonifyObj ((itemToStore Engine.decimal clock1 elbowForm).set "id" (.num (.fin 1700000000000)))

/-- A storage holding the one record `writtenElbow`. -/
def writtenStorage : Storage :=
  fun key => if key = recentKey then some (.json (.arr [.obj writtenElbow])) else none

/-- Whether two records have the same id by `===`, the ids compared by value. -/
def sameId (a b : JVal) : Bool :=
  match a.prop "id", b.prop "id" with
  | .ok x, .ok y => x.strictEq y
  | _, _ => false

/-- The entries of a listed sequence whose id is not the id of `target`, the
entry at `pos` when it is one: when the id of `target` is a primitive value,
the entries whose id is not `===` to it, compared by value; when it is an
array or an object, all entries but `target` itself, no other entry having
that very array or object for id. -/
def withoutTarget (addedItems : List JVal) (target : Obj) (pos : Option ℕ) : List JVal :=
  if (target "id").isRef then
    match pos with
    | some n => addedItems.eraseIdx n
    | none => addedItems
  else addedItems.filter fun i => !sameId i (.obj target)

/-- The id under which an add at the clock `c` stores the record of `item`:
`item.id || Date.now()`, as JSON keeps it. -/
def storedId (c : Clock) (item : Obj) : JVal := ((item "id").or (.num (.fin c.now))).jsonify

/-- An item whose price is the number `Infinity`. -/
def pricelessForm : Obj :=
  Obj.ofList
    [("itemCode", .str "PVC-009"), ("itemName", .str "Valve"), ("price", .num (.inf false)),
     ("stockLevel", .num (.fin 2)), ("category", .str "valves")]

/-- The record that adding `pricelessForm` at `clock1` persists. -/
def pricelessRecord : Obj := jsonifyObj (itemToStore Engine.decimal clock1 pricelessForm)

/-- The storage after `pricelessForm` has been added to an empty one at
`clock1`. -/
def pricelessStorage : Storage :=
  (storeAddedItem browser Engine.decimal clock1 noStorage pricelessForm false).2

/-- A tee as `handleSubmit` passes it, with the id it read off the clock. -/
def teeSubmitted : Obj :=
  Obj.ofList
    [("id", .num (.fin 1750000000000)), ("itemCode", .str "PVC-002"), ("itemName", .str "Tee"),
     ("price", .num (.fin 70)), ("stockLevel", .num (.fin 4)), ("category", .str "fittings")]

/-- The storage that a sequence of adds leaves, each add at its own clock
readings, when every one of them reports success. -/
def addAll (env : Env) (e : Engine) : Storage → List (Clock × Obj) → Option Storage
  | st, [] => some st
  | st, (c, item) :: rest =>
    match storeAddedItem env e c st item false with
    | (true, st') => addAll env e st' rest
    | (false, _) => none

/-- A second item as the form submits it. -/
def teeForm : Obj :=
  Obj.ofList
    [("itemCode", .str "PVC-002"), ("itemName", .str "Tee"), ("price", .num (.fin 70)),
     ("stockLevel", .num (.fin 4)), ("category", .str "fittings")]

/-- The record that adding `teeForm` at `clock2` persists. -/
def teeRecord : Obj := jsonifyObj (itemToStore Engine.decimal clock2 teeForm)

/-- The storage after `teeForm` has been added to `oneItem` at `clock2`: the
tee at index 0, the elbow at index 1. -/
def twoItems : Storage :=
  (storeAddedItem browser Engine.decimal clock2 oneItem teeForm false).2

/-- The storage after `teeForm` has been added to `oneItem` at `clock1`, the
clock reading of the first add. -/
def twinItems : Storage :=
  (storeAddedItem browser Engine.decimal clock1 oneItem teeForm false).2

/-- A storage whose collection slot holds the text `[null]`. -/
def nullStorage : Storage :=
  fun key => if key = recentKey then some (.json (.arr [.null])) else none

/-- A storage whose collection slot holds text that is no JSON. -/
def malformedStorage : Storage :=
  fun key => if key = recentKey then some .malformed else none

/-- A browser whose storage rejects every write, its quota being exhausted. -/
def quotaFull : Env where
  isMounted := true
  hasWindow := true
  localStorage := .available
  getItemThrows := false
  setItemOk := fun _ _ => false
  removeItemThrows := false

/-- A browser that denies the page its storage. -/
def storageDenied : Env where
  isMounted := true
  hasWindow := true
  localStorage := .denied
  getItemThrows := false
  setItemOk := fun _ _ => true
  removeItemThrows := false

/-! ## The image of the form -/

/-- A file picked in the form: its size in bytes, and the data URL that the
`FileReader` ends with (`none` when the read fails). -/
structure File where
  size : ℕ
  result : Option String

/-- The message of the alert for an image that is too large. -/
def tooLargeMessage : String := "Image is too large. Please select an image under 2MB."

/-- The message of the alert for a read that failed. -/
def readErrorMessage : String :=
  "There was an error processing this image. Please try another."

/-- The function `handleImageUpload` with the events of its reader: the alert
it shows, if any, and the state `imagePreview` it leaves. -/
def handleImageUpload (file : Option File) (imagePreview : JVal) : Option String × JVal :=
  match file with
  | none => (none, imagePreview)
  | some f =>
    if f.size > 2 * 1024 * 1024 then (some tooLargeMessage, imagePreview)
    else
      match f.result with
      | some url => (none, .str url)
      | none => (some readErrorMessage, .null)

/-! ## The fittings page -/

/-- The integer nearest to `n / d`, the even one of two that are equally near. -/
def roundHalfEven (n d : ℕ) : ℕ :=
  if 2 * (n % d) < d then n / d
  else if d < 2 * (n % d) then n / d + 1
  else if n / d % 2 = 0 then n / d
  else n / d + 1

/-- The number of halvings that bring `n` below 2, counted with `fuel`. -/
def log2Aux : ℕ → ℕ → ℕ
  | 0, _ => 0
  | fuel + 1, n => if n < 2 then 0 else log2Aux fuel (n / 2) + 1

/-- The exponent of the leading bit of a positive natural number. -/
def log2 (n : ℕ) : ℕ := log2Aux n n

/-- The exponent of the unit in the last place of the doubles next to the
positive rational `n / d`: 52 below the exponent of its leading bit, and -1074
for the subnormal numbers. -/
def ulpExponent (n d : ℕ) : ℤ :=
  let a : ℤ := (log2 n : ℤ) - (log2 d : ℤ)
  let below : Bool :=
    if 0 ≤ a then decide (n < d * 2 ^ a.toNat) else decide (n * 2 ^ (-a).toNat < d)
  max ((if below then a - 1 else a) - 52) (-1074)

/-- The double nearest to a rational, the one with the even significand of two
that are equally near, and an infinity when that is 2 ^ 1024 or more in size:
the result that an arithmetic operation of JavaScript gives when its exact
result is `q`.  The zero has no sign here: none of the code that is modelled
tells `-0` from `0`. -/
def roundDouble (q : ℚ) : JNum :=
  if q = 0 then .fin 0
  else
    let x := ulpExponent q.num.natAbs q.den
    if 0 ≤ x then
      let m := roundHalfEven q.num.natAbs (q.den * 2 ^ x.toNat)
      if 971 ≤ x ∧ 2 ^ 53 ≤ m * 2 ^ (x - 971).toNat then .inf (decide (q < 0))
      else .fin (if q < 0 then -((m * 2 ^ x.toNat : ℕ) : ℚ) else ((m * 2 ^ x.toNat : ℕ) : ℚ))
    else
      let m := roundHalfEven (q.num.natAbs * 2 ^ (-x).toNat) q.den
      .fin (if q < 0 then -mkRat m (2 ^ (-x).toNat) else mkRat m (2 ^ (-x).toNat))

/-- Addition of numbers: the sum of two finite numbers is the double nearest to
their exact sum. -/
def JNum.add : JNum → JNum → JNum
  | .fin a, .fin b => roundDouble (a + b)
  | .fin _, .inf s => .inf s
  | .inf s, .fin _ => .inf s
  | .inf s, .inf t => if s = t then .inf s else .nan
  | _, _ => .nan

/-- Multiplication of numbers: the product of two finite numbers is the double
nearest to their exact product. -/
def JNum.mul : JNum → JNum → JNum
  | .fin a, .fin b => roundDouble (a * b)
  | .fin a, .inf s => if a = 0 then .nan else .inf (if a < 0 then !s else s)
  | .inf s, .fin b => if b = 0 then .nan else .inf (if b < 0 then !s else s)
  | .inf s, .inf t => .inf (s != t)
  | _, _ => .nan

/-- The comparison `a < b` of numbers: false when either is `NaN`. -/
def JNum.lt : JNum → JNum → Bool
  | .fin a, .fin b => decide (a < b)
  | .fin _, .inf s => !s
  | .inf s, .fin _ => s
  | .inf s, .inf t => s && !t
  | _, _ => false

/-- The equality of `Set.prototype.has`: `===`, except that `NaN` is equal to
itself. -/
def JVal.sameValueZero : JVal → JVal → Bool
  | .num .nan, .num .nan => true
  | a, b => a.strictEq b

/-- The expression `a * b`. -/
def Engine.times (e : Engine) (a b : JVal) : JVal := .num ((e.toNumber a).mul (e.toNumber b))

/-- The expression `a < b`: two strings compare as texts (in the order of their
code points, which is that of JavaScript for the characters of the basic
plane), and otherwise the operands compare as numbers (an array or an object
next to a string, which JavaScript compares as texts, is no value of a stock
level). -/
def Engine.lt (e : Engine) (a b : JVal) : Bool :=
  match a, b with
  | .str s, .str t => decide (s < t)
  | _, _ => (e.toNumber a).lt (e.toNumber b)

/-- Whether a value is added as a number by `+`: it is no string, array or
object. -/
def JVal.addsAsNumber : JVal → Bool
  | .str _ => false
  | .arr _ => false
  | .obj _ => false
  | _ => true

/-- What the fittings page takes from its host: the day `new
Date(v).toISOString().split('T')[0]` of a value (`none` when the date is
invalid and `toISOString` throws), the day of the clock, and the text `a + b`
that `+` makes when an operand is a string, an array or an object. -/
structure Host where
  dateOnly : JVal → Option String
  today : String
  concat : JVal → JVal → JVal

/-- The expression `a + b`. -/
def Host.plus (h : Host) (e : Engine) (a b : JVal) : JVal :=
  if a.addsAsNumber && b.addsAsNumber then .num ((e.toNumber a).add (e.toNumber b))
  else h.concat a b

/-- The call `s.toLowerCase()`; it is modelled on the letters A to Z, the only
ones whose lowering can make or break an occurrence of the words the page
looks for. -/
def toLowerCase (s : String) : String := String.mk (s.data.map Char.toLower)

/-- The call `s.includes(t)`. -/
def includes (s t : String) : Bool := s.data.tails.any fun l => t.data.isPrefixOf l

/-- The property `v.k` of a value that is neither `null` nor `undefined`. -/
def JVal.get (v : JVal) (k : String) : JVal :=
  match v with
  | .obj o => o k
  | _ => .undefined

/-- The test `name.toLowerCase().includes('elbow') || ... 'tee' ... 'coupling'`
on a truthy name: a name that is no string has no `toLowerCase` to call. -/
def namesFitting (name : JVal) : Except JsError Bool :=
  match name with
  | .str s =>
    .ok (includes (toLowerCase s) "elbow" || includes (toLowerCase s) "tee" ||
      includes (toLowerCase s) "coupling")
  | _ => .error .typeError

/-- The callback of the filter in `loadStoredItems`, as a truth value. -/
def isFitting (item : JVal) : Except JsError Bool :=
  match item.prop "category" with
  | .error err => .error err
  | .ok category =>
    if category.strictEq (.str "fittings") || category.strictEq (.str "Fittings") then .ok true
    else if (item.get "name").truthy then namesFitting (item.get "name")
    else .ok false

/-- The call `parsedItems.filter(...)` of `loadStoredItems`. -/
def filterFittings : List JVal → Except JsError (List JVal)
  | [] => .ok []
  | x :: xs =>
    match isFitting x with
    | .error err => .error err
    | .ok keep =>
      match filterFittings xs with
      | .error err => .error err
      | .ok r => .ok (if keep then x :: r else r)

/-- The callback of the map in `loadStoredItems`: the item as the page shows
it. -/
def displayItem (e : Engine) (h : Host) (item : JVal) : Except JsError Obj :=
  match item.prop "id" with
  | .error err => .error err
  | .ok _ =>
    match (if (item.get "dateModified").truthy then h.dateOnly (item.get "dateModified")
      else some h.today) with
    | none => .error .rangeError
    | some day =>
      .ok (Obj.ofList
        [("id", (item.get "id").or (item.get "itemCode")),
         ("name", (item.get "name").or (item.get "itemName")),
         ("type", (item.get "type").or (.str "Fitting")),
         ("material", (item.get "material").or (.str "PVC")),
         ("size", (item.get "size").or (.str "Standard")),
         ("stockLevel", (JVal.num (e.toNumber (item.get "stockLevel"))).or (.num (.fin 0))),
         ("reorderLevel", .num (.fin 15)),
         ("price", (JVal.num (e.toNumber (item.get "price"))).or (.num (.fin 0))),
         ("value",
           (JVal.num (e.toNumber (e.times (item.get "price") (item.get "stockLevel")))).or
             (.num (.fin 0))),
         ("location", (item.get "location").or (.str "Storage")),
         ("image", (item.get "image").or (.str "/image/fitting-placeholder.jpg")),
         ("lastRestocked", .str day),
         ("description", (item.get "description").or (.str "No description available"))])

/-- The call `fittingItems.map(...)` of `loadStoredItems`. -/
def displayAll (e : Engine) (h : Host) : List JVal → Except JsError (List Obj)
  | [] => .ok []
  | x :: xs =>
    match displayItem e h x with
    | .error err => .error err
    | .ok d =>
      match displayAll e h xs with
      | .error err => .error err
      | .ok r => .ok (d :: r)

/-- The function `loadStoredItems()`; `none` is `null`. -/
def loadStoredItems (env : Env) (e : Engine) (h : Host) (st : Storage) : Option (List Obj) :=
  if env.hasWindow then
    match env.localStorage with
    | .available =>
      if env.getItemThrows then none
      else match st recentKey with
        | none => none
        | some t =>
          if t.truthy then
            match JSON.parse t with
            | .ok (.arr parsedItems) =>
              match filterFittings parsedItems with
              | .error _ => none
              | .ok fittingItems =>
                match displayAll e h fittingItems with
                | .error _ => none
                | .ok items => some items
            | _ => none
          else none
    | _ => none
  else none

/-- The list `combinedData` of `fetchItems`: the stored items, then the sample
items whose id is not in the set of the stored ids; the sample items alone
when there are no stored items. -/
def combinedData (storedFittingItems : Option (List Obj)) (data : List Obj) : List Obj :=
  match storedFittingItems with
  | none => data
  | some stored =>
    if stored.length > 0 then
      stored ++ data.filter fun item =>
        !(stored.map fun s => s "id").any fun i => i.sameValueZero (item "id")
    else data

/-- The size of `new Set(values)`. -/
def distinctCount : List JVal → ℕ
  | [] => 0
  | v :: rest => if rest.any (fun w => w.sameValueZero v) then distinctCount rest
      else distinctCount rest + 1

/-- The statistics of the category. -/
structure Stats where
  total : ℕ
  lowStock : ℕ
  value : JVal
  types : ℕ

/-- The statistics that `fetchItems` computes from `combinedData`. -/
def statsOf (e : Engine) (h : Host) (items : List Obj) : Stats where
  total := items.length
  lowStock := (items.filter fun item => e.lt (item "stockLevel") (item "reorderLevel")).length
  value := items.foldl (fun sum item => h.plus e sum (item "value")) (.num (.fin 0))
  types := distinctCount (items.map fun item => item "type")

/-- The function `fetchItems()` of the fittings page, `data` being the sample
data of the category: the items it shows and their statistics. -/
def fetchItems (env : Env) (e : Engine) (h : Host) (st : Storage) (data : List Obj) :
    List Obj × Stats :=
  (combinedData (loadStoredItems env e h st) data,
    statsOf e h (combinedData (loadStoredItems env e h st) data))

/-- The number of items whose stock level is below one threshold `t`, the same
for every item. -/
def countBelow (t : ℚ) (items : List Obj) : ℕ :=
  items.countP fun item =>
    match item "stockLevel" with
    | .num (.fin s) => decide (s < t)
    | _ => false

/-- Whether the stock level of an item is a number below the item's own
reorder level. -/
def belowOwnLevel (item : Obj) : Bool :=
  match item "stockLevel", item "reorderLevel" with
  | .num a, .num b => a.lt b
  | _, _ => false

/-- Whether a stored item is one the fittings page takes: its category is
"fittings" or "Fittings", or its name is a text in which "elbow", "tee" or
"coupling" occurs, whatever the case of its letters. -/
def matchesFittings (item : JVal) : Bool :=
  (item.get "category").strictEq (.str "fittings") ||
  (item.get "category").strictEq (.str "Fittings") ||
  match item.get "name" with
  | .str s => includes (toLowerCase s) "elbow" || includes (toLowerCase s) "tee" ||
      includes (toLowerCase s) "coupling"
  | _ => false

/-- A host for the examples: the day is the first ten characters of an ISO
text. -/
def plainHost : Host where
  dateOnly := fun v =>
    match v with
    | .str s => some (s.take 10)
    | _ => none
  today := "2025-06-15"
  concat := fun _ _ => .str ""

/-- A pipe whose name has the letters "tee" in it. -/
def steelPipeForm : Obj :=
  Obj.ofList
    [("itemCode", .str "PIPE-001"), ("itemName", .str "Steel Pipe"), ("price", .num (.fin 120)),
     ("stockLevel", .num (.fin 30)), ("category", .str "pipes")]

/-- The storage after `steelPipeForm` has been added to an empty one. -/
def pipeStorage : Storage :=
  (storeAddedItem browser Engine.decimal clock1 noStorage steelPipeForm false).2

/-- A sample item whose value is not its price times its stock level. -/
def oddSample : Obj :=
  Obj.ofList
    [("id", .num (.fin 1)), ("type", .str "Elbow"), ("price", .num (.fin 2)),
     ("stockLevel", .num (.fin 3)), ("reorderLevel", .num (.fin 10)), ("value", .num (.fin 100))]

/-- A sample item with five in stock and a reorder level of three. -/
def wellStocked : Obj :=
  Obj.ofList
    [("id", .num (.fin 2)), ("type", .str "Tee"), ("price", .num (.fin 4)),
     ("stockLevel", .num (.fin 5)), ("reorderLevel", .num (.fin 3)), ("value", .num (.fin 20))]

/-- A sample item with five in stock and a reorder level of ten. -/
def lowStocked : Obj :=
  Obj.ofList
    [("id", .num (.fin 3)), ("type", .str "Tee"), ("price", .num (.fin 4)),
     ("stockLevel", .num (.fin 5)), ("reorderLevel", .num (.fin 10)), ("value", .num (.fin 20))]

/-- The storage `oneItem` with the elbow record in the handoff slot. -/
def handoffStorage : Storage := oneItem.put updateKey (JSON.stringify (.obj elbowRecord))

/-- What the data model asks of a record `r` written from the input `item`:
a name, a material and a size that are not null, "Unknown" and "Standard" for
a material and a size that are missing or empty, and for the stock level and
the price a number that is not `NaN`: the number the input's value converts
to, 0 when it converts to none. -/
def Engine.wellFormed (e : Engine) (item r : Obj) : Prop :=
  r "name" ≠ .null ∧ r "name" ≠ .undefined ∧
  r "material" ≠ .null ∧ r "material" ≠ .undefined ∧
  r "size" ≠ .null ∧ r "size" ≠ .undefined ∧
  ((item "material").truthy = false → r "material" = .str "Unknown") ∧
  ((item "size").truthy = false → r "size" = .str "Standard") ∧
  (∃ n, r "stockLevel" = .num n ∧ n ≠ .nan ∧
    (e.toNumber (item "stockLevel") = n ∨
      (e.toNumber (item "stockLevel") = .nan ∧ n = .fin 0))) ∧
  (∃ n, r "price" = .num n ∧ n ≠ .nan ∧
    (e.toNumber (item "price") = n ∨ (e.toNumber (item "price") = .nan ∧ n = .fin 0)))

/-- An item with no name, material, size or stock level, and a price that is
no number. -/
def bareItem : Obj := Obj.ofList [("itemCode", .str "X-1"), ("price", .obj Obj.empty)]

/-- The rational that a finite number is; 0 for every other value. -/
def JVal.toRat : JVal → ℚ
  | .num (.fin q) => q
  | _ => 0

/-- No two items of a list have the same id by `===`. -/
def idsDistinct (items : List Obj) : Prop :=
  items.Pairwise fun a b => (a "id").strictEq (b "id") = false

/-- The item that the fittings page shows for `elbowRecord`. -/
def elbowShown : Obj :=
  Obj.ofList
    [("id", .num (.fin 1700000000000)), ("name", .str "Elbow"), ("type", .str "Fitting"),
     ("material", .str "Unknown"), ("size", .str "Standard"), ("stockLevel", .num (.fin 10)),
     ("reorderLevel", .num (.fin 15)), ("price", .num (.fin 50)), ("value", .num (.fin 500)),
     ("location", .str "Storage"), ("image", .str "/image/fitting-placeholder.jpg"),
     ("lastRestocked", .str "2023-11-14"),
     ("description", .str "No description available")]

/-- A sample item with the id of the stored elbow. -/
def sampleElbow : Obj :=
  Obj.ofList
    [("id", .num (.fin 1700000000000)), ("name", .str "Sample Elbow"), ("type", .str "Elbow"),
     ("price", .num (.fin 1)), ("stockLevel", .num (.fin 1)), ("reorderLevel", .num (.fin 10)),
     ("value", .num (.fin 1))]

/-- The double that the text `4.35` denotes. -/
def double435 : ℚ := 2448832297382707 / 562949953421312

/-- An elbow whose price is the double that `4.35` denotes, a hundred of them
in stock. -/
def centForm : Obj :=
  Obj.ofList
    [("itemCode", .str "PVC-435"), ("itemName", .str "Elbow"), ("price", .num (.fin double435)),
     ("stockLevel", .num (.fin 100)), ("category", .str "fittings")]

/-- The storage after `centForm` has been added to an empty one. -/
def centStorage : Storage :=
  (storeAddedItem browser Engine.decimal clock1 noStorage centForm false).2

/-! ## Lemmas -/

theorem jsonify_obj (o : Obj) : (JVal.obj o).jsonify = .obj (jsonifyObj o) := by
  simp only [JVal.jsonify]; rfl

theorem jsonify_arr (xs : List JVal) : (JVal.arr xs).jsonify = .arr (jsonifyList xs) := by
  simp only [JVal.jsonify]

theorem jsonify_ne_undefined (v : JVal) : v.jsonify.isUndefined = false := by
  cases v with
  | num n => cases n <;> simp [JVal.jsonify, JVal.isUndefined]
  | _ => simp [JVal.jsonify, JVal.isUndefined]

mutual
theorem jsonify_idem : ∀ v : JVal, v.jsonify.jsonify = v.jsonify
  | .undefined => by simp [JVal.jsonify]
  | .null => by simp [JVal.jsonify]
  | .bool b => by simp [JVal.jsonify]
  | .num (.fin q) => by simp [JVal.jsonify]
  | .num .nan => by simp [JVal.jsonify]
  | .num (.inf _) => by simp [JVal.jsonify]
  | .str s => by simp [JVal.jsonify]
  | .arr xs => by simp [JVal.jsonify, jsonifyList_idem xs]
  | .obj o => by
    rw [jsonify_obj, jsonify_obj]
    congr 1
    funext k
    have ih := jsonify_idem (o k)
    simp only [jsonifyObj]
    by_cases h : (o k).isUndefined = true
    · have hu : JVal.undefined.isUndefined = true := rfl
      simp [h, hu]
    · simp [h, jsonify_ne_undefined, ih]
theorem jsonifyList_idem : ∀ xs : List JVal, jsonifyList (jsonifyList xs) = jsonifyList xs
  | [] => by simp [jsonifyList]
  | x :: xs => by simp [jsonifyList, jsonify_idem x, jsonifyList_idem xs]
end

theorem jsonifyList_eq_map (xs : List JVal) : jsonifyList xs = xs.map JVal.jsonify := by
  induction xs with
  | nil => rfl
  | cons x xs ih => simp [jsonifyList, ih]

theorem map_jsonify_idem (xs : List JVal) :
    (xs.map JVal.jsonify).map JVal.jsonify = xs.map JVal.jsonify := by
  simp [List.map_map, Function.comp_def, jsonify_idem]

theorem keepLast20_length (xs : List JVal) : (keepLast20 xs).length ≤ 20 := by
  unfold keepLast20
  split
  · simp
  · omega

theorem keepLast20_of_le {xs : List JVal} (h : xs.length ≤ 20) : keepLast20 xs = xs := by
  unfold keepLast20
  rw [if_neg (by omega)]

theorem recentKey_ne_updateKey : recentKey ≠ updateKey := by decide

theorem persisted_of_slot {st : Storage} {xs : List JVal}
    (h : st recentKey = some (.json (.arr xs))) : persisted st = some (xs.map JVal.jsonify) := by
  simp [persisted, h, JSON.parse, jsonify_arr, jsonifyList_eq_map]

theorem persisted_clean {st : Storage} {xs : List JVal} (h : persisted st = some xs) :
    xs.map JVal.jsonify = xs := by
  unfold persisted at h
  split at h
  · rename_i t ht
    cases t with
    | json v =>
      cases v with
      | arr ys =>
        simp [JSON.parse, jsonify_arr, jsonifyList_eq_map] at h
        subst h
        exact map_jsonify_idem ys
      | num n => cases n <;> simp [JSON.parse, JVal.jsonify] at h
      | obj o => simp [JSON.parse, jsonify_obj] at h
      | _ => simp [JSON.parse, JVal.jsonify] at h
    | _ => simp [JSON.parse] at h
  · simp at h

theorem existingItems_eq {env : Env} {st : Storage} {old : List JVal}
    (hw : env.hasWindow = true) (ha : env.localStorage = .available)
    (hg : env.getItemThrows = false) (hp : persisted st = some old) :
    existingItems env st = old := by
  unfold persisted at hp
  unfold existingItems safeLocalStorage.getItem
  simp only [hw, ha, hg]
  cases ht : st recentKey with
  | none => simp [ht] at hp
  | some t =>
    rw [ht] at hp
    simp only at hp
    cases t with
    | json v =>
      simp only [Bool.not_true, Bool.false_eq_true, if_false, Text.truthy, if_true]
      cases hx : JSON.parse (Text.json v) with
      | error err => simp [hx] at hp
      | ok w =>
        rw [hx] at hp
        cases w <;> simp at hp
        simpa using hp
    | _ => simp [JSON.parse] at hp

theorem existingItems_clean (env : Env) (st : Storage) :
    (existingItems env st).map JVal.jsonify = existingItems env st := by
  unfold existingItems
  split
  · rfl
  · rename_i t ht
    split
    · split
      · rename_i xs hx
        refine @persisted_clean (fun _ => some t) xs ?_
        simp [persisted, hx]
      · rfl
    · rfl

theorem store_success {env : Env} {e : Engine} {c : Clock} {st st' : Storage} {item : Obj}
    {u : Bool} (h : storeAddedItem env e c st item u = (true, st')) :
    env.isMounted = true ∧ env.hasWindow = true ∧ env.localStorage = .available ∧
    ∃ items, placeItem (existingItems env st) item (itemToStore e c item) u = .ok items ∧
      env.setItemOk recentKey (.json (.arr (keepLast20 items))) = true ∧
      st' recentKey = some (.json (.arr (keepLast20 items))) := by
  unfold storeAddedItem at h
  by_cases hm : env.isMounted = true
  swap
  · simp [hm] at h
  simp only [hm, Bool.not_true, Bool.false_eq_true, if_false] at h
  cases hp : placeItem (existingItems env st) item (itemToStore e c item) u with
  | error err => rw [hp] at h; simp at h
  | ok items =>
    rw [hp] at h
    simp only at h
    by_cases hw : env.hasWindow = true
    swap
    · simp [hw] at h
    simp only [hw, Bool.not_true, Bool.false_eq_true, if_false] at h
    cases ha : env.localStorage with
    | available =>
      rw [ha] at h
      simp only [safeLocalStorage.setItem, safeLocalStorage.removeItem, hw, ha, JSON.stringify,
        Bool.not_true, Bool.false_eq_true, if_false] at h
      by_cases hok : env.setItemOk recentKey (.json (.arr (keepLast20 items))) = true
      · refine ⟨hm, hw, rfl, items, rfl, hok, ?_⟩
        simp only [hok, if_true, Bool.and_true] at h
        have hne := recentKey_ne_updateKey
        by_cases hu : u = true
        · simp only [hu, if_true, Prod.mk.injEq, true_and] at h
          subst h
          split <;> simp [Storage.put, Storage.remove, hne]
        · simp only [hu, Bool.false_eq_true, if_false, Prod.mk.injEq, true_and] at h
          subst h
          simp [Storage.put]
      · simp [hok] at h
    | missing => rw [ha] at h; simp at h
    | denied => rw [ha] at h; simp at h

theorem persisted_of_success {env : Env} {e : Engine} {c : Clock} {st st' : Storage} {item : Obj}
    {u : Bool} (h : storeAddedItem env e c st item u = (true, st')) :
    ∃ items, placeItem (existingItems env st) item (itemToStore e c item) u = .ok items ∧
      persisted st' = some ((keepLast20 items).map JVal.jsonify) := by
  obtain ⟨_, _, _, items, h1, _, h2⟩ := store_success h
  exact ⟨items, h1, persisted_of_slot h2⟩

theorem itemToStore_id (e : Engine) (c : Clock) (item : Obj) :
    itemToStore e c item "id" = (item "id").or (.num (.fin c.now)) := rfl

theorem itemToStore_name (e : Engine) (c : Clock) (item : Obj) :
    itemToStore e c item "name" = (item "itemName").or (.str "Unnamed Item") := rfl

theorem itemToStore_itemName (e : Engine) (c : Clock) (item : Obj) :
    itemToStore e c item "itemName" = (item "itemName").or (.str "Unnamed Item") := rfl

theorem itemToStore_material (e : Engine) (c : Clock) (item : Obj) :
    itemToStore e c item "material" = (item "material").or (.str "Unknown") := rfl

theorem itemToStore_size (e : Engine) (c : Clock) (item : Obj) :
    itemToStore e c item "size" = (item "size").or (.str "Standard") := rfl

theorem itemToStore_stockLevel (e : Engine) (c : Clock) (item : Obj) :
    itemToStore e c item "stockLevel" =
      (JVal.num (e.toNumber (item "stockLevel"))).or (.num (.fin 0)) := rfl

theorem itemToStore_price (e : Engine) (c : Clock) (item : Obj) :
    itemToStore e c item "price" = (JVal.num (e.toNumber (item "price"))).or (.num (.fin 0)) := rfl

theorem itemToStore_dateAdded (e : Engine) (c : Clock) (item : Obj) :
    itemToStore e c item "dateAdded" = (item "dateAdded").or (.str c.isoAdded) := rfl

theorem itemToStore_dateModified (e : Engine) (c : Clock) (item : Obj) :
    itemToStore e c item "dateModified" = .str c.isoModified := rfl

theorem itemToStore_image (e : Engine) (c : Clock) (item : Obj) :
    itemToStore e c item "image" = (item "image").or .null := rfl

theorem itemToStore_hasImage (e : Engine) (c : Clock) (item : Obj) :
    itemToStore e c item "hasImage" = .bool (item "image").truthy := rfl

theorem itemToStore_other (e : Engine) (c : Clock) (item : Obj) (k : String)
    (hk : k ∉ writtenKeys) : itemToStore e c item k = item k := by
  simp only [writtenKeys, List.mem_cons, List.mem_singleton, not_or, List.not_mem_nil,
    not_false_eq_true, and_true] at hk
  obtain ⟨h1, h2, h3, h4, h5, h6, h7, h8, h9, h10, h11⟩ := hk
  simp [itemToStore, Obj.set, h1, h2, h3, h4, h5, h6, h7, h8, h9, h10, h11]

theorem jsonify_truthy {v : JVal} (ht : v.truthy = true) (hi : v.isInf = false) :
    v.jsonify.truthy = true ∧ v.jsonify ≠ .null ∧ v.isUndefined = false := by
  cases v with
  | num n => cases n <;> simp_all [JVal.truthy, JNum.truthy, JVal.jsonify, JVal.isInf, JVal.isUndefined]
  | obj o => simp [jsonify_obj, JVal.truthy, JVal.isUndefined]
  | arr xs => simp [jsonify_arr, JVal.truthy, JVal.isUndefined]
  | _ => simp_all [JVal.truthy, JVal.jsonify, JVal.isUndefined]

theorem isValidItem_obj (r : Obj) : isValidItem (JVal.obj r) = (r "id").truthy := rfl

theorem keepLast20_cons (x : JVal) (xs : List JVal) :
    keepLast20 (x :: xs) = x :: xs.take 19 := by
  unfold keepLast20
  split
  · simp
  · rename_i h
    simp only [List.length_cons, gt_iff_lt, not_lt] at h
    rw [List.take_of_length_le (by omega)]

theorem map_eq_self_mem {f : JVal → JVal} {xs : List JVal} (h : xs.map f = xs) :
    ∀ x ∈ xs, f x = x := by
  induction xs with
  | nil => simp
  | cons y ys ih =>
    simp only [List.map_cons, List.cons.injEq] at h
    intro x hx
    rcases List.mem_cons.mp hx with rfl | hx
    · exact h.1
    · exact ih h.2 x hx

theorem existingItems_mem {env : Env} {st : Storage} {x : JVal} (hx : x ∈ existingItems env st) :
    ∃ old, persisted st = some old ∧ x ∈ old := by
  unfold existingItems safeLocalStorage.getItem at hx
  unfold persisted
  split at hx
  · simp at hx
  · rename_i t ht
    split at ht
    · simp at ht
    · split at ht
      · split at ht
        · simp at ht
        · rw [ht]
          split at hx
          · split at hx
            · rename_i xs hxs
              exact ⟨xs, by simp [hxs], hx⟩
            · simp at hx
          · simp at hx
      · simp at ht

theorem logsImage_of_clean {x : JVal} (hc : x.jsonify = x) (hn : x ≠ .null) :
    logsImage x = true := by
  cases x with
  | undefined => simp [JVal.jsonify] at hc
  | null => exact absurd rfl hn
  | _ => simp [logsImage, JVal.prop]

theorem prop_ok_iff (x : JVal) (k k' : String) :
    (∃ v, x.prop k = .ok v) → ∃ w, x.prop k' = .ok w := by
  cases x <;> simp [JVal.prop]

theorem findIndexBy_some {key : String} {t : JVal} {xs : List JVal} {k : ℕ}
    (h : findIndexBy key t xs = .ok (some k)) :
    k < xs.length ∧ (∃ v, (xs.getD k .undefined).prop key = .ok v ∧ v.strictEq t = true) ∧
      ∀ j, j < k → ∃ w, (xs.getD j .undefined).prop key = .ok w ∧ w.strictEq t = false := by
  induction xs generalizing k with
  | nil => simp [findIndexBy] at h
  | cons x xs ih =>
    unfold findIndexBy at h
    cases hx : x.prop key with
    | error err => rw [hx] at h; simp at h
    | ok v =>
      rw [hx] at h
      simp only at h
      by_cases hv : v.strictEq t = true
      · simp only [hv, if_true, Except.ok.injEq, Option.some.injEq] at h
        subst h
        exact ⟨by simp, ⟨v, by simpa using hx, hv⟩, by intro j hj; omega⟩
      · simp only [hv, Bool.false_eq_true, if_false] at h
        cases hr : findIndexBy key t xs with
        | error err => rw [hr] at h; simp at h
        | ok o =>
          cases o with
          | none => rw [hr] at h; simp at h
          | some i =>
            rw [hr] at h
            simp only [Except.ok.injEq, Option.some.injEq] at h
            subst h
            obtain ⟨h1, h2, h3⟩ := ih hr
            refine ⟨by simpa using h1, by simpa using h2, ?_⟩
            intro j hj
            cases j with
            | zero => exact ⟨v, by simpa using hx, by simpa using hv⟩
            | succ j => simpa using h3 j (by omega)

theorem findIndexBy_none {key : String} {t : JVal} {xs : List JVal}
    (h : findIndexBy key t xs = .ok none) :
    ∀ x ∈ xs, ∃ w, x.prop key = .ok w ∧ w.strictEq t = false := by
  induction xs with
  | nil => simp
  | cons x xs ih =>
    unfold findIndexBy at h
    cases hx : x.prop key with
    | error err => rw [hx] at h; simp at h
    | ok v =>
      rw [hx] at h
      simp only at h
      by_cases hv : v.strictEq t = true
      · simp [hv] at h
      · simp only [hv, Bool.false_eq_true, if_false] at h
        cases hr : findIndexBy key t xs with
        | error err => rw [hr] at h; simp at h
        | ok o =>
          cases o with
          | some i => rw [hr] at h; simp at h
          | none =>
            intro y hy
            rcases List.mem_cons.mp hy with rfl | hy
            · exact ⟨v, hx, by simpa using hv⟩
            · exact ih hr y hy

theorem locate_some {items : List JVal} {item : Obj} {k : ℕ}
    (h : locate items item = .ok (some k)) :
    k < items.length ∧ ∃ oldId, (items.getD k .undefined).prop "id" = .ok oldId := by
  unfold locate at h
  cases h1 : findIndexBy "id" (item "id") items with
  | error err => rw [h1] at h; simp at h
  | ok o =>
    rw [h1] at h
    cases o with
    | some i =>
      simp only [Except.ok.injEq, Option.some.injEq] at h
      subst h
      obtain ⟨hk, ⟨v, hv, _⟩, _⟩ := findIndexBy_some h1
      exact ⟨hk, v, hv⟩
    | none =>
      simp only at h
      split at h
      · obtain ⟨hk, ⟨v, hv, _⟩, _⟩ := findIndexBy_some h
        exact ⟨hk, prop_ok_iff _ _ _ ⟨v, hv⟩⟩
      · simp at h

theorem keepLast20_map (f : JVal → JVal) (xs : List JVal) :
    (keepLast20 xs).map f = keepLast20 (xs.map f) := by
  unfold keepLast20
  simp only [List.length_map]
  split
  · simp [List.map_take]
  · rfl

theorem update_located {env : Env} {e : Engine} {c : Clock} {st st' : Storage} {item : Obj}
    {old : List JVal} {k : ℕ}
    (hget : env.getItemThrows = false) (hold : persisted st = some old)
    (hloc : locate old item = .ok (some k))
    (h : storeAddedItem env e c st item true = (true, st')) :
    k < old.length ∧ ∃ oldId, (old.getD k .undefined).prop "id" = .ok oldId ∧
      persisted st' = some (keepLast20 (old.set k (.obj (updatedRecord e c item oldId)))) := by
  obtain ⟨_, hw, ha, _⟩ := store_success h
  obtain ⟨items, hpl, hp⟩ := persisted_of_success h
  rw [existingItems_eq hw ha hget hold] at hpl
  obtain ⟨hk, oldId, hid⟩ := locate_some hloc
  refine ⟨hk, oldId, hid, ?_⟩
  simp only [placeItem, if_true, hloc, hid, Except.ok.injEq] at hpl
  subst hpl
  rw [hp, keepLast20_map, List.map_set, persisted_clean hold, jsonify_obj]
  rfl

theorem keepLast20_getElem? (xs : List JVal) {k : ℕ} (hk : k < 20) :
    (keepLast20 xs)[k]? = xs[k]? := by
  unfold keepLast20
  split
  · simp [List.getElem?_take, hk]
  · rfl

theorem locate_of_id {items : List JVal} {item : Obj} {k : ℕ}
    (h : findIndexBy "id" (item "id") items = .ok (some k)) :
    locate items item = .ok (some k) := by
  simp [locate, h]

theorem locate_of_code {items : List JVal} {item : Obj} {k : ℕ}
    (h1 : findIndexBy "id" (item "id") items = .ok none)
    (h2 : (item "originalItemCode").truthy = true)
    (h3 : findIndexBy "itemCode" (item "originalItemCode") items = .ok (some k)) :
    locate items item = .ok (some k) := by
  simp [locate, h1, h2, h3]

theorem updatedRecord_other (e : Engine) (c : Clock) (item : Obj) (oldId : JVal) (key : String)
    (hk : key ≠ "id") :
    updatedRecord e c item oldId key = jsonifyObj (itemToStore e c item) key := by
  simp [updatedRecord, jsonifyObj, Obj.set, hk]

theorem updatedRecord_dateModified (e : Engine) (c : Clock) (item : Obj) (oldId : JVal) :
    updatedRecord e c item oldId "dateModified" = .str c.isoModified := by
  rw [updatedRecord_other _ _ _ _ _ (by decide)]
  simp [jsonifyObj, itemToStore_dateModified, JVal.isUndefined, JVal.jsonify]

theorem getElem?_located {old : List JVal} {k : ℕ} (x : JVal) (hk : k < old.length)
    (hk20 : k < 20) : (keepLast20 (old.set k x))[k]? = some x := by
  rw [keepLast20_getElem? _ hk20]
  simp [hk]

theorem clean_prop {x v : JVal} {key : String} (hc : x.jsonify = x) (hp : x.prop key = .ok v)
    (hu : v.isUndefined = false) : v.jsonify = v := by
  cases x with
  | obj o =>
    simp only [JVal.prop, Except.ok.injEq] at hp
    rw [jsonify_obj] at hc
    have := congrFun (JVal.obj.inj hc) key
    simp only [jsonifyObj, hp, hu, Bool.false_eq_true, if_false] at this
    exact this
  | undefined => simp [JVal.prop] at hp
  | null => simp [JVal.prop] at hp
  | _ =>
    simp only [JVal.prop, Except.ok.injEq] at hp
    subst hp
    simp [JVal.isUndefined] at hu

theorem truthy_not_undefined {v : JVal} (h : v.truthy = true) : v.isUndefined = false := by
  cases v <;> simp_all [JVal.truthy, JVal.isUndefined]

theorem getD_clean {old : List JVal} (hc : old.map JVal.jsonify = old) {k : ℕ}
    (hk : k < old.length) : (old.getD k .undefined).jsonify = old.getD k .undefined := by
  apply map_eq_self_mem hc
  rw [List.getD_eq_getElem _ _ hk]
  exact List.getElem_mem hk

theorem or_undefined (v : JVal) : JVal.undefined.or v = v := rfl

theorem isId_facts {v : JVal} (h : v.isId = true) :
    v.truthy = true ∧ v.strictEq v = true ∧ v.jsonify = v ∧ v.isUndefined = false := by
  cases v with
  | num n => cases n <;> simp_all [JVal.isId, JVal.truthy, JVal.strictEq, JNum.strictEq, JVal.isInf, JVal.jsonify, JVal.isUndefined]
  | _ => simp_all [JVal.isId, JVal.truthy, JVal.strictEq, JVal.isInf, JVal.jsonify, JVal.isUndefined]

theorem strictEq_eq {a b : JVal} (h : a.strictEq b = true) : a = b := by
  cases a <;> cases b <;> simp_all [JVal.strictEq]
  rename_i n m
  cases n <;> cases m <;> simp_all [JNum.strictEq]

theorem jsonifyObj_idem (o : Obj) : jsonifyObj (jsonifyObj o) = jsonifyObj o := by
  have := jsonify_idem (JVal.obj o)
  rw [jsonify_obj, jsonify_obj] at this
  exact JVal.obj.inj this

/-- The value `a || d` read back from JSON, for a truthy default `d`. -/
theorem or_default_facts {a d : JVal} (hd : d.truthy = true) (hdi : d.isInf = false)
    (ha : a.isInf = false) :
    (a.or d).jsonify.truthy = true ∧ (a.or d).isUndefined = false := by
  unfold JVal.or
  split
  · rename_i ht
    exact ⟨(jsonify_truthy ht ha).1, (jsonify_truthy ht ha).2.2⟩
  · exact ⟨(jsonify_truthy hd hdi).1, (jsonify_truthy hd hdi).2.2⟩

theorem or_self_of_truthy {a d : JVal} (h : a.truthy = true) : a.or d = a := by
  simp [JVal.or, h]

theorem number_or_zero (e : Engine) (v : JVal)
    (h : (JVal.num (e.toNumber v)).isInf = false) :
    ∃ q, (JVal.num (e.toNumber v)).or (.num (.fin 0)) = .num (.fin q) := by
  cases hn : e.toNumber v with
  | nan => exact ⟨0, by simp [JVal.or, JVal.truthy, JNum.truthy]⟩
  | inf b => simp [hn, JVal.isInf] at h
  | fin q =>
    by_cases hq : q = 0
    · exact ⟨0, by simp [JVal.or, JVal.truthy, JNum.truthy, hq]⟩
    · exact ⟨q, by simp [JVal.or, JVal.truthy, JNum.truthy, hq]⟩

theorem number_or_zero_fin (e : Engine) (q : ℚ) :
    (JVal.num (e.toNumber (.num (.fin q)))).or (.num (.fin 0)) = .num (.fin q) := by
  by_cases hq : q = 0
  · simp [Engine.toNumber, JVal.or, JVal.truthy, JNum.truthy, hq]
  · simp [Engine.toNumber, JVal.or, JVal.truthy, JNum.truthy, hq]

theorem mem_writtenKeys (key : String) :
    key ∈ writtenKeys ↔ key = "id" ∨ key = "name" ∨ key = "itemName" ∨ key = "material" ∨
      key = "size" ∨ key = "stockLevel" ∨ key = "price" ∨ key = "dateAdded" ∨
      key = "dateModified" ∨ key = "image" ∨ key = "hasImage" := by
  simp [writtenKeys]

/-- An update whose partial is a record that `storeAddedItem` wrote rebuilds
that record, the date of modification apart. -/
theorem updatedRecord_written (e : Engine) (c0 c : Clock) (item0 : Obj) (idv : JVal) (r : Obj)
    (hr : r = jsonifyObj ((itemToStore e c0 item0).set "id" idv))
    (hidv : idv.isId = true) (hfin : e.finiteInput item0 = true) (hiso : c0.isoAdded ≠ "") :
    r "id" = idv ∧
      updatedRecord e c r (r "id") = r.set "dateModified" (.str c.isoModified) := by
  obtain ⟨hit, _, hicl, hiu⟩ := isId_facts hidv
  simp only [Engine.finiteInput, Bool.and_eq_true, Bool.not_eq_true'] at hfin
  obtain ⟨⟨⟨⟨⟨⟨hn, hm⟩, hs⟩, hda⟩, him⟩, hst⟩, hpr⟩ := hfin
  have hrid : r "id" = idv := by
    rw [hr]; simp [jsonifyObj, Obj.set, hiu, hicl]
  have hrk : ∀ key, key ≠ "id" → r key = jsonifyObj (itemToStore e c0 item0) key := by
    intro key hk; rw [hr]; simp [jsonifyObj, Obj.set, hk]
  have hstr : ∀ s : String, s ≠ "" → (JVal.str s).truthy = true := by
    intro s hs; simp [JVal.truthy, hs]
  -- the fields as they were written
  have hN := or_default_facts (a := item0 "itemName") (hstr "Unnamed Item" (by decide)) rfl hn
  have hM := or_default_facts (a := item0 "material") (hstr "Unknown" (by decide)) rfl hm
  have hS := or_default_facts (a := item0 "size") (hstr "Standard" (by decide)) rfl hs
  have hD := or_default_facts (a := item0 "dateAdded") (hstr c0.isoAdded hiso) rfl hda
  obtain ⟨qs, hqs⟩ := number_or_zero e (item0 "stockLevel") hst
  obtain ⟨qp, hqp⟩ := number_or_zero e (item0 "price") hpr
  have e_name : r "name" = ((item0 "itemName").or (.str "Unnamed Item")).jsonify := by
    rw [hrk _ (by decide)]; simp [jsonifyObj, itemToStore_name, hN.2]
  have e_itemName : r "itemName" = ((item0 "itemName").or (.str "Unnamed Item")).jsonify := by
    rw [hrk _ (by decide)]; simp [jsonifyObj, itemToStore_itemName, hN.2]
  have e_material : r "material" = ((item0 "material").or (.str "Unknown")).jsonify := by
    rw [hrk _ (by decide)]; simp [jsonifyObj, itemToStore_material, hM.2]
  have e_size : r "size" = ((item0 "size").or (.str "Standard")).jsonify := by
    rw [hrk _ (by decide)]; simp [jsonifyObj, itemToStore_size, hS.2]
  have e_date : r "dateAdded" = ((item0 "dateAdded").or (.str c0.isoAdded)).jsonify := by
    rw [hrk _ (by decide)]; simp [jsonifyObj, itemToStore_dateAdded, hD.2]
  have e_stock : r "stockLevel" = .num (.fin qs) := by
    rw [hrk _ (by decide)]
    simp [jsonifyObj, itemToStore_stockLevel, hqs, JVal.isUndefined, JVal.jsonify]
  have e_price : r "price" = .num (.fin qp) := by
    rw [hrk _ (by decide)]
    simp [jsonifyObj, itemToStore_price, hqp, JVal.isUndefined, JVal.jsonify]
  have e_image : ((item0 "image").truthy = true ∧ r "image" = (item0 "image").jsonify ∧
      (r "image").truthy = true) ∨ ((item0 "image").truthy = false ∧ r "image" = .null) := by
    rw [hrk _ (by decide)]
    by_cases hti : (item0 "image").truthy = true
    · left
      have := jsonify_truthy hti him
      refine ⟨hti, ?_, ?_⟩ <;>
        simp [jsonifyObj, itemToStore_image, or_self_of_truthy hti, this.2.2, this.1]
    · right
      simp only [Bool.not_eq_true] at hti
      exact ⟨hti, by simp [jsonifyObj, itemToStore_image, JVal.or, hti, JVal.isUndefined, JVal.jsonify]⟩
  have e_has : r "hasImage" = .bool (item0 "image").truthy := by
    rw [hrk _ (by decide)]
    simp [jsonifyObj, itemToStore_hasImage, JVal.isUndefined, JVal.jsonify]
  refine ⟨hrid, ?_⟩
  funext key
  by_cases hkey : key ∈ writtenKeys
  · rw [mem_writtenKeys] at hkey
    rcases hkey with rfl | rfl | rfl | rfl | rfl | rfl | rfl | rfl | rfl | rfl | rfl
    · -- id
      simp [updatedRecord, jsonifyObj, Obj.set, hrid, or_self_of_truthy hit, hiu, hicl]
    · rw [updatedRecord_other _ _ _ _ _ (by decide)]
      have ht : (r "itemName").truthy = true := by rw [e_itemName]; exact hN.1
      simp [jsonifyObj, Obj.set, itemToStore_name, or_self_of_truthy ht, truthy_not_undefined ht]
      rw [e_name, e_itemName, jsonify_idem]
    · rw [updatedRecord_other _ _ _ _ _ (by decide)]
      have ht : (r "itemName").truthy = true := by rw [e_itemName]; exact hN.1
      simp [jsonifyObj, Obj.set, itemToStore_itemName, or_self_of_truthy ht, truthy_not_undefined ht]
      rw [e_itemName, jsonify_idem]
    · rw [updatedRecord_other _ _ _ _ _ (by decide)]
      have ht : (r "material").truthy = true := by rw [e_material]; exact hM.1
      simp [jsonifyObj, Obj.set, itemToStore_material, or_self_of_truthy ht, truthy_not_undefined ht]
      rw [e_material, jsonify_idem]
    · rw [updatedRecord_other _ _ _ _ _ (by decide)]
      have ht : (r "size").truthy = true := by rw [e_size]; exact hS.1
      simp [jsonifyObj, Obj.set, itemToStore_size, or_self_of_truthy ht, truthy_not_undefined ht]
      rw [e_size, jsonify_idem]
    · rw [updatedRecord_other _ _ _ _ _ (by decide)]
      simp [jsonifyObj, Obj.set, itemToStore_stockLevel, e_stock, number_or_zero_fin,
        JVal.isUndefined, JVal.jsonify]
    · rw [updatedRecord_other _ _ _ _ _ (by decide)]
      simp [jsonifyObj, Obj.set, itemToStore_price, e_price, number_or_zero_fin,
        JVal.isUndefined, JVal.jsonify]
    · rw [updatedRecord_other _ _ _ _ _ (by decide)]
      have ht : (r "dateAdded").truthy = true := by rw [e_date]; exact hD.1
      simp [jsonifyObj, Obj.set, itemToStore_dateAdded, or_self_of_truthy ht, truthy_not_undefined ht]
      rw [e_date, jsonify_idem]
    · rw [updatedRecord_dateModified]
      simp [Obj.set]
    · rw [updatedRecord_other _ _ _ _ _ (by decide)]
      rcases e_image with ⟨_, hri, hrt⟩ | ⟨_, hri⟩
      · simp [jsonifyObj, Obj.set, itemToStore_image, or_self_of_truthy hrt, truthy_not_undefined hrt]
        rw [hri, jsonify_idem]
      · simp [jsonifyObj, Obj.set, itemToStore_image, hri, JVal.or, JVal.truthy, JVal.isUndefined,
          JVal.jsonify]
    · rw [updatedRecord_other _ _ _ _ _ (by decide)]
      rcases e_image with ⟨hti, _, hrt⟩ | ⟨hti, hri⟩
      · simp [jsonifyObj, Obj.set, itemToStore_hasImage, e_has, hrt, hti, JVal.isUndefined,
          JVal.jsonify]
      · have hnull : JVal.null.truthy = false := rfl
        simp [jsonifyObj, Obj.set, itemToStore_hasImage, e_has, hri, hti, hnull,
          JVal.isUndefined, JVal.jsonify]
  · have hne : key ≠ "id" ∧ key ≠ "dateModified" := by
      constructor <;> (rintro rfl; exact hkey (by decide))
    rw [updatedRecord_other _ _ _ _ _ hne.1]
    have h1 : jsonifyObj (itemToStore e c r) key = jsonifyObj r key := by
      simp [jsonifyObj, itemToStore_other e c r key hkey]
    have h2 : jsonifyObj r = r := by rw [hr, jsonifyObj_idem]
    rw [h1, h2]
    simp [Obj.set, hne.2]

theorem findIndexBy_set {key : String} {t : JVal} {xs : List JVal} {k : ℕ} {x' v' : JVal}
    (h : findIndexBy key t xs = .ok (some k)) (hp : x'.prop key = .ok v')
    (hv : v'.strictEq t = true) : findIndexBy key t (xs.set k x') = .ok (some k) := by
  induction xs generalizing k with
  | nil => simp [findIndexBy] at h
  | cons x xs ih =>
    unfold findIndexBy at h
    cases hx : x.prop key with
    | error err => rw [hx] at h; simp at h
    | ok v =>
      rw [hx] at h
      simp only at h
      by_cases hvt : v.strictEq t = true
      · simp only [hvt, if_true, Except.ok.injEq, Option.some.injEq] at h
        subst h
        simp [findIndexBy, hp, hv]
      · simp only [hvt, Bool.false_eq_true, if_false] at h
        cases hr : findIndexBy key t xs with
        | error err => rw [hr] at h; simp at h
        | ok o =>
          cases o with
          | none => rw [hr] at h; simp at h
          | some i =>
            rw [hr] at h
            simp only [Except.ok.injEq, Option.some.injEq] at h
            subst h
            simp [findIndexBy, hx, hvt, ih hr]

theorem found_of_mem {env : Env} {e : Engine} {c : Clock} {st st' : Storage} {r : Obj}
    {old : List JVal}
    (hget : env.getItemThrows = false) (hold : persisted st = some old)
    (hmem : JVal.obj r ∈ old) (hrefl : (r "id").strictEq (r "id") = true)
    (h : storeAddedItem env e c st r true = (true, st')) :
    ∃ k, findIndexBy "id" (r "id") old = .ok (some k) := by
  obtain ⟨_, hw, ha, items, hpl, _⟩ := store_success h
  rw [existingItems_eq hw ha hget hold] at hpl
  cases hfi : findIndexBy "id" (r "id") old with
  | error err => simp [placeItem, locate, hfi] at hpl
  | ok o =>
    cases o with
    | some k => exact ⟨k, rfl⟩
    | none =>
      obtain ⟨w, hw1, hw2⟩ := findIndexBy_none hfi _ hmem
      simp only [JVal.prop, Except.ok.injEq] at hw1
      subst hw1
      rw [hrefl] at hw2
      simp at hw2

theorem fetch_after_add {env : Env} {e : Engine} {c : Clock} {st st' : Storage} {item : Obj}
    (prev : List JVal)
    (hget : env.getItemThrows = false)
    (hrec : ∀ old, persisted st = some old → ∀ x ∈ old, x ≠ JVal.null)
    (hnow : 0 < c.now)
    (hid : (item "id").isInf = false)
    (h : storeAddedItem env e c st item false = (true, st')) :
    (fetchAddedItems env st' prev).head? = some (JVal.obj (jsonifyObj (itemToStore e c item))) ∧
      (itemToStore e c item "id").jsonify.truthy = true ∧
      (itemToStore e c item "id").jsonify ≠ .null ∧
      (itemToStore e c item "id").isUndefined = false := by
  obtain ⟨_, hw, ha, items, hpl, _, hslot⟩ := store_success h
  simp only [placeItem, Bool.false_eq_true, if_false, Except.ok.injEq] at hpl
  subst hpl
  rw [keepLast20_cons] at hslot
  have hidt : (itemToStore e c item "id").truthy = true ∧
      (itemToStore e c item "id").isInf = false := by
    rw [itemToStore_id]
    unfold JVal.or
    split
    · rename_i ht; exact ⟨ht, hid⟩
    · have : (c.now : ℚ) ≠ 0 := by exact_mod_cast (Nat.pos_iff_ne_zero.mp hnow)
      simp [JVal.truthy, JNum.truthy, JVal.isInf, this]
  obtain ⟨hit, hinn, hiu⟩ := jsonify_truthy hidt.1 hidt.2
  refine ⟨?_, hit, hinn, hiu⟩
  unfold fetchAddedItems
  simp only [hw, ha, hget, hslot, if_true, Bool.false_eq_true, if_false, Text.truthy,
    JSON.parse, jsonify_arr, jsonifyList_eq_map, List.map_cons, jsonify_obj]
  have hall : ((JVal.obj (jsonifyObj (itemToStore e c item))) ::
      List.map JVal.jsonify (List.take 19 (existingItems env st))).all logsImage = true := by
    simp only [List.all_cons, List.all_eq_true, Bool.and_eq_true]
    refine ⟨by simp [logsImage, JVal.prop], ?_⟩
    intro y hy
    obtain ⟨x, hx, rfl⟩ := List.mem_map.mp hy
    have hx' := List.mem_of_mem_take hx
    have hcl := map_eq_self_mem (existingItems_clean env st) x hx'
    obtain ⟨old, ho, hxo⟩ := existingItems_mem hx'
    rw [hcl]
    exact logsImage_of_clean hcl (hrec old ho x hxo)
  rw [if_pos hall]
  have hvalid : isValidItem (JVal.obj (jsonifyObj (itemToStore e c item))) = true := by
    rw [isValidItem_obj]
    simpa [jsonifyObj, hiu] using hit
  simp [List.filter_cons, hvalid]

theorem store_ok {env : Env} {e : Engine} {c : Clock} {st : Storage} {item : Obj} {u : Bool}
    {items : List JVal}
    (hm : env.isMounted = true) (hw : env.hasWindow = true)
    (ha : env.localStorage = .available)
    (hpl : placeItem (existingItems env st) item (itemToStore e c item) u = .ok items)
    (hset : env.setItemOk recentKey (JSON.stringify (.arr (keepLast20 items))) = true) :
    (storeAddedItem env e c st item u).1 = true := by
  unfold storeAddedItem
  simp only [hm, hw, ha, hpl, Bool.not_true, Bool.false_eq_true, if_false,
    safeLocalStorage.setItem, hset, if_true, Bool.and_true]
  split <;> rfl

theorem existingItems_nil_of_none {env : Env} {st : Storage} (h : persisted st = none) :
    existingItems env st = [] := by
  apply List.eq_nil_iff_forall_not_mem.mpr
  intro x hx
  obtain ⟨old, ho, _⟩ := existingItems_mem hx
  rw [h] at ho
  cases ho

theorem prop_ok_of_clean {x : JVal} (hc : x.jsonify = x) (hn : x ≠ .null) (key : String) :
    ∃ v, x.prop key = .ok v := by
  cases x with
  | undefined => simp [JVal.jsonify] at hc
  | null => exact absurd rfl hn
  | obj o => exact ⟨o key, rfl⟩
  | _ => exact ⟨.undefined, rfl⟩

theorem findIndexBy_ok {key : String} {t : JVal} {xs : List JVal}
    (h : ∀ x ∈ xs, ∃ v, x.prop key = .ok v) : ∃ r, findIndexBy key t xs = .ok r := by
  induction xs with
  | nil => exact ⟨none, rfl⟩
  | cons x xs ih =>
    obtain ⟨v, hv⟩ := h x (List.mem_cons_self _ _)
    obtain ⟨r, hr⟩ := ih (fun y hy => h y (List.mem_cons_of_mem _ hy))
    unfold findIndexBy
    rw [hv]
    simp only
    split
    · exact ⟨_, rfl⟩
    · rw [hr]
      cases r with
      | none => exact ⟨_, rfl⟩
      | some i => exact ⟨_, rfl⟩

theorem placeItem_ok {items : List JVal} (item stored : Obj) (u : Bool)
    (h : u = true → ∀ x ∈ items, ∀ key, ∃ v, x.prop key = .ok v) :
    ∃ r, placeItem items item stored u = .ok r := by
  unfold placeItem
  cases u with
  | false => exact ⟨_, rfl⟩
  | true =>
    simp only [if_true]
    have hall := h rfl
    have hloc : ∃ r, locate items item = .ok r := by
      unfold locate
      obtain ⟨r1, h1⟩ := @findIndexBy_ok "id" (item "id") items (fun x hx => hall x hx "id")
      rw [h1]
      cases r1 with
      | some k => exact ⟨_, rfl⟩
      | none =>
        simp only
        split
        · exact @findIndexBy_ok "itemCode" (item "originalItemCode") items
            (fun x hx => hall x hx "itemCode")
        · exact ⟨_, rfl⟩
    obtain ⟨r, hr⟩ := hloc
    rw [hr]
    cases r with
    | none => exact ⟨_, rfl⟩
    | some k =>
      obtain ⟨_, oldId, hid⟩ := locate_some hr
      simp only [hid]
      exact ⟨_, rfl⟩

theorem persisted_slot {st : Storage} {xs : List JVal} (h : persisted st = some xs) :
    ∃ t, st recentKey = some t ∧ t.truthy = true ∧ JSON.parse t = .ok (.arr xs) := by
  unfold persisted at h
  cases ht : st recentKey with
  | none => simp [ht] at h
  | some t =>
    rw [ht] at h
    simp only at h
    cases t with
    | json v =>
      refine ⟨_, rfl, rfl, ?_⟩
      cases hx : JSON.parse (Text.json v) with
      | error err => simp [hx] at h
      | ok w =>
        rw [hx] at h
        cases w <;> simp at h
        rw [h]
    | _ => simp [JSON.parse] at h

theorem valid_is_obj {x : JVal} (h : isValidItem x = true) :
    ∃ o : Obj, x = .obj o ∧ (o "id").truthy = true := by
  cases x with
  | obj o => exact ⟨o, rfl, by simpa [isValidItem_obj] using h⟩
  | undefined => simp [isValidItem, JVal.truthy] at h
  | null => simp [isValidItem, JVal.truthy] at h
  | bool b => simp [isValidItem, JVal.prop, JVal.truthy] at h
  | num n => simp [isValidItem, JVal.prop] at h; simp [JVal.truthy] at h
  | str s => simp [isValidItem, JVal.prop] at h; simp [JVal.truthy] at h
  | arr xs => simp [isValidItem, JVal.prop] at h; simp [JVal.truthy] at h

theorem strictEq_ref {a b : JVal} (hb : b.isRef = true) : a.strictEq b = false := by
  cases b <;> cases a <;> first | rfl | cases hb

theorem strictEq_self {v : JVal} (ht : v.truthy = true) (hr : v.isRef = false) :
    v.strictEq v = true := by
  cases v with
  | num n => cases n <;> simp [JVal.strictEq, JNum.strictEq, JVal.truthy, JNum.truthy] at ht ⊢
  | bool b => simp [JVal.strictEq]
  | str s => simp [JVal.strictEq]
  | undefined => rfl
  | null => rfl
  | arr xs => cases hr
  | obj o => cases hr

theorem filterOut_prim {target : Obj} (pos : Option ℕ) (hr : (target "id").isRef = false) :
    ∀ (xs : List JVal) (m : ℕ), (∀ x ∈ xs, isValidItem x = true) →
      filterOut (.obj target) pos m xs = .ok (xs.filter fun i => !sameId i (.obj target))
  | [], _, _ => rfl
  | x :: xs, m, hvalid => by
    obtain ⟨o, rfl, _⟩ := valid_is_obj (hvalid x (List.mem_cons_self _ _))
    have ih := filterOut_prim pos hr xs (m + 1) fun y hy => hvalid y (List.mem_cons_of_mem _ hy)
    unfold filterOut
    rw [ih]
    by_cases h : (o "id").strictEq (target "id") = true <;>
      simp [keepsItem, JVal.prop, sameId, List.filter_cons, h, hr]

theorem filterOut_ref_none {target : Obj} (hr : (target "id").isRef = true) :
    ∀ (xs : List JVal) (m : ℕ), (∀ x ∈ xs, isValidItem x = true) →
      filterOut (.obj target) none m xs = .ok xs
  | [], _, _ => rfl
  | x :: xs, m, hvalid => by
    obtain ⟨o, rfl, _⟩ := valid_is_obj (hvalid x (List.mem_cons_self _ _))
    have ih := filterOut_ref_none hr xs (m + 1) fun y hy => hvalid y (List.mem_cons_of_mem _ hy)
    unfold filterOut
    rw [ih]
    simp [keepsItem, JVal.prop, hr, strictEq_ref hr]

theorem filterOut_ref_past {target : Obj} (n : ℕ) (hr : (target "id").isRef = true) :
    ∀ (xs : List JVal) (m : ℕ), n < m → (∀ x ∈ xs, isValidItem x = true) →
      filterOut (.obj target) (some n) m xs = .ok xs
  | [], _, _, _ => rfl
  | x :: xs, m, hm, hvalid => by
    obtain ⟨o, rfl, _⟩ := valid_is_obj (hvalid x (List.mem_cons_self _ _))
    have ih := filterOut_ref_past n hr xs (m + 1) (by omega)
      fun y hy => hvalid y (List.mem_cons_of_mem _ hy)
    unfold filterOut
    rw [ih]
    have hne : n ≠ m := by omega
    simp [keepsItem, JVal.prop, hr, strictEq_ref hr, hne]

theorem filterOut_ref_some {target : Obj} (n : ℕ) (hr : (target "id").isRef = true) :
    ∀ (xs : List JVal) (m : ℕ), m ≤ n → (∀ x ∈ xs, isValidItem x = true) →
      xs[n - m]? = some (.obj target) →
      filterOut (.obj target) (some n) m xs = .ok (xs.eraseIdx (n - m))
  | [], _, _, _, hat => by simp at hat
  | x :: xs, m, hm, hvalid, hat => by
    obtain ⟨o, rfl, _⟩ := valid_is_obj (hvalid x (List.mem_cons_self _ _))
    have hv : ∀ y ∈ xs, isValidItem y = true := fun y hy => hvalid y (List.mem_cons_of_mem _ hy)
    unfold filterOut
    by_cases hmn : m = n
    · subst hmn
      simp only [Nat.sub_self, List.getElem?_cons_zero, Option.some.injEq, JVal.obj.injEq] at hat
      subst hat
      rw [filterOut_ref_past m hr xs (m + 1) (by omega) hv]
      simp [keepsItem, JVal.prop, hr]
    · have hlt : m + 1 ≤ n := by omega
      have hsub : n - m = (n - (m + 1)) + 1 := by omega
      rw [hsub, List.getElem?_cons_succ] at hat
      rw [filterOut_ref_some n hr xs (m + 1) hlt hv hat, hsub, List.eraseIdx_cons_succ]
      have hne : n ≠ m := fun h => hmn h.symm
      simp [keepsItem, JVal.prop, hr, strictEq_ref hr, hne]

theorem filterOut_valid {target : Obj} {xs : List JVal} {pos : Option ℕ}
    (hvalid : ∀ x ∈ xs, isValidItem x = true)
    (hpos : ∀ n, pos = some n → xs[n]? = some (.obj target)) :
    filterOut (.obj target) pos 0 xs = .ok (withoutTarget xs target pos) := by
  unfold withoutTarget
  by_cases hr : (target "id").isRef = true
  · rw [if_pos hr]
    cases pos with
    | none => exact filterOut_ref_none hr xs 0 hvalid
    | some n => exact filterOut_ref_some n hr xs 0 (Nat.zero_le _) hvalid (hpos n rfl)
  · rw [if_neg hr]
    exact filterOut_prim pos (by simpa using hr) xs 0 hvalid

theorem handleDeleteItem_valid {env : Env} {st : Storage} {addedItems : List JVal} {target : Obj}
    {pos : Option ℕ}
    (hw : env.hasWindow = true) (ha : env.localStorage = .available)
    (hvalid : ∀ x ∈ addedItems, isValidItem x = true)
    (hpos : ∀ n, pos = some n → addedItems[n]? = some (.obj target))
    (hset : env.setItemOk recentKey
      (JSON.stringify (.arr (withoutTarget addedItems target pos))) = true) :
    handleDeleteItem env st addedItems (.obj target) pos =
      (st.put recentKey (.json (.arr (withoutTarget addedItems target pos))),
        withoutTarget addedItems target pos) := by
  simp only [JSON.stringify] at hset
  unfold handleDeleteItem
  simp only [hw, Bool.not_true, Bool.false_eq_true, if_false, filterOut_valid hvalid hpos,
    localStorage.setItem, ha, hset, if_true, JSON.stringify]

theorem withoutTarget_sublist (addedItems : List JVal) (target : Obj) (pos : Option ℕ) :
    (withoutTarget addedItems target pos).Sublist addedItems := by
  unfold withoutTarget
  split
  · cases pos with
    | none => exact List.Sublist.refl _
    | some n => exact List.eraseIdx_sublist _ _
  · exact List.filter_sublist _

theorem sameId_trans {a b t : JVal} (h1 : sameId a t = true) (h2 : sameId b t = true) :
    sameId a b = true := by
  unfold sameId at *
  cases ha : a.prop "id" with
  | error err => simp [ha] at h1
  | ok x =>
    cases hb : b.prop "id" with
    | error err => simp [hb] at h2
    | ok y =>
      cases ht : t.prop "id" with
      | error err => simp [ha, ht] at h1
      | ok z =>
        simp only [ha, ht] at h1
        simp only [hb, ht] at h2
        have e1 := strictEq_eq h1
        have e2 := strictEq_eq h2
        subst e1
        subst e2
        simpa using h1

theorem countP_sameId_eq_one {xs : List JVal} {t : JVal}
    (hpair : xs.Pairwise fun a b => sameId a b = false) (hmem : t ∈ xs)
    (hself : sameId t t = true) : xs.countP (fun i => sameId i t) = 1 := by
  induction xs with
  | nil => simp at hmem
  | cons a rest ih =>
    rw [List.pairwise_cons] at hpair
    by_cases ha : sameId a t = true
    · have hrest : rest.countP (fun i => sameId i t) = 0 := by
        rw [List.countP_eq_zero]
        intro b hb hbt
        have := sameId_trans ha hbt
        rw [hpair.1 b hb] at this
        cases this
      simp [List.countP_cons, ha, hrest]
    · have hne : t ≠ a := by
        rintro rfl
        exact ha hself
      have hmem' : t ∈ rest := by
        rcases List.mem_cons.mp hmem with h | h
        · exact absurd h hne
        · exact h
      simp [List.countP_cons, ha, ih hpair.2 hmem']

theorem map_eq_self_of_mem {f : JVal → JVal} {xs : List JVal} (h : ∀ x ∈ xs, f x = x) :
    xs.map f = xs := by
  induction xs with
  | nil => rfl
  | cons y ys ih =>
    rw [List.map_cons, h y (List.mem_cons_self _ _),
      ih (fun x hx => h x (List.mem_cons_of_mem _ hx))]

theorem existingItems_cases (env : Env) (st : Storage) :
    existingItems env st = [] ∨ persisted st = some (existingItems env st) := by
  unfold existingItems safeLocalStorage.getItem persisted
  split
  · exact Or.inl rfl
  · rename_i t ht
    split at ht
    · simp at ht
    · split at ht
      · split at ht
        · simp at ht
        · rw [ht]
          simp only
          split
          · split
            · rename_i xs hxs
              right
              simp [hxs]
            · exact Or.inl rfl
          · exact Or.inl rfl
      · simp at ht

theorem strictEq_comm (a b : JVal) : a.strictEq b = b.strictEq a := by
  cases a <;> cases b <;> try rfl
  · simp [JVal.strictEq, Bool.beq_comm]
  · rename_i m n
    cases m <;> cases n <;> simp [JVal.strictEq, JNum.strictEq, eq_comm, Bool.beq_comm]
  · simp [JVal.strictEq, eq_comm]

theorem built_id (e : Engine) (c : Clock) (item : Obj) :
    (JVal.obj (itemToStore e c item)).jsonify.prop "id" = .ok (storedId c item) := by
  rw [jsonify_obj]
  have hu : ((item "id").or (.num (.fin c.now))).isUndefined = false := by
    unfold JVal.or
    split
    · rename_i ht
      exact truthy_not_undefined ht
    · rfl
  simp [JVal.prop, jsonifyObj, itemToStore_id, storedId, hu]

theorem ids_pairwise : ∀ {xs vs : List JVal},
    List.Forall₂ (fun x v => x.prop "id" = .ok v) xs vs →
    vs.Pairwise (fun a b => a.strictEq b = false) →
    xs.Pairwise fun a b => sameId a b = false
  | _, _, .nil, _ => List.Pairwise.nil
  | _, _, @List.Forall₂.cons _ _ _ x v xs vs hx hrest, hp => by
    rw [List.pairwise_cons] at hp
    refine List.Pairwise.cons ?_ (ids_pairwise hrest hp.2)
    intro y hy
    obtain ⟨w, hw, hyw⟩ : ∃ w ∈ vs, y.prop "id" = .ok w := by
      clear hp
      induction hrest with
      | nil => cases hy
      | @cons z k zs ks hz _ ih =>
        rcases List.mem_cons.mp hy with rfl | hy'
        · exact ⟨k, List.mem_cons_self _ _, hz⟩
        · obtain ⟨m, hm, hym⟩ := ih hy'
          exact ⟨m, List.mem_cons_of_mem _ hm, hym⟩
    simp only [sameId, hx, hyw]
    exact hp.1 w hw

theorem forall₂_take {R : JVal → JVal → Prop} : ∀ {xs vs : List JVal} (k : ℕ),
    List.Forall₂ R xs vs → List.Forall₂ R (xs.take k) (vs.take k)
  | _, _, 0, _ => by simp
  | _, _, _ + 1, .nil => by simp
  | _, _, k + 1, .cons hx hrest => by
    simp only [List.take_succ_cons]
    exact List.Forall₂.cons hx (forall₂_take k hrest)

theorem addAll_storedIds {env : Env} {e : Engine} :
    ∀ (adds : List (Clock × Obj)) (st st' : Storage) (used : List JVal),
      (∀ xs, persisted st = some xs → ∃ vs, List.Forall₂ (fun x v => x.prop "id" = .ok v) xs vs ∧
        vs.Pairwise (fun a b => a.strictEq b = false) ∧ vs ⊆ used) →
      (used ++ adds.map fun p => storedId p.1 p.2).Pairwise (fun a b => a.strictEq b = false) →
      addAll env e st adds = some st' →
      ∀ xs, persisted st' = some xs → ∃ vs, List.Forall₂ (fun x v => x.prop "id" = .ok v) xs vs ∧
        vs.Pairwise (fun a b => a.strictEq b = false)
  | [], st, st', used, hinv, _, h => by
    simp only [addAll, Option.some.injEq] at h
    subst h
    intro xs hxs
    obtain ⟨vs, h1, h2, _⟩ := hinv xs hxs
    exact ⟨vs, h1, h2⟩
  | (c, item) :: rest, st, st', used, hinv, hnd, h => by
    unfold addAll at h
    cases hs : storeAddedItem env e c st item false with
    | mk ok st1 =>
      rw [hs] at h
      cases ok with
      | false => simp at h
      | true =>
        simp only at h
        obtain ⟨items, hpl, hp⟩ := persisted_of_success hs
        simp only [placeItem, Bool.false_eq_true, if_false, Except.ok.injEq] at hpl
        subst hpl
        rw [keepLast20_cons, List.map_cons, List.map_take, existingItems_clean] at hp
        have hex : ∃ vs, List.Forall₂ (fun x v => x.prop "id" = .ok v) (existingItems env st) vs ∧
            vs.Pairwise (fun a b => a.strictEq b = false) ∧ vs ⊆ used := by
          rcases existingItems_cases env st with h0 | h0
          · rw [h0]
            exact ⟨[], List.Forall₂.nil, List.Pairwise.nil, by simp⟩
          · exact hinv _ h0
        obtain ⟨vs, hids, hpw, hsub⟩ := hex
        have hnew : ∀ u ∈ used, u.strictEq (storedId c item) = false := by
          intro u hu
          have := (List.pairwise_append.mp hnd).2.2 u hu (storedId c item) (by simp)
          exact this
        refine addAll_storedIds rest st1 st' (used ++ [storedId c item]) ?_ ?_ h
        · intro xs hxs
          rw [hp] at hxs
          cases hxs
          refine ⟨storedId c item :: vs.take 19, ?_, ?_, ?_⟩
          · exact List.Forall₂.cons (built_id e c item) (forall₂_take 19 hids)
          · rw [List.pairwise_cons]
            refine ⟨fun v hv => ?_, hpw.sublist (List.take_sublist _ _)⟩
            rw [strictEq_comm]
            exact hnew v (hsub (List.mem_of_mem_take hv))
          · intro v hv
            rcases List.mem_cons.mp hv with rfl | hv'
            · simp
            · exact List.mem_append_left _ (hsub (List.mem_of_mem_take hv'))
        · simpa [List.append_assoc] using hnd

/-! ## Lemmas on the handoff, the image and the fittings page -/

theorem store_failure_keeps (env : Env) (e : Engine) (c : Clock) (st : Storage) (item : Obj)
    (u : Bool) (h : (storeAddedItem env e c st item u).1 = false) :
    (storeAddedItem env e c st item u).2 = st := by
  unfold storeAddedItem at h ⊢
  by_cases hm : env.isMounted = true
  swap
  · simp [hm]
  simp only [hm, Bool.not_true, Bool.false_eq_true, if_false] at h ⊢
  cases hp : placeItem (existingItems env st) item (itemToStore e c item) u with
  | error err => rfl
  | ok items =>
    rw [hp] at h
    simp only at h ⊢
    by_cases hw : env.hasWindow = true
    swap
    · simp [hw]
    simp only [hw, Bool.not_true, Bool.false_eq_true, if_false] at h ⊢
    cases ha : env.localStorage with
    | available =>
      rw [ha] at h
      simp only [safeLocalStorage.setItem, hw, ha, JSON.stringify,
        Bool.not_true, Bool.false_eq_true, if_false] at h ⊢
      by_cases hok : env.setItemOk recentKey (.json (.arr (keepLast20 items))) = true
      · simp [hok] at h
        split at h <;> simp at h
      · simp [hok]
    | missing => rfl
    | denied => rfl

theorem store_success_handoff {env : Env} {e : Engine} {c : Clock} {st st' : Storage}
    {item : Obj} (h : storeAddedItem env e c st item true = (true, st'))
    (hrm : env.removeItemThrows = false) : st' updateKey = none := by
  obtain ⟨hm, hw, ha, items, hpl, hok, _⟩ := store_success h
  unfold storeAddedItem at h
  simp only [hm, hw, ha, hpl, Bool.not_true, Bool.false_eq_true, if_false,
    safeLocalStorage.setItem, safeLocalStorage.removeItem, JSON.stringify] at h
  simp only [hok, hrm, if_true, Bool.and_true, Bool.false_eq_true, if_false,
    Prod.mk.injEq, true_and] at h
  subst h
  simp [Storage.remove]

theorem mem_keepLast20 {x : JVal} {xs : List JVal} (h : x ∈ keepLast20 xs) : x ∈ xs := by
  unfold keepLast20 at h
  split at h
  · exact List.mem_of_mem_take h
  · exact h

theorem placeItem_mem {items r : List JVal} {item stored : Obj} {u : Bool}
    (h : placeItem items item stored u = .ok r) {x : JVal} (hx : x ∈ r) :
    x ∈ items ∨ ∃ idv, x = .obj (stored.set "id" idv) := by
  have hself : JVal.obj stored = .obj (stored.set "id" (stored "id")) := by
    congr 1
    funext key
    by_cases hk : key = "id" <;> simp [Obj.set, hk]
  unfold placeItem at h
  cases u with
  | false =>
    simp only [Bool.false_eq_true, if_false, Except.ok.injEq] at h
    subst h
    rcases List.mem_cons.mp hx with rfl | hx
    · exact Or.inr ⟨_, hself⟩
    · exact Or.inl hx
  | true =>
    simp only [if_true] at h
    cases hl : locate items item with
    | error err => rw [hl] at h; simp at h
    | ok o =>
      rw [hl] at h
      cases o with
      | none =>
        simp only [Except.ok.injEq] at h
        subst h
        rcases List.mem_cons.mp hx with rfl | hx
        · exact Or.inr ⟨_, hself⟩
        · exact Or.inl hx
      | some k =>
        simp only at h
        cases hid : (items.getD k .undefined).prop "id" with
        | error err => rw [hid] at h; simp at h
        | ok oldId =>
          rw [hid] at h
          simp only [Except.ok.injEq] at h
          subst h
          rcases List.mem_or_eq_of_mem_set hx with hx | rfl
          · exact Or.inl hx
          · exact Or.inr ⟨_, rfl⟩

theorem wellFormed_written (e : Engine) (c : Clock) (item : Obj) (idv : JVal)
    (hfin : e.finiteInput item = true) :
    e.wellFormed item (jsonifyObj ((itemToStore e c item).set "id" idv)) := by
  simp only [Engine.finiteInput, Bool.and_eq_true, Bool.not_eq_true'] at hfin
  obtain ⟨⟨⟨⟨⟨⟨hn, hm⟩, hs⟩, _⟩, _⟩, hst⟩, hpr⟩ := hfin
  have hstr : ∀ s : String, s ≠ "" → (JVal.str s).truthy = true := by
    intro s hs; simp [JVal.truthy, hs]
  have hrk : ∀ key, key ≠ "id" →
      jsonifyObj ((itemToStore e c item).set "id" idv) key = jsonifyObj (itemToStore e c item) key := by
    intro key hk; simp [jsonifyObj, Obj.set, hk]
  have field : ∀ (a d : JVal), d.truthy = true → d.isInf = false → a.isInf = false →
      (if (a.or d).isUndefined then JVal.undefined else (a.or d).jsonify) ≠ .null ∧
      (if (a.or d).isUndefined then JVal.undefined else (a.or d).jsonify) ≠ .undefined := by
    intro a d hd hdi ha
    have h1 : (a.or d).truthy = true ∧ (a.or d).isInf = false := by
      unfold JVal.or
      split
      · rename_i ht; exact ⟨ht, ha⟩
      · exact ⟨hd, hdi⟩
    obtain ⟨_, h3, h4⟩ := jsonify_truthy h1.1 h1.2
    rw [h4]
    simp only [Bool.false_eq_true, if_false]
    refine ⟨h3, ?_⟩
    intro hh
    have := jsonify_ne_undefined (a.or d)
    rw [hh] at this
    simp [JVal.isUndefined] at this
  have number : ∀ v : JVal, (JVal.num (e.toNumber v)).isInf = false →
      ∃ q, jsonifyObj (fun _ => (JVal.num (e.toNumber v)).or (.num (.fin 0))) "x" = .num (.fin q) ∧
        (e.toNumber v = .fin q ∨ (e.toNumber v = .nan ∧ q = 0)) := by
    intro v hv
    cases hn : e.toNumber v with
    | nan =>
      exact ⟨0, by simp [jsonifyObj, JVal.or, JVal.truthy, JNum.truthy, JVal.isUndefined,
        JVal.jsonify], Or.inr ⟨rfl, rfl⟩⟩
    | inf b => simp [hn, JVal.isInf] at hv
    | fin q =>
      refine ⟨q, ?_, Or.inl rfl⟩
      by_cases hq : q = 0 <;>
        simp [jsonifyObj, JVal.or, JVal.truthy, JNum.truthy, JVal.isUndefined, JVal.jsonify, hq]
  unfold Engine.wellFormed
  rw [hrk "name" (by decide), hrk "material" (by decide), hrk "size" (by decide),
    hrk "stockLevel" (by decide), hrk "price" (by decide)]
  simp only [jsonifyObj, itemToStore_name, itemToStore_material, itemToStore_size,
    itemToStore_stockLevel, itemToStore_price]
  have fN := field (item "itemName") (.str "Unnamed Item") (hstr _ (by decide)) rfl hn
  have fM := field (item "material") (.str "Unknown") (hstr _ (by decide)) rfl hm
  have fS := field (item "size") (.str "Standard") (hstr _ (by decide)) rfl hs
  refine ⟨fN.1, fN.2, fM.1, fM.2, fS.1, fS.2, ?_, ?_, ?_, ?_⟩
  · intro hf
    simp [JVal.or, hf, JVal.isUndefined, JVal.jsonify]
  · intro hf
    simp [JVal.or, hf, JVal.isUndefined, JVal.jsonify]
  · obtain ⟨q, h1, h2⟩ := number (item "stockLevel") hst
    refine ⟨.fin q, by simpa [jsonifyObj] using h1, by simp, ?_⟩
    rcases h2 with h2 | ⟨h2, rfl⟩
    · exact Or.inl h2
    · exact Or.inr ⟨h2, rfl⟩
  · obtain ⟨q, h1, h2⟩ := number (item "price") hpr
    refine ⟨.fin q, by simpa [jsonifyObj] using h1, by simp, ?_⟩
    rcases h2 with h2 | ⟨h2, rfl⟩
    · exact Or.inl h2
    · exact Or.inr ⟨h2, rfl⟩

theorem truthy_ne {v : JVal} (h : v.truthy = true) : v ≠ .null ∧ v ≠ .undefined := by
  constructor <;> intro hv <;> rw [hv] at h <;> cases h

theorem or_truthy (a d : JVal) (hd : d.truthy = true) : (a.or d).truthy = true := by
  unfold JVal.or
  split
  · assumption
  · exact hd

theorem or_of_falsy {a : JVal} (d : JVal) (h : a.truthy = false) : a.or d = d := by
  simp [JVal.or, h]

theorem number_or_zero_built (e : Engine) (v : JVal) :
    ∃ n, (JVal.num (e.toNumber v)).or (.num (.fin 0)) = .num n ∧ n ≠ .nan ∧
      (e.toNumber v = n ∨ (e.toNumber v = .nan ∧ n = .fin 0)) := by
  cases hn : e.toNumber v with
  | nan => exact ⟨.fin 0, rfl, by simp, Or.inr ⟨rfl, rfl⟩⟩
  | inf b => exact ⟨.inf b, rfl, by simp, Or.inl rfl⟩
  | fin q =>
    refine ⟨.fin q, ?_, by simp, Or.inl rfl⟩
    by_cases hq : q = 0 <;> simp [JVal.or, JVal.truthy, JNum.truthy, hq]

theorem wellFormed_built (e : Engine) (c : Clock) (item : Obj) :
    e.wellFormed item (itemToStore e c item) := by
  unfold Engine.wellFormed
  rw [itemToStore_name, itemToStore_material, itemToStore_size, itemToStore_stockLevel,
    itemToStore_price]
  have hN := truthy_ne (or_truthy (item "itemName") (.str "Unnamed Item") rfl)
  have hM := truthy_ne (or_truthy (item "material") (.str "Unknown") rfl)
  have hS := truthy_ne (or_truthy (item "size") (.str "Standard") rfl)
  exact ⟨hN.1, hN.2, hM.1, hM.2, hS.1, hS.2, or_of_falsy _, or_of_falsy _,
    number_or_zero_built e _, number_or_zero_built e _⟩

theorem handleImageUpload_some (f : File) (imagePreview : JVal) :
    handleImageUpload (some f) imagePreview =
      if f.size > 2 * 1024 * 1024 then (some tooLargeMessage, imagePreview)
      else match f.result with
        | some url => (none, .str url)
        | none => (some readErrorMessage, .null) := rfl

theorem sameValueZero_of_strictEq {a b : JVal} (h : a.strictEq b = true) :
    a.sameValueZero b = true := by
  unfold JVal.sameValueZero
  split
  · rfl
  · exact h

theorem strictEq_false_of_sameValueZero {a b : JVal} (h : a.sameValueZero b = false) :
    a.strictEq b = false := by
  cases hs : a.strictEq b with
  | false => rfl
  | true => rw [sameValueZero_of_strictEq hs] at h; cases h

theorem combinedData_some {s : List Obj} (hs : s ≠ []) (data : List Obj) :
    combinedData (some s) data =
      s ++ data.filter fun d => s.all fun x => !(x "id").sameValueZero (d "id") := by
  have hl : s.length > 0 := List.length_pos.mpr hs
  simp only [combinedData, hl, if_true]
  congr 1
  apply List.filter_congr
  intro d _
  induction s with
  | nil => rfl
  | cons x xs ih =>
    by_cases hxs : xs = []
    · subst hxs
      simp
    · have := ih hxs (List.length_pos.mpr hxs)
      simp only [List.map_cons, List.any_cons, List.all_cons, Bool.not_or] at this ⊢
      rw [this]

theorem combinedData_nil (data : List Obj) : combinedData (some []) data = data := rfl

theorem combinedData_pairwise {stored : Option (List Obj)} {data : List Obj}
    (hS : ∀ s, stored = some s → idsDistinct s) (hF : idsDistinct data) :
    idsDistinct (combinedData stored data) := by
  cases stored with
  | none => exact hF
  | some s =>
    by_cases hs : s = []
    · subst hs; exact hF
    · rw [combinedData_some hs]
      unfold idsDistinct at *
      rw [List.pairwise_append]
      refine ⟨hS s rfl, hF.sublist (List.filter_sublist _), ?_⟩
      intro a ha b hb
      have hb2 := (List.mem_filter.mp hb).2
      rw [List.all_eq_true] at hb2
      have := hb2 a ha
      simp only [Bool.not_eq_true'] at this
      exact strictEq_false_of_sameValueZero this

theorem get_of_prop {x v : JVal} {k : String} (h : x.prop k = .ok v) : x.get k = v := by
  cases x <;> simp [JVal.prop, JVal.get] at h ⊢ <;> exact h

theorem isFitting_eq {x : JVal} {b : Bool} (h : isFitting x = .ok b) : b = matchesFittings x := by
  unfold isFitting at h
  cases hp : x.prop "category" with
  | error err => simp [hp] at h
  | ok category =>
    have hg := get_of_prop hp
    rw [hp] at h
    simp only at h
    unfold matchesFittings
    rw [hg]
    by_cases hc : (category.strictEq (.str "fittings") || category.strictEq (.str "Fittings")) = true
    · rw [if_pos hc] at h
      simp only [Except.ok.injEq] at h
      rw [← h, hc, Bool.true_or]
    · rw [if_neg hc] at h
      simp only [Bool.not_eq_true] at hc
      rw [hc, Bool.false_or]
      by_cases hn : (x.get "name").truthy = true
      · rw [if_pos hn] at h
        cases hname : x.get "name" with
        | str s =>
          rw [hname] at h
          simp only [namesFitting, Except.ok.injEq] at h
          exact h.symm
        | _ => rw [hname] at h; simp [namesFitting] at h
      · rw [if_neg hn] at h
        simp only [Except.ok.injEq] at h
        subst h
        cases hname : x.get "name" with
        | str s =>
          rw [hname] at hn
          have hs : s = "" := by simpa [JVal.truthy] using hn
          subst hs
          rfl
        | _ => rfl

theorem filterFittings_eq : ∀ {xs fs : List JVal}, filterFittings xs = .ok fs →
    fs = xs.filter matchesFittings
  | [], fs, h => by
    simp only [filterFittings, Except.ok.injEq] at h
    subst h
    rfl
  | x :: xs, fs, h => by
    unfold filterFittings at h
    cases hx : isFitting x with
    | error err => simp [hx] at h
    | ok keep =>
      rw [hx] at h
      cases hr : filterFittings xs with
      | error err => simp [hr] at h
      | ok r =>
        rw [hr] at h
        simp only [Except.ok.injEq] at h
        rw [← h, filterFittings_eq hr, isFitting_eq hx, List.filter_cons]

theorem displayAll_forall₂ {e : Engine} {h : Host} : ∀ {fs : List JVal} {S : List Obj},
    displayAll e h fs = .ok S → List.Forall₂ (fun x d => displayItem e h x = .ok d) fs S
  | [], S, hd => by
    simp [displayAll] at hd
    subst hd
    exact List.Forall₂.nil
  | x :: xs, S, hd => by
    unfold displayAll at hd
    cases hx : displayItem e h x with
    | error err => simp [hx] at hd
    | ok d =>
      rw [hx] at hd
      cases hr : displayAll e h xs with
      | error err => simp [hr] at hd
      | ok r =>
        rw [hr] at hd
        simp only [Except.ok.injEq] at hd
        subst hd
        exact List.Forall₂.cons hx (displayAll_forall₂ hr)

theorem load_some {env : Env} {e : Engine} {h : Host} {st : Storage} {S : List Obj}
    (hload : loadStoredItems env e h st = some S) :
    ∃ xs, persisted st = some xs ∧ displayAll e h (xs.filter matchesFittings) = .ok S := by
  unfold loadStoredItems at hload
  by_cases hw : env.hasWindow = true
  swap
  · simp [hw] at hload
  rw [if_pos hw] at hload
  cases ha : env.localStorage with
  | available =>
    rw [ha] at hload
    simp only at hload
    by_cases hg : env.getItemThrows = true
    · simp [hg] at hload
    rw [if_neg hg] at hload
    cases ht : st recentKey with
    | none => simp [ht] at hload
    | some t =>
      rw [ht] at hload
      simp only at hload
      by_cases htt : t.truthy = true
      swap
      · simp [htt] at hload
      rw [if_pos htt] at hload
      cases hp : JSON.parse t with
      | error err => simp [hp] at hload
      | ok v =>
        rw [hp] at hload
        cases v with
        | arr parsedItems =>
          simp only at hload
          cases hf : filterFittings parsedItems with
          | error err => simp [hf] at hload
          | ok fs =>
            rw [hf] at hload
            simp only at hload
            cases hd : displayAll e h fs with
            | error err => simp [hd] at hload
            | ok items =>
              rw [hd] at hload
              simp only [Option.some.injEq] at hload
              subst hload
              refine ⟨parsedItems, by simp [persisted, ht, hp], ?_⟩
              rw [← filterFittings_eq hf]
              exact hd
        | _ => simp at hload
  | missing => simp [ha] at hload
  | denied => simp [ha] at hload

theorem roundDouble_ne_nan (q : ℚ) : roundDouble q ≠ .nan := by
  unfold roundDouble
  split
  · simp
  · simp only
    split
    · split <;> simp
    · simp

theorem num_or_zero {n : JNum} (hn : n ≠ .nan) :
    (JVal.num n).or (.num (.fin 0)) = .num n := by
  cases n with
  | nan => exact absurd rfl hn
  | inf b => rfl
  | fin q => by_cases hq : q = 0 <;> simp [JVal.or, JVal.truthy, JNum.truthy, hq]

theorem plus_num (h : Host) (e : Engine) (a b : JNum) :
    h.plus e (.num a) (.num b) = .num (a.add b) := rfl

theorem foldl_plus (h : Host) (e : Engine) : ∀ (items : List Obj) (acc : JNum),
    (∀ item ∈ items, ∃ n, item "value" = .num n) →
    items.foldl (fun sum item => h.plus e sum (item "value")) (.num acc) =
      .num (items.foldl (fun sum item => sum.add (e.toNumber (item "value"))) acc)
  | [], _, _ => rfl
  | x :: xs, acc, hv => by
    obtain ⟨n, hx⟩ := hv x (List.mem_cons_self _ _)
    rw [List.foldl_cons, List.foldl_cons, hx, plus_num]
    exact foldl_plus h e xs _ fun item hi => hv item (List.mem_cons_of_mem _ hi)

theorem statsOf_value (h : Host) (e : Engine) (items : List Obj)
    (hv : ∀ item ∈ items, ∃ n, item "value" = .num n) :
    (statsOf e h items).value =
      .num (items.foldl (fun sum item => sum.add (e.toNumber (item "value"))) (.fin 0)) :=
  foldl_plus h e items (.fin 0) hv

theorem foldl_add_exact : ∀ (vs : List ℚ) (acc : ℚ),
    (∀ k, roundDouble (acc + (vs.take k).sum) = .fin (acc + (vs.take k).sum)) →
    vs.foldl (fun (s : JNum) (v : ℚ) => s.add (.fin v)) (.fin acc) = .fin (acc + vs.sum)
  | [], acc, _ => by simp
  | v :: vs, acc, hk => by
    have h1 := hk 1
    simp only [List.take_succ_cons, List.take_zero, List.sum_cons, List.sum_nil, add_zero] at h1
    rw [List.foldl_cons]
    show vs.foldl _ (roundDouble (acc + v)) = _
    rw [h1, foldl_add_exact vs (acc + v) fun k => by
      have := hk (k + 1)
      simpa [add_assoc] using this]
    simp [add_assoc]

theorem foldl_values (e : Engine) : ∀ (items : List Obj) (vs : List ℚ) (acc : JNum),
    (items.map fun item => item "value") = vs.map (fun v => JVal.num (.fin v)) →
    items.foldl (fun sum item => sum.add (e.toNumber (item "value"))) acc =
      vs.foldl (fun (s : JNum) (v : ℚ) => s.add (.fin v)) acc
  | [], [], _, _ => rfl
  | [], _ :: _, _, h => by simp at h
  | _ :: _, [], _, h => by simp at h
  | x :: xs, v :: vs, acc, h => by
    simp only [List.map_cons, List.cons.injEq] at h
    rw [List.foldl_cons, List.foldl_cons, h.1]
    exact foldl_values e xs vs _ h.2

theorem statsOf_value_exact (h : Host) (e : Engine) (items : List Obj) (vs : List ℚ)
    (hvs : (items.map fun item => item "value") = vs.map (fun v => JVal.num (.fin v)))
    (hex : ∀ k, roundDouble (vs.take k).sum = .fin (vs.take k).sum) :
    (statsOf e h items).value = .num (.fin vs.sum) := by
  have hv : ∀ item ∈ items, ∃ n, item "value" = .num n := by
    intro item hi
    have hm : item "value" ∈ items.map fun item => item "value" := List.mem_map_of_mem _ hi
    rw [hvs] at hm
    obtain ⟨v, _, hv⟩ := List.mem_map.mp hm
    exact ⟨_, hv.symm⟩
  rw [statsOf_value h e items hv, foldl_values e items vs _ hvs,
    foldl_add_exact vs 0 fun k => by simpa using hex k]
  simp

theorem lt_num (e : Engine) (a b : JNum) : e.lt (.num a) (.num b) = a.lt b := rfl

theorem statsOf_lowStock (h : Host) (e : Engine) (items : List Obj)
    (hn : ∀ item ∈ items, ∃ a b, item "stockLevel" = .num a ∧ item "reorderLevel" = .num b) :
    (statsOf e h items).lowStock = items.countP belowOwnLevel := by
  simp only [statsOf, List.countP_eq_length_filter]
  congr 1
  apply List.filter_congr
  intro item hi
  obtain ⟨a, b, ha, hb⟩ := hn item hi
  simp [belowOwnLevel, ha, hb, lt_num]

theorem displayItem_fields {e : Engine} {h : Host} {x : JVal} {d : Obj}
    (hd : displayItem e h x = .ok d) :
    d "stockLevel" = (JVal.num (e.toNumber (x.get "stockLevel"))).or (.num (.fin 0)) ∧
      d "price" = (JVal.num (e.toNumber (x.get "price"))).or (.num (.fin 0)) ∧
      d "value" = (JVal.num (e.toNumber (e.times (x.get "price") (x.get "stockLevel")))).or
        (.num (.fin 0)) ∧
      d "reorderLevel" = .num (.fin 15) := by
  unfold displayItem at hd
  cases hp : x.prop "id" with
  | error err => simp [hp] at hd
  | ok v =>
    rw [hp] at hd
    simp only at hd
    split at hd
    · cases hd
    · simp only [Except.ok.injEq] at hd
      subst hd
      exact ⟨rfl, rfl, rfl, rfl⟩

theorem displayItem_numeric {e : Engine} {h : Host} {x : JVal} {d : Obj} {p s : ℚ}
    (hd : displayItem e h x = .ok d)
    (hp : x.get "price" = .num (.fin p)) (hs : x.get "stockLevel" = .num (.fin s)) :
    d "value" = .num (roundDouble (p * s)) ∧ d "price" = .num (.fin p) ∧
      d "stockLevel" = .num (.fin s) := by
  obtain ⟨h1, h2, h3, _⟩ := displayItem_fields hd
  rw [hs] at h1
  rw [hp] at h2
  rw [hp, hs] at h3
  rw [number_or_zero_fin] at h1 h2
  refine ⟨?_, h2, h1⟩
  rw [h3]
  exact num_or_zero (roundDouble_ne_nan (p * s))

theorem stored_fittings_aux {env : Env} {e : Engine} {h : Host} {st : Storage}
    {xs : List JVal} {S : List Obj}
    (hp : persisted st = some xs) (hload : loadStoredItems env e h st = some S) :
    List.Forall₂ (fun x d => displayItem e h x = .ok d) (xs.filter matchesFittings) S := by
  obtain ⟨ys, hys, hd⟩ := load_some hload
  rw [hp] at hys
  rw [Option.some.inj hys]
  exact displayAll_forall₂ hd

theorem forall₂_numeric {e : Engine} {h : Host} : ∀ {fs : List JVal} {S : List Obj},
    List.Forall₂ (fun x d => displayItem e h x = .ok d) fs S →
    (∀ x ∈ fs, ∃ p s, x.get "price" = .num (.fin p) ∧ x.get "stockLevel" = .num (.fin s)) →
    List.Forall₂ (fun x d =>
      d "value" = .num (roundDouble ((x.get "price").toRat * (x.get "stockLevel").toRat)) ∧
        d "price" = x.get "price" ∧ d "stockLevel" = x.get "stockLevel") fs S
  | _, _, .nil, _ => List.Forall₂.nil
  | _, _, .cons hxd hrest, hmem => by
    obtain ⟨p, s, hpr, hst⟩ := hmem _ (List.mem_cons_self _ _)
    obtain ⟨h1, h2, h3⟩ := displayItem_numeric hxd hpr hst
    refine List.Forall₂.cons ⟨?_, ?_, ?_⟩
      (forall₂_numeric hrest fun x hx => hmem x (List.mem_cons_of_mem _ hx))
    · rw [h1, hpr, hst]; rfl
    · rw [h2, hpr]
    · rw [h3, hst]

theorem forall₂_values : ∀ {fs : List JVal} {S : List Obj},
    List.Forall₂ (fun x d =>
      d "value" = .num (roundDouble ((x.get "price").toRat * (x.get "stockLevel").toRat)) ∧
        d "price" = x.get "price" ∧ d "stockLevel" = x.get "stockLevel") fs S →
    ∀ d ∈ S, d "value" = .num (roundDouble ((d "price").toRat * (d "stockLevel").toRat))
  | _, _, .nil, d, hd => by cases hd
  | _, _, .cons hxd hrest, d, hd => by
    rcases List.mem_cons.mp hd with rfl | hd
    · obtain ⟨h1, h2, h3⟩ := hxd
      rw [h1, h2, h3]
    · exact forall₂_values hrest d hd

/-! ## The claims -/

/-! ## The cap of twenty -/

/-- C1: whatever the slot held before (an array of any length, a value that is
no array, text that does not parse, nothing) and whatever the item and the
mode, when `storeAddedItem` reports success the array it persisted has at most
20 entries. -/
theorem storeAddedItem_at_most_20 (env : Env) (e : Engine) (c : Clock) (st st' : Storage)
    (item : Obj) (isUpdate : Bool)
    (h : storeAddedItem env e c st item isUpdate = (true, st')) :
    ∃ xs, persisted st' = some xs ∧ xs.length ≤ 20 := by
  obtain ⟨items, _, hp⟩ := persisted_of_success h
  exact ⟨_, hp, by simpa using keepLast20_length items⟩

/-- C1 at a concrete input: an update of a full collection of twenty records
by an item that matches none of them. -/
theorem storeAddedItem_at_most_20_witness :
    ∃ xs, persisted (storeAddedItem browser Engine.decimal clock1 fullStorage elbowForm true).2
        = some xs ∧ xs.length ≤ 20 :=
  storeAddedItem_at_most_20 browser Engine.decimal clock1 fullStorage _ elbowForm true rfl

/-- C2: a successful add to a persisted array of exactly 20 records persists
the newly built record followed by the first 19 old records in their order, 20
records in all; the old record at index 19 is the one that goes. -/
theorem add_at_capacity_evicts_tail (env : Env) (e : Engine) (c : Clock) (st st' : Storage)
    (item : Obj) (old : List JVal)
    (hget : env.getItemThrows = false) (hold : persisted st = some old)
    (hlen : old.length = 20)
    (h : storeAddedItem env e c st item false = (true, st')) :
    persisted st' = some ((JVal.obj (itemToStore e c item)).jsonify :: old.take 19) ∧
      ((JVal.obj (itemToStore e c item)).jsonify :: old.take 19).length = 20 ∧
      old = old.take 19 ++ [old.getD 19 .undefined] := by
  obtain ⟨_, hw, ha, _⟩ := store_success h
  obtain ⟨items, hpl, hp⟩ := persisted_of_success h
  rw [existingItems_eq hw ha hget hold] at hpl
  simp only [placeItem, Bool.false_eq_true, if_false, Except.ok.injEq] at hpl
  subst hpl
  rw [keepLast20_cons] at hp
  refine ⟨?_, by simp [hlen], ?_⟩
  · rw [hp]
    simp only [List.map_cons, List.map_take, persisted_clean hold]
  · have h19 : 19 < old.length := by omega
    rw [List.getD_eq_getElem _ _ h19]
    have h1 := List.take_append_drop 19 old
    have h2 : List.drop 19 old = [old[19]] := by
      rw [List.drop_eq_getElem_cons h19, List.drop_of_length_le (by omega)]
    rw [h2] at h1
    exact h1.symm

/-- C2 at a concrete input: an add to the collection of twenty records. -/
theorem add_at_capacity_evicts_tail_witness :
    persisted (storeAddedItem browser Engine.decimal clock1 fullStorage elbowForm false).2 =
        some ((JVal.obj (itemToStore Engine.decimal clock1 elbowForm)).jsonify ::
          (jsonifyList twentyRecords).take 19) ∧
      ((JVal.obj (itemToStore Engine.decimal clock1 elbowForm)).jsonify ::
          (jsonifyList twentyRecords).take 19).length = 20 ∧
      jsonifyList twentyRecords = (jsonifyList twentyRecords).take 19 ++
        [(jsonifyList twentyRecords).getD 19 .undefined] :=
  add_at_capacity_evicts_tail browser Engine.decimal clock1 fullStorage _ elbowForm
    (jsonifyList twentyRecords) rfl rfl rfl rfl

/-! ## Add, then list -/

/-- C3 fails as stated: the slot holds the array `[null]`; the add succeeds and
persists two entries, and `fetchAddedItems` yields the empty sequence, the
`forEach` over the parsed entries having thrown on the `null` one. -/
theorem add_over_null_entry_lists_nothing :
    persisted nullStorage = some [.null] ∧
      (storeAddedItem browser Engine.decimal clock1 nullStorage elbowForm false).1 = true ∧
      (persisted (storeAddedItem browser Engine.decimal clock1 nullStorage elbowForm false).2).map
        List.length = some 2 ∧
      fetchAddedItems browser
        (storeAddedItem browser Engine.decimal clock1 nullStorage elbowForm false).2 [] = [] :=
  ⟨rfl, rfl, rfl, rfl⟩

/-- C3, amended: after a successful add, `fetchAddedItems` yields a sequence whose first
element is the record built from the input, and that element has an id and a
dateAdded that are neither null nor undefined.  The collection before holds
records (no `null` entry), the clock reads a positive time, and the input's id
and dateAdded, as the data model types them, are no infinite numbers. -/
theorem add_then_list_head (env : Env) (e : Engine) (c : Clock) (st st' : Storage) (item : Obj)
    (prev : List JVal)
    (hget : env.getItemThrows = false)
    (hrec : ∀ old, persisted st = some old → ∀ x ∈ old, x ≠ JVal.null)
    (hnow : 0 < c.now)
    (hid : (item "id").isInf = false)
    (hdate : (item "dateAdded").isInf = false)
    (h : storeAddedItem env e c st item false = (true, st')) :
    ∃ r : Obj, (fetchAddedItems env st' prev).head? = some (JVal.obj r) ∧
      JVal.obj r = (JVal.obj (itemToStore e c item)).jsonify ∧
      r "id" ≠ .null ∧ r "id" ≠ .undefined ∧
      r "dateAdded" ≠ .null ∧ r "dateAdded" ≠ .undefined := by
  obtain ⟨hhead, hidt, hinn, hiu⟩ := fetch_after_add prev hget hrec hnow hid h
  have hdt : (itemToStore e c item "dateAdded").jsonify ≠ .null ∧
      (itemToStore e c item "dateAdded").isUndefined = false := by
    rw [itemToStore_dateAdded]
    unfold JVal.or
    split
    · rename_i ht
      exact ⟨(jsonify_truthy ht hdate).2.1, (jsonify_truthy ht hdate).2.2⟩
    · simp [JVal.jsonify, JVal.isUndefined]
  refine ⟨jsonifyObj (itemToStore e c item), hhead, (jsonify_obj _).symm, ?_, ?_, ?_, ?_⟩
  · simp [jsonifyObj, hiu, hinn]
  · simp only [jsonifyObj, hiu]
    intro hh
    have := jsonify_ne_undefined (itemToStore e c item "id")
    simp only [Bool.false_eq_true, if_false] at hh
    rw [hh] at this
    simp [JVal.isUndefined] at this
  · simp [jsonifyObj, hdt.2, hdt.1]
  · simp only [jsonifyObj, hdt.2]
    intro hh
    have := jsonify_ne_undefined (itemToStore e c item "dateAdded")
    simp only [Bool.false_eq_true, if_false] at hh
    rw [hh] at this
    simp [JVal.isUndefined] at this

/-- C3, amended, at a concrete input: a second item added to the collection of one. -/
theorem add_then_list_head_witness :
    ∃ r : Obj,
      (fetchAddedItems browser
          (storeAddedItem browser Engine.decimal clock2 oneItem elbowForm false).2 []).head?
        = some (JVal.obj r) ∧
      JVal.obj r = (JVal.obj (itemToStore Engine.decimal clock2 elbowForm)).jsonify ∧
      r "id" ≠ .null ∧ r "id" ≠ .undefined ∧
      r "dateAdded" ≠ .null ∧ r "dateAdded" ≠ .undefined :=
  add_then_list_head browser Engine.decimal clock2 oneItem _ elbowForm [] rfl
    (by
      intro old hold x hx
      have hp : persisted oneItem = some [JVal.obj elbowRecord] := rfl
      rw [hp] at hold
      cases hold
      simp only [List.mem_singleton] at hx
      subst hx
      simp)
    (by decide) rfl rfl rfl

/-! ## The name of the stored record -/

/-- C4 fails as stated: the scenario item carries the non-empty `name` "Elbow"
and no `itemName`; the add succeeds, and the first listed record is named
"Unnamed Item". -/
theorem add_ignores_name_field :
    elbow "name" = .str "Elbow" ∧
      (storeAddedItem browser Engine.decimal clock1 noStorage elbow false).1 = true ∧
      ((fetchAddedItems browser
          (storeAddedItem browser Engine.decimal clock1 noStorage elbow false).2 []).head?.map
        fun x => x.prop "name") = some (.ok (.str "Unnamed Item")) ∧
      JVal.str "Unnamed Item" ≠ elbow "name" :=
  ⟨rfl, rfl, rfl, by simp [elbow, Obj.ofList]⟩

/-- C4, amended: for every input with a non-empty string under `itemName`, the
record a successful add stores is at the head of the collection and has `name`
and `itemName` equal to that string, and `stockLevel` equal to the input's
whenever that is a finite number; when moreover the collection before holds no
`null`, the clock reads a positive time and the input's id is no infinite
number, that record is the first one listed. -/
theorem add_stores_itemName (env : Env) (e : Engine) (c : Clock) (st st' : Storage) (item : Obj)
    (n : String) (hn : item "itemName" = .str n) (hne : n ≠ "")
    (h : storeAddedItem env e c st item false = (true, st')) :
    ∃ (r : Obj) (rest : List JVal), persisted st' = some (JVal.obj r :: rest) ∧
      r "name" = .str n ∧ r "itemName" = .str n ∧
      (∀ q, item "stockLevel" = .num (.fin q) → r "stockLevel" = .num (.fin q)) ∧
      ∀ prev, env.getItemThrows = false →
        (∀ old, persisted st = some old → ∀ x ∈ old, x ≠ JVal.null) →
        0 < c.now → (item "id").isInf = false →
        (fetchAddedItems env st' prev).head? = some (JVal.obj r) := by
  obtain ⟨items, hpl, hp⟩ := persisted_of_success h
  simp only [placeItem, Bool.false_eq_true, if_false, Except.ok.injEq] at hpl
  subst hpl
  rw [keepLast20_cons, List.map_cons, jsonify_obj] at hp
  have hor : (JVal.str n).or (.str "Unnamed Item") = .str n := by
    simp [JVal.or, JVal.truthy, hne]
  refine ⟨_, _, hp, ?_, ?_, ?_, ?_⟩
  · simp [jsonifyObj, itemToStore_name, hn, hor, JVal.isUndefined, JVal.jsonify]
  · simp [jsonifyObj, itemToStore_itemName, hn, hor, JVal.isUndefined, JVal.jsonify]
  · intro q hq
    simp [jsonifyObj, itemToStore_stockLevel, hq, number_or_zero_fin, JVal.isUndefined,
      JVal.jsonify]
  · intro prev hget hrec hnow hid
    exact (fetch_after_add prev hget hrec hnow hid h).1

/-- C4, amended, at a concrete input: the scenario item with its name under
`itemName`. -/
theorem add_stores_itemName_witness :
    ∃ (r : Obj) (rest : List JVal),
      persisted (storeAddedItem browser Engine.decimal clock1 noStorage elbowForm false).2
        = some (JVal.obj r :: rest) ∧
      r "name" = .str "Elbow" ∧ r "itemName" = .str "Elbow" ∧
      (∀ q, elbowForm "stockLevel" = .num (.fin q) → r "stockLevel" = .num (.fin q)) ∧
      ∀ prev, browser.getItemThrows = false →
        (∀ old, persisted noStorage = some old → ∀ x ∈ old, x ≠ JVal.null) →
        0 < clock1.now → (elbowForm "id").isInf = false →
        (fetchAddedItems browser
          (storeAddedItem browser Engine.decimal clock1 noStorage elbowForm false).2 prev).head?
          = some (JVal.obj r) :=
  add_stores_itemName browser Engine.decimal clock1 noStorage _ elbowForm "Elbow" rfl
    (by decide) rfl

/-! ## Updates -/

/-- C5, the code at a failing input: the record added at `clock1` is loaded
into the edit form and submitted unchanged; the update succeeds and keeps the
id, but the dateAdded of the stored record is now the clock reading of the
update. -/
theorem edit_resets_dateAdded :
    storedField oneItem 0 "dateAdded" = some (.ok (.str "2023-11-14T22:13:20.000Z")) ∧
      editedElbow "id" = elbowRecord "id" ∧
      editedElbow "dateAdded" = .undefined ∧
      (storeAddedItem browser Engine.decimal clock3 oneItem editedElbow true).1 = true ∧
      storedField (storeAddedItem browser Engine.decimal clock3 oneItem editedElbow true).2 0 "id"
        = storedField oneItem 0 "id" ∧
      storedField (storeAddedItem browser Engine.decimal clock3 oneItem editedElbow true).2 0
        "dateAdded" = some (.ok (.str "2025-06-15T15:06:40.500Z")) :=
  ⟨rfl, rfl, rfl, rfl, rfl, rfl⟩

/-- C6: an update whose id matches a record (within the 20 that are kept)
stores the clock reading of the update call as that record's dateModified,
whatever dateModified the input carries; it is therefore later than the
record's previous dateModified whenever that one precedes the reading. -/
theorem update_refreshes_dateModified (env : Env) (e : Engine) (c : Clock) (st st' : Storage)
    (item : Obj) (old : List JVal) (k : ℕ)
    (hget : env.getItemThrows = false) (hold : persisted st = some old)
    (hfound : findIndexBy "id" (item "id") old = .ok (some k)) (hk20 : k < 20)
    (h : storeAddedItem env e c st item true = (true, st')) :
    ∃ xs r, persisted st' = some xs ∧ xs[k]? = some (JVal.obj r) ∧
      r "dateModified" = .str c.isoModified ∧
      ∀ t0, (old.getD k .undefined).prop "dateModified" = .ok (.str t0) → t0 < c.isoModified →
        ∃ t1, r "dateModified" = .str t1 ∧ t0 < t1 := by
  obtain ⟨hk, oldId, _, hp⟩ := update_located hget hold (locate_of_id hfound) h
  refine ⟨_, updatedRecord e c item oldId, hp, getElem?_located _ hk hk20,
    updatedRecord_dateModified e c item oldId, ?_⟩
  intro t0 _ hlt
  exact ⟨c.isoModified, updatedRecord_dateModified e c item oldId, hlt⟩

/-- C6 at a concrete input: an update that carries a dateModified of 1999. -/
theorem update_refreshes_dateModified_witness :
    ∃ xs r,
      persisted (storeAddedItem browser Engine.decimal clock2 oneItem fullUpdate true).2 = some xs ∧
      xs[0]? = some (JVal.obj r) ∧
      r "dateModified" = .str clock2.isoModified ∧
      ∀ t0, (List.getD [JVal.obj elbowRecord] 0 .undefined).prop "dateModified" = .ok (.str t0) →
        t0 < clock2.isoModified → ∃ t1, r "dateModified" = .str t1 ∧ t0 < t1 :=
  update_refreshes_dateModified browser Engine.decimal clock2 oneItem _ fullUpdate
    [JVal.obj elbowRecord] 0 rfl rfl rfl (by decide) rfl

/-- C7 fails as stated.  The record that an add wrote from a price of
`Infinity` has the price `null`; an update with that record itself stores the
price 0.  And of two records written under one id, a tee at index 0 and an
elbow at index 1, an update with the elbow itself replaces the tee: both
records are then named "Elbow". -/
theorem update_with_same_record_changes_it :
    persisted pricelessStorage = some [.obj pricelessRecord] ∧
      pricelessRecord "price" = .null ∧
      (storeAddedItem browser Engine.decimal clock2 pricelessStorage pricelessRecord true).1
        = true ∧
      storedField
        (storeAddedItem browser Engine.decimal clock2 pricelessStorage pricelessRecord true).2
        0 "price" = some (.ok (.num (.fin 0))) ∧
      (persisted twinItems).map (List.map fun x => x.prop "name")
        = some [.ok (.str "Tee"), .ok (.str "Elbow")] ∧
      (persisted twinItems).map (fun xs => xs[1]?.map fun x => x.prop "id")
        = some (some (.ok (elbowRecord "id"))) ∧
      (storeAddedItem browser Engine.decimal clock2 twinItems (jsonifyObj elbowRecord) true).1
        = true ∧
      (persisted
        (storeAddedItem browser Engine.decimal clock2 twinItems (jsonifyObj elbowRecord) true).2).map
        (List.map fun x => x.prop "name") = some [.ok (.str "Elbow"), .ok (.str "Elbow")] :=
  ⟨rfl, rfl, rfl, rfl, rfl, rfl, rfl, rfl⟩

/-- C7, amended: let `r` be a record that `storeAddedItem` wrote (the built
record read back from JSON, under an id that serves as one, from an input none
of whose copied values is an infinite number, at a clock whose text is not
empty), at index `k` of a collection of at most 20 records and the first
record of it with its id.  A successful update with `r` itself as the input
leaves the collection as it was, except that the record at index `k` has its
dateModified set to the clock reading: the length, the order, every other
record and every other field are unchanged.  A second such update gives the
same collection, again up to dateModified. -/
theorem update_with_same_record (env : Env) (e : Engine) (c0 c c2 : Clock) (st st' st2 : Storage)
    (item0 : Obj) (idv : JVal) (r : Obj) (old : List JVal) (k : ℕ)
    (hr : r = jsonifyObj ((itemToStore e c0 item0).set "id" idv))
    (hidv : idv.isId = true) (hfin : e.finiteInput item0 = true) (hiso : c0.isoAdded ≠ "")
    (hget : env.getItemThrows = false) (hold : persisted st = some old)
    (hlen : old.length ≤ 20)
    (hat : old[k]? = some (.obj r))
    (hk : findIndexBy "id" (r "id") old = .ok (some k))
    (h : storeAddedItem env e c st r true = (true, st'))
    (h2 : storeAddedItem env e c2 st' r true = (true, st2)) :
    old.set k (.obj r) = old ∧
      persisted st' = some (old.set k (.obj (r.set "dateModified" (.str c.isoModified)))) ∧
      persisted st2 = some (old.set k (.obj (r.set "dateModified" (.str c2.isoModified)))) := by
  obtain ⟨hrid, _⟩ := updatedRecord_written e c0 c item0 idv r hr hidv hfin hiso
  have hrefl : (r "id").strictEq (r "id") = true := by rw [hrid]; exact (isId_facts hidv).2.1
  obtain ⟨hklt, _, _⟩ := findIndexBy_some hk
  have hsame : old.set k (.obj r) = old := by
    apply List.ext_getElem?
    intro j
    by_cases hj : k = j
    · subst hj
      rw [List.getElem?_set_self hklt, hat]
    · rw [List.getElem?_set_ne hj]
  -- the first update
  obtain ⟨_, oldId, hoid, hp⟩ := update_located hget hold (locate_of_id hk) h
  have hoe : oldId = r "id" := by
    simp only [List.getD_eq_getElem?_getD, hat, Option.getD_some, JVal.prop,
      Except.ok.injEq] at hoid
    exact hoid.symm
  rw [hoe, (updatedRecord_written e c0 c item0 idv r hr hidv hfin hiso).2,
    keepLast20_of_le (by simpa using hlen)] at hp
  -- the second update
  have hk' : findIndexBy "id" (r "id")
      (old.set k (.obj (r.set "dateModified" (.str c.isoModified)))) = .ok (some k) :=
    @findIndexBy_set "id" (r "id") old k (.obj (r.set "dateModified" (.str c.isoModified)))
      (r "id") hk (by simp [JVal.prop, Obj.set]) hrefl
  obtain ⟨_, oldId2, hoid2, hp2⟩ := update_located hget hp (locate_of_id hk') h2
  have hoe2 : oldId2 = r "id" := by
    simp only [List.getD_eq_getElem?_getD, List.getElem?_set_self hklt, Option.getD_some,
      JVal.prop, Except.ok.injEq] at hoid2
    rw [← hoid2]
    simp [Obj.set]
  rw [hoe2, (updatedRecord_written e c0 c2 item0 idv r hr hidv hfin hiso).2,
    keepLast20_of_le (by simpa using hlen), List.set_set] at hp2
  exact ⟨hsame, hp, hp2⟩

/-- C7, amended, at a concrete input: the stored elbow record, updated with
itself at `clock2` and again at `clock3`. -/
theorem update_with_same_record_witness :
    [JVal.obj writtenElbow].set 0 (.obj writtenElbow) = [JVal.obj writtenElbow] ∧
      persisted (storeAddedItem browser Engine.decimal clock2 writtenStorage writtenElbow true).2 =
        some ([JVal.obj writtenElbow].set 0
          (.obj (writtenElbow.set "dateModified" (.str clock2.isoModified)))) ∧
      persisted (storeAddedItem browser Engine.decimal clock3
          (storeAddedItem browser Engine.decimal clock2 writtenStorage writtenElbow true).2
          writtenElbow true).2 =
        some ([JVal.obj writtenElbow].set 0
          (.obj (writtenElbow.set "dateModified" (.str clock3.isoModified)))) :=
  update_with_same_record browser Engine.decimal clock1 clock2 clock3 writtenStorage _ _
    elbowForm (.num (.fin 1700000000000)) writtenElbow [JVal.obj writtenElbow] 0 rfl rfl rfl
    (by decide) rfl
    (by
      have hs : writtenStorage recentKey = some (.json (.arr [JVal.obj writtenElbow])) := rfl
      rw [persisted_of_slot hs]
      simp [jsonify_obj, writtenElbow, jsonifyObj_idem])
    (by decide) rfl rfl rfl rfl

/-- C8 fails as stated: the stored record is named "Elbow", priced 50 and in
the category "fittings"; after the update `{id, stockLevel: 5}` with its id the
stored record has stockLevel 5, the name "Unnamed Item", the price 0 and no
category. -/
theorem update_drops_unsupplied_fields :
    storedField oneItem 0 "id" = some (.ok (stockUpdate "id")) ∧
      storedField oneItem 0 "name" = some (.ok (.str "Elbow")) ∧
      storedField oneItem 0 "price" = some (.ok (.num (.fin 50))) ∧
      storedField oneItem 0 "category" = some (.ok (.str "fittings")) ∧
      (storeAddedItem browser Engine.decimal clock2 oneItem stockUpdate true).1 = true ∧
      storedField (storeAddedItem browser Engine.decimal clock2 oneItem stockUpdate true).2 0
        "stockLevel" = some (.ok (.num (.fin 5))) ∧
      storedField (storeAddedItem browser Engine.decimal clock2 oneItem stockUpdate true).2 0
        "name" = some (.ok (.str "Unnamed Item")) ∧
      storedField (storeAddedItem browser Engine.decimal clock2 oneItem stockUpdate true).2 0
        "price" = some (.ok (.num (.fin 0))) ∧
      storedField (storeAddedItem browser Engine.decimal clock2 oneItem stockUpdate true).2 0
        "category" = some (.ok .undefined) :=
  ⟨rfl, rfl, rfl, rfl, rfl, rfl, rfl, rfl, rfl⟩

/-- C8, amended: after a successful update whose id matches a record (within
the 20 that are kept), every field of the stored record but its id is the one
`itemToStore` builds from the input alone.  A finite stockLevel of the input is
taken over; a field the input does not supply gets its default (name "Unnamed
Item", price 0, size "Standard", material "Unknown", image null) or is absent
(category, description): none is carried over from the previous record. -/
theorem update_replaces_fields (env : Env) (e : Engine) (c : Clock) (st st' : Storage)
    (item : Obj) (old : List JVal) (k : ℕ)
    (hget : env.getItemThrows = false) (hold : persisted st = some old)
    (hfound : findIndexBy "id" (item "id") old = .ok (some k)) (hk20 : k < 20)
    (h : storeAddedItem env e c st item true = (true, st')) :
    ∃ xs r, persisted st' = some xs ∧ xs[k]? = some (JVal.obj r) ∧
      (∀ key, key ≠ "id" → r key = jsonifyObj (itemToStore e c item) key) ∧
      (∀ q, item "stockLevel" = .num (.fin q) → r "stockLevel" = .num (.fin q)) ∧
      (item "itemName" = .undefined → r "name" = .str "Unnamed Item") ∧
      (item "price" = .undefined → r "price" = .num (.fin 0)) ∧
      (item "size" = .undefined → r "size" = .str "Standard") ∧
      (item "material" = .undefined → r "material" = .str "Unknown") ∧
      (item "image" = .undefined → r "image" = .null) ∧
      (item "category" = .undefined → r "category" = .undefined) ∧
      (item "description" = .undefined → r "description" = .undefined) := by
  obtain ⟨hk, oldId, _, hp⟩ := update_located hget hold (locate_of_id hfound) h
  have hother := fun key hk => updatedRecord_other e c item oldId key hk
  refine ⟨_, updatedRecord e c item oldId, hp, getElem?_located _ hk hk20, hother,
    ?_, ?_, ?_, ?_, ?_, ?_, ?_, ?_⟩
  · intro q hq
    rw [hother _ (by decide)]
    by_cases hq0 : q = 0
    · simp [jsonifyObj, itemToStore_stockLevel, hq, Engine.toNumber, JVal.or, JVal.truthy,
        JNum.truthy, hq0, JVal.isUndefined, JVal.jsonify]
    · simp [jsonifyObj, itemToStore_stockLevel, hq, Engine.toNumber, JVal.or, JVal.truthy,
        JNum.truthy, hq0, JVal.isUndefined, JVal.jsonify]
  · intro hu
    rw [hother _ (by decide)]
    simp [jsonifyObj, itemToStore_name, hu, or_undefined, JVal.isUndefined, JVal.jsonify]
  · intro hu
    rw [hother _ (by decide)]
    simp [jsonifyObj, itemToStore_price, hu, Engine.toNumber, JVal.or, JVal.truthy, JNum.truthy,
      JVal.isUndefined, JVal.jsonify]
  · intro hu
    rw [hother _ (by decide)]
    simp [jsonifyObj, itemToStore_size, hu, or_undefined, JVal.isUndefined, JVal.jsonify]
  · intro hu
    rw [hother _ (by decide)]
    simp [jsonifyObj, itemToStore_material, hu, or_undefined, JVal.isUndefined, JVal.jsonify]
  · intro hu
    rw [hother _ (by decide)]
    simp [jsonifyObj, itemToStore_image, hu, or_undefined, JVal.isUndefined, JVal.jsonify]
  · intro hu
    rw [hother _ (by decide)]
    simp [jsonifyObj, itemToStore_other e c item "category" (by decide), hu, JVal.isUndefined]
  · intro hu
    rw [hother _ (by decide)]
    simp [jsonifyObj, itemToStore_other e c item "description" (by decide), hu, JVal.isUndefined]

/-- C8, amended, at a concrete input: the update `{id, stockLevel: 5}`. -/
theorem update_replaces_fields_witness :
    ∃ xs r,
      persisted (storeAddedItem browser Engine.decimal clock2 oneItem stockUpdate true).2
        = some xs ∧ xs[0]? = some (JVal.obj r) ∧
      (∀ key, key ≠ "id" → r key = jsonifyObj (itemToStore Engine.decimal clock2 stockUpdate) key) ∧
      (∀ q, stockUpdate "stockLevel" = .num (.fin q) → r "stockLevel" = .num (.fin q)) ∧
      (stockUpdate "itemName" = .undefined → r "name" = .str "Unnamed Item") ∧
      (stockUpdate "price" = .undefined → r "price" = .num (.fin 0)) ∧
      (stockUpdate "size" = .undefined → r "size" = .str "Standard") ∧
      (stockUpdate "material" = .undefined → r "material" = .str "Unknown") ∧
      (stockUpdate "image" = .undefined → r "image" = .null) ∧
      (stockUpdate "category" = .undefined → r "category" = .undefined) ∧
      (stockUpdate "description" = .undefined → r "description" = .undefined) :=
  update_replaces_fields browser Engine.decimal clock2 oneItem _ stockUpdate
    [JVal.obj elbowRecord] 0 rfl rfl rfl (by decide) rfl

/-- C9 fails as stated: no stored record has the id 42 of the input, the one
stored record has the input's itemCode "PVC-001", and the update, whose input
has no `originalItemCode`, succeeds and leaves two records: the input was
inserted as a new record. -/
theorem update_ignores_itemCode :
    findIndexBy "id" (recoded "id") [JVal.obj elbowRecord] = .ok none ∧
      persisted oneItem = some [JVal.obj elbowRecord] ∧
      elbowRecord "itemCode" = recoded "itemCode" ∧
      (storeAddedItem browser Engine.decimal clock2 oneItem recoded true).1 = true ∧
      (persisted (storeAddedItem browser Engine.decimal clock2 oneItem recoded true).2).map
        List.length = some 2 ∧
      storedField (storeAddedItem browser Engine.decimal clock2 oneItem recoded true).2 1 "name"
        = some (.ok (.str "Elbow")) :=
  ⟨rfl, rfl, rfl, rfl, rfl, rfl⟩

/-- C9, amended: in a collection of at most 20 records none of which has the
input's id, when the input has a truthy `originalItemCode` and `k` is the
first index whose record has that `itemCode`, a successful update replaces the
record at `k` by the record built from the input (under the id of the replaced
record when that is truthy) and inserts nothing: the length is unchanged. -/
theorem update_falls_back_on_originalItemCode (env : Env) (e : Engine) (c : Clock)
    (st st' : Storage) (item : Obj) (old : List JVal) (k : ℕ)
    (hget : env.getItemThrows = false) (hold : persisted st = some old)
    (hlen : old.length ≤ 20)
    (hnoid : findIndexBy "id" (item "id") old = .ok none)
    (hcode : (item "originalItemCode").truthy = true)
    (hfound : findIndexBy "itemCode" (item "originalItemCode") old = .ok (some k))
    (h : storeAddedItem env e c st item true = (true, st')) :
    ∃ oldId xs, (old.getD k .undefined).prop "id" = .ok oldId ∧
      persisted st' = some xs ∧
      xs = old.set k (.obj (updatedRecord e c item oldId)) ∧
      xs.length = old.length ∧
      (∀ key, key ≠ "id" → updatedRecord e c item oldId key = jsonifyObj (itemToStore e c item) key) ∧
      (∃ w, (old.getD k .undefined).prop "itemCode" = .ok w ∧
        w.strictEq (item "originalItemCode") = true) ∧
      ∀ j, j < k → ∃ w, (old.getD j .undefined).prop "itemCode" = .ok w ∧
        w.strictEq (item "originalItemCode") = false := by
  obtain ⟨_, oldId, hid, hp⟩ := update_located hget hold (locate_of_code hnoid hcode hfound) h
  obtain ⟨_, hat, hbefore⟩ := findIndexBy_some hfound
  rw [keepLast20_of_le (by simpa using hlen)] at hp
  exact ⟨oldId, _, hid, hp, rfl, by simp,
    fun key hk => updatedRecord_other e c item oldId key hk, hat, hbefore⟩

/-- C9, amended, at a concrete input: an update that renames the item code and
carries the old one as `originalItemCode`. -/
theorem update_falls_back_on_originalItemCode_witness :
    ∃ oldId xs, (List.getD [JVal.obj elbowRecord] 0 .undefined).prop "id" = .ok oldId ∧
      persisted (storeAddedItem browser Engine.decimal clock2 oneItem renamed true).2 = some xs ∧
      xs = [JVal.obj elbowRecord].set 0 (.obj (updatedRecord Engine.decimal clock2 renamed oldId)) ∧
      xs.length = [JVal.obj elbowRecord].length ∧
      (∀ key, key ≠ "id" → updatedRecord Engine.decimal clock2 renamed oldId key =
        jsonifyObj (itemToStore Engine.decimal clock2 renamed) key) ∧
      (∃ w, (List.getD [JVal.obj elbowRecord] 0 .undefined).prop "itemCode" = .ok w ∧
        w.strictEq (renamed "originalItemCode") = true) ∧
      ∀ j, j < 0 → ∃ w, (List.getD [JVal.obj elbowRecord] j .undefined).prop "itemCode" = .ok w ∧
        w.strictEq (renamed "originalItemCode") = false :=
  update_falls_back_on_originalItemCode browser Engine.decimal clock2 oneItem _ renamed
    [JVal.obj elbowRecord] 0 rfl rfl (by decide) rfl rfl rfl rfl

/-- C10 fails as stated: the update locates the legacy record at index 0 by
the fallback; that record had no id, and the record stored at index 0
afterwards has the id 42 of the input. -/
theorem update_assigns_id_to_legacy_record :
    locate legacyRecords renamed = .ok (some 0) ∧
      storedField legacyStorage 0 "id" = some (.ok .undefined) ∧
      (storeAddedItem browser Engine.decimal clock2 legacyStorage renamed true).1 = true ∧
      storedField (storeAddedItem browser Engine.decimal clock2 legacyStorage renamed true).2 0
        "id" = some (.ok (.num (.fin 42))) :=
  ⟨rfl, rfl, rfl, rfl⟩

/-- C10, amended: after a successful update that locates a record at `k` (by
id or by the fallback, within the 20 that are kept), the record stored at `k`
has the id the located record had whenever that id is truthy, even when the
input carries another; a located record without a truthy id gets the id built
from the input. -/
theorem update_keeps_truthy_id (env : Env) (e : Engine) (c : Clock) (st st' : Storage)
    (item : Obj) (old : List JVal) (k : ℕ)
    (hget : env.getItemThrows = false) (hold : persisted st = some old)
    (hloc : locate old item = .ok (some k)) (hk20 : k < 20)
    (h : storeAddedItem env e c st item true = (true, st')) :
    ∃ xs r oldId, (old.getD k .undefined).prop "id" = .ok oldId ∧ persisted st' = some xs ∧
      xs[k]? = some (JVal.obj r) ∧
      (oldId.truthy = true → r "id" = oldId) ∧
      (oldId.truthy = false → r "id" = (itemToStore e c item "id").jsonify) := by
  obtain ⟨hk, oldId, hid, hp⟩ := update_located hget hold hloc h
  refine ⟨_, updatedRecord e c item oldId, oldId, hid, hp, getElem?_located _ hk hk20, ?_, ?_⟩
  · intro ht
    have hu := truthy_not_undefined ht
    have hcl := clean_prop (getD_clean (persisted_clean hold) hk) hid hu
    simp [updatedRecord, jsonifyObj, Obj.set, JVal.or, ht, hu, hcl]
  · intro hf
    have hne : (itemToStore e c item "id").isUndefined = false := by
      rw [itemToStore_id]
      unfold JVal.or
      split
      · rename_i ht; exact truthy_not_undefined ht
      · rfl
    simp [updatedRecord, jsonifyObj, Obj.set, JVal.or, hf, hne]

/-- C10, amended, at a concrete input: the update located by the fallback keeps
the id of the stored record, not the 42 of the input. -/
theorem update_keeps_truthy_id_witness :
    ∃ xs r oldId, (List.getD [JVal.obj elbowRecord] 0 .undefined).prop "id" = .ok oldId ∧
      persisted (storeAddedItem browser Engine.decimal clock2 oneItem renamed true).2 = some xs ∧
      xs[0]? = some (JVal.obj r) ∧
      (oldId.truthy = true → r "id" = oldId) ∧
      (oldId.truthy = false → r "id" = (itemToStore Engine.decimal clock2 renamed "id").jsonify) :=
  update_keeps_truthy_id browser Engine.decimal clock2 oneItem _ renamed
    [JVal.obj elbowRecord] 0 rfl rfl rfl (by decide) rfl

/-! ## Lookup misses and the place of the written record -/

/-- C11 fails as stated: no stored record has the id 42 of the input and none
has its itemCode "PVC-002", yet the update, which finds the stored record by
the input's `originalItemCode`, replaces that record and leaves one record,
not the built record followed by the previous one. -/
theorem update_miss_by_itemCode_still_replaces :
    persisted oneItem = some [JVal.obj elbowRecord] ∧
      findIndexBy "id" (renamed "id") [JVal.obj elbowRecord] = .ok none ∧
      findIndexBy "itemCode" (renamed "itemCode") [JVal.obj elbowRecord] = .ok none ∧
      (storeAddedItem browser Engine.decimal clock2 oneItem renamed true).1 = true ∧
      (persisted (storeAddedItem browser Engine.decimal clock2 oneItem renamed true).2).map
        List.length = some 1 ∧
      storedField (storeAddedItem browser Engine.decimal clock2 oneItem renamed true).2 0
        "itemCode" = some (.ok (.str "PVC-002")) :=
  ⟨rfl, rfl, rfl, rfl, rfl, rfl⟩

/-- C11, amended: when no record of the persisted collection has the input's
id, and none has the input's `originalItemCode` as its itemCode (or the input
has no truthy one), an update on a mounted page whose storage accepts the write
reports success, and the persisted collection becomes the record built from
the input at index 0 followed by the previous records in order, cut to 20. -/
theorem update_miss_inserts_at_head (env : Env) (e : Engine) (c : Clock) (st : Storage)
    (item : Obj) (old : List JVal)
    (hm : env.isMounted = true) (hw : env.hasWindow = true)
    (ha : env.localStorage = .available) (hget : env.getItemThrows = false)
    (hold : persisted st = some old)
    (hnoid : findIndexBy "id" (item "id") old = .ok none)
    (hnocode : (item "originalItemCode").truthy = true →
      findIndexBy "itemCode" (item "originalItemCode") old = .ok none)
    (hset : env.setItemOk recentKey
      (JSON.stringify (.arr (keepLast20 (JVal.obj (itemToStore e c item) :: old)))) = true) :
    (storeAddedItem env e c st item true).1 = true ∧
      persisted (storeAddedItem env e c st item true).2 =
        some ((JVal.obj (itemToStore e c item)).jsonify :: old.take 19) := by
  have hloc : locate old item = .ok none := by
    unfold locate
    rw [hnoid]
    simp only
    split
    · rename_i ht; exact hnocode ht
    · rfl
  have hpl : placeItem (existingItems env st) item (itemToStore e c item) true =
      .ok (JVal.obj (itemToStore e c item) :: old) := by
    rw [existingItems_eq hw ha hget hold]
    simp [placeItem, hloc]
  have h1 := store_ok hm hw ha hpl hset
  refine ⟨h1, ?_⟩
  have hs : storeAddedItem env e c st item true =
      (true, (storeAddedItem env e c st item true).2) := Prod.ext h1 rfl
  obtain ⟨items, hpl', hp⟩ := persisted_of_success hs
  rw [hpl] at hpl'
  cases hpl'
  rw [hp, keepLast20_cons]
  simp only [List.map_cons, List.map_take, persisted_clean hold]

/-- C11, amended, at a concrete input: an update with an unknown id and no
`originalItemCode`. -/
theorem update_miss_inserts_at_head_witness :
    (storeAddedItem browser Engine.decimal clock2 oneItem recoded true).1 = true ∧
      persisted (storeAddedItem browser Engine.decimal clock2 oneItem recoded true).2 =
        some ((JVal.obj (itemToStore Engine.decimal clock2 recoded)).jsonify ::
          [JVal.obj elbowRecord].take 19) :=
  update_miss_inserts_at_head browser Engine.decimal clock2 oneItem recoded
    [JVal.obj elbowRecord] rfl rfl rfl rfl rfl rfl (by intro h; cases h) rfl

/-- C12 fails as stated: the collection holds the tee at index 0 and the elbow
at index 1; after a successful update of the elbow the tee is still at index 0
and the updated elbow, with its new price, at index 1. -/
theorem update_leaves_record_in_place :
    storedField twoItems 0 "itemName" = some (.ok (.str "Tee")) ∧
      storedField twoItems 1 "id" = some (.ok (fullUpdate "id")) ∧
      (storeAddedItem browser Engine.decimal clock3 twoItems fullUpdate true).1 = true ∧
      storedField (storeAddedItem browser Engine.decimal clock3 twoItems fullUpdate true).2 0
        "itemName" = some (.ok (.str "Tee")) ∧
      storedField (storeAddedItem browser Engine.decimal clock3 twoItems fullUpdate true).2 1
        "id" = some (.ok (fullUpdate "id")) ∧
      storedField (storeAddedItem browser Engine.decimal clock3 twoItems fullUpdate true).2 1
        "price" = some (.ok (.num (.fin 55))) :=
  ⟨rfl, rfl, rfl, rfl, rfl, rfl⟩

/-- C12, amended: after a successful add the record just added is at index 0
of the persisted collection; after a successful update that locates a record
at index `k` (within the 20 that are kept) the updated record is at index `k`,
where the record was, and when `k` is not 0 the record at index 0 is the one
that was there before. -/
theorem written_record_position (env : Env) (e : Engine) (c : Clock) (st st' : Storage)
    (item : Obj) (isUpdate : Bool)
    (h : storeAddedItem env e c st item isUpdate = (true, st')) :
    ∃ xs, persisted st' = some xs ∧
      (isUpdate = false → xs[0]? = some (JVal.obj (itemToStore e c item)).jsonify) ∧
      ∀ old k, isUpdate = true → env.getItemThrows = false → persisted st = some old →
        locate old item = .ok (some k) → k < 20 →
        ∃ oldId, (old.getD k .undefined).prop "id" = .ok oldId ∧
          xs[k]? = some (JVal.obj (updatedRecord e c item oldId)) ∧
          (0 < k → xs[0]? = old[0]?) := by
  obtain ⟨items, hpl, hp⟩ := persisted_of_success h
  refine ⟨_, hp, ?_, ?_⟩
  · intro hu
    subst hu
    simp only [placeItem, Bool.false_eq_true, if_false, Except.ok.injEq] at hpl
    subst hpl
    rw [keepLast20_cons]
    simp
  · intro old k hu hget hold hloc hk20
    subst hu
    obtain ⟨hk, oldId, hid, hp'⟩ := update_located hget hold hloc h
    rw [hp] at hp'
    rw [Option.some.inj hp']
    refine ⟨oldId, hid, getElem?_located _ hk hk20, ?_⟩
    intro hpos
    rw [keepLast20_getElem? _ (by omega : 0 < 20)]
    rw [List.getElem?_set_ne (by omega)]

/-- C12, amended, at a concrete input: the update of the elbow at index 1. -/
theorem written_record_position_witness :
    ∃ xs, persisted (storeAddedItem browser Engine.decimal clock3 twoItems fullUpdate true).2
        = some xs ∧
      (true = false → xs[0]? = some (JVal.obj (itemToStore Engine.decimal clock3 fullUpdate)).jsonify) ∧
      ∀ old k, true = true → browser.getItemThrows = false → persisted twoItems = some old →
        locate old fullUpdate = .ok (some k) → k < 20 →
        ∃ oldId, (old.getD k .undefined).prop "id" = .ok oldId ∧
          xs[k]? = some (JVal.obj (updatedRecord Engine.decimal clock3 fullUpdate oldId)) ∧
          (0 < k → xs[0]? = old[0]?) :=
  written_record_position browser Engine.decimal clock3 twoItems _ fullUpdate true rfl

/-! ## Delete -/

/-- C13: for every listed sequence (records with a truthy id, as read from
JSON) and every target record, an entry of the sequence or not,
`handleDeleteItem`, in a browser whose storage accepts the write, persists and
leaves as the state exactly the records whose id is not `===` the target's, in
their order; when no record has the target's id (none by value, and the target
no entry itself when its id is an array or an object) that is the sequence it
was given. -/
theorem delete_keeps_other_ids (env : Env) (st : Storage) (addedItems : List JVal) (target : Obj)
    (pos : Option ℕ)
    (hw : env.hasWindow = true) (ha : env.localStorage = .available)
    (hvalid : ∀ x ∈ addedItems, isValidItem x = true)
    (hclean : addedItems.map JVal.jsonify = addedItems)
    (hpos : ∀ n, pos = some n → addedItems[n]? = some (.obj target))
    (hset : env.setItemOk recentKey
      (JSON.stringify (.arr (withoutTarget addedItems target pos))) = true) :
    (handleDeleteItem env st addedItems (.obj target) pos).2 =
        withoutTarget addedItems target pos ∧
      persisted (handleDeleteItem env st addedItems (.obj target) pos).1 =
        some (withoutTarget addedItems target pos) ∧
      ((∀ x ∈ addedItems, sameId x (.obj target) = false) →
        ((target "id").isRef = true → pos = none) →
        (handleDeleteItem env st addedItems (.obj target) pos).2 = addedItems) := by
  rw [handleDeleteItem_valid hw ha hvalid hpos hset]
  refine ⟨rfl, ?_, ?_⟩
  · have hs : (st.put recentKey (.json (.arr (withoutTarget addedItems target pos))))
        recentKey = some (.json (.arr (withoutTarget addedItems target pos))) := by
      simp [Storage.put]
    rw [persisted_of_slot hs]
    congr 1
    apply map_eq_self_of_mem
    intro x hx
    exact map_eq_self_mem hclean x ((withoutTarget_sublist addedItems target pos).subset hx)
  · intro hnone hp
    simp only [withoutTarget]
    split
    · rename_i hr
      rw [hp hr]
    · rw [List.filter_eq_self]
      intro x hx
      simp [hnone x hx]

/-- C13 at a concrete input: the elbow, at index 1, deleted from the listing of
the tee and the elbow. -/
theorem delete_keeps_other_ids_witness :
    (handleDeleteItem browser twoItems [JVal.obj teeRecord, JVal.obj elbowRecord]
        (.obj elbowRecord) (some 1)).2 =
        withoutTarget [JVal.obj teeRecord, JVal.obj elbowRecord] elbowRecord (some 1) ∧
      persisted (handleDeleteItem browser twoItems [JVal.obj teeRecord, JVal.obj elbowRecord]
        (.obj elbowRecord) (some 1)).1 =
        some (withoutTarget [JVal.obj teeRecord, JVal.obj elbowRecord] elbowRecord (some 1)) ∧
      ((∀ x ∈ [JVal.obj teeRecord, JVal.obj elbowRecord], sameId x (.obj elbowRecord) = false) →
        ((elbowRecord "id").isRef = true → some 1 = none) →
        (handleDeleteItem browser twoItems [JVal.obj teeRecord, JVal.obj elbowRecord]
          (.obj elbowRecord) (some 1)).2 = [JVal.obj teeRecord, JVal.obj elbowRecord]) :=
  delete_keeps_other_ids browser twoItems [JVal.obj teeRecord, JVal.obj elbowRecord] elbowRecord
    (some 1) rfl rfl
    (by
      intro x hx
      simp only [List.mem_cons, List.mem_singleton, List.not_mem_nil, or_false] at hx
      rcases hx with rfl | rfl <;> rfl)
    (by simp [jsonify_obj, teeRecord, elbowRecord, jsonifyObj_idem])
    (by
      intro n hn
      cases hn
      rfl)
    rfl

/-- C14 fails as stated: two adds at one clock reading produce a collection of
two records under one id; the listing has two records, and the delete of the
second of them leaves none. -/
theorem delete_removes_both_twins :
    addAll browser Engine.decimal noStorage [(clock1, elbowForm), (clock1, teeForm)]
        = some twinItems ∧
      (fetchAddedItems browser twinItems []).length = 2 ∧
      (fetchAddedItems browser twinItems []).map (fun x => x.prop "id")
        = [.ok (elbowRecord "id"), .ok (elbowRecord "id")] ∧
      (handleDeleteItem browser twinItems (fetchAddedItems browser twinItems [])
        ((fetchAddedItems browser twinItems []).getD 1 .null) (some 1)).2.length = 0 ∧
      (fetchAddedItems browser
        (handleDeleteItem browser twinItems (fetchAddedItems browser twinItems [])
          ((fetchAddedItems browser twinItems []).getD 1 .null) (some 1)).1 []).length = 0 :=
  ⟨rfl, rfl, rfl, rfl, rfl⟩

/-- C14, amended: `handleDeleteItem`, called with an entry of the listed
sequence in a browser whose storage accepts the write, removes from the
sequence every record that has the id of that entry: when the id is a
primitive value the length decreases by the number of records whose id is
`===` to it, when it is an array or an object by one, and in either case by
exactly one when the listed ids are pairwise different. -/
theorem delete_removes_every_match (env : Env) (st : Storage) (addedItems : List JVal)
    (target : Obj) (n : ℕ)
    (hw : env.hasWindow = true) (ha : env.localStorage = .available)
    (hvalid : ∀ x ∈ addedItems, isValidItem x = true)
    (hat : addedItems[n]? = some (.obj target))
    (hset : env.setItemOk recentKey
      (JSON.stringify (.arr (withoutTarget addedItems target (some n)))) = true) :
    ((target "id").isRef = false →
        (handleDeleteItem env st addedItems (.obj target) (some n)).2.length +
          addedItems.countP (fun i => sameId i (.obj target)) = addedItems.length) ∧
      ((target "id").isRef = true →
        (handleDeleteItem env st addedItems (.obj target) (some n)).2.length + 1
          = addedItems.length) ∧
      (addedItems.Pairwise (fun a b => sameId a b = false) →
        (handleDeleteItem env st addedItems (.obj target) (some n)).2.length + 1
          = addedItems.length) := by
  have hpos : ∀ k, some n = some k → addedItems[k]? = some (.obj target) := by
    intro k hk
    cases hk
    exact hat
  rw [handleDeleteItem_valid hw ha hvalid hpos hset]
  have hn : n < addedItems.length := by
    by_contra hge
    rw [List.getElem?_eq_none (by omega)] at hat
    cases hat
  have hmem : JVal.obj target ∈ addedItems := by
    rw [List.getElem?_eq_getElem hn, Option.some.injEq] at hat
    rw [← hat]
    exact List.getElem_mem _
  have hprim : (target "id").isRef = false →
      (addedItems.filter fun i => !sameId i (.obj target)).length +
        addedItems.countP (fun i => sameId i (.obj target)) = addedItems.length := by
    intro _
    rw [← List.countP_eq_length_filter, Nat.add_comm]
    have := List.length_eq_countP_add_countP (fun i => sameId i (.obj target)) addedItems
    rw [this]
    congr 1
    apply List.countP_congr
    intro x _
    simp
  have href : (target "id").isRef = true →
      (addedItems.eraseIdx n).length + 1 = addedItems.length := by
    intro _
    rw [List.length_eraseIdx, if_pos hn]
    omega
  refine ⟨?_, ?_, ?_⟩
  · intro hr
    simp only [withoutTarget, hr, Bool.false_eq_true, if_false]
    exact hprim hr
  · intro hr
    simp only [withoutTarget, hr, if_true]
    exact href hr
  · intro hpair
    by_cases hr : (target "id").isRef = true
    · simp only [withoutTarget, hr, if_true]
      exact href hr
    · have hr' : (target "id").isRef = false := by simpa using hr
      simp only [withoutTarget, hr', Bool.false_eq_true, if_false]
      have hself : sameId (.obj target) (.obj target) = true := by
        have ht : (target "id").truthy = true := by
          have := hvalid _ hmem
          rwa [isValidItem_obj] at this
        simpa [sameId, JVal.prop] using strictEq_self ht hr'
      have := hprim hr'
      rw [countP_sameId_eq_one hpair hmem hself] at this
      exact this

/-- C14, amended, at a concrete input: the elbow, at index 1, deleted from the
listing of the tee and the elbow. -/
theorem delete_removes_every_match_witness :
    ((elbowRecord "id").isRef = false →
        (handleDeleteItem browser twoItems [JVal.obj teeRecord, JVal.obj elbowRecord]
          (.obj elbowRecord) (some 1)).2.length +
          [JVal.obj teeRecord, JVal.obj elbowRecord].countP (fun i => sameId i (.obj elbowRecord))
          = [JVal.obj teeRecord, JVal.obj elbowRecord].length) ∧
      ((elbowRecord "id").isRef = true →
        (handleDeleteItem browser twoItems [JVal.obj teeRecord, JVal.obj elbowRecord]
          (.obj elbowRecord) (some 1)).2.length + 1
          = [JVal.obj teeRecord, JVal.obj elbowRecord].length) ∧
      ([JVal.obj teeRecord, JVal.obj elbowRecord].Pairwise (fun a b => sameId a b = false) →
        (handleDeleteItem browser twoItems [JVal.obj teeRecord, JVal.obj elbowRecord]
          (.obj elbowRecord) (some 1)).2.length + 1
          = [JVal.obj teeRecord, JVal.obj elbowRecord].length) :=
  delete_removes_every_match browser twoItems [JVal.obj teeRecord, JVal.obj elbowRecord]
    elbowRecord 1 rfl rfl
    (by
      intro x hx
      simp only [List.mem_cons, List.mem_singleton, List.not_mem_nil, or_false] at hx
      rcases hx with rfl | rfl <;> rfl)
    rfl rfl

/-! ## The ids of a collection built by adds -/

/-- C15 fails as stated: two successful adds from an empty slot at one clock
reading, neither input supplying an id, persist two records with the same id. -/
theorem twin_adds_share_an_id :
    noStorage recentKey = none ∧
      addAll browser Engine.decimal noStorage [(clock1, elbowForm), (clock1, teeForm)]
        = some twinItems ∧
      (persisted twinItems).map List.length = some 2 ∧
      storedField twinItems 0 "id" = some (.ok (.num (.fin 1700000000000))) ∧
      storedField twinItems 1 "id" = some (.ok (.num (.fin 1700000000000))) :=
  ⟨rfl, rfl, rfl, rfl, rfl⟩

/-- C15, amended: in a collection produced by successful adds starting from an
empty slot, every two records have different ids when the ids under which the
adds store their records (the id the caller supplies, the reading of
`Date.now()` when it supplies none) are pairwise different. -/
theorem adds_with_distinct_ids_have_distinct_ids (env : Env) (e : Engine) (st0 st : Storage)
    (adds : List (Clock × Obj)) (xs : List JVal)
    (h0 : st0 recentKey = none)
    (hid : (adds.map fun p => storedId p.1 p.2).Pairwise fun a b => a.strictEq b = false)
    (h : addAll env e st0 adds = some st)
    (hxs : persisted st = some xs) :
    xs.Pairwise fun a b => sameId a b = false := by
  have hinv : ∀ ys, persisted st0 = some ys →
      ∃ vs, List.Forall₂ (fun x v => x.prop "id" = .ok v) ys vs ∧
        vs.Pairwise (fun a b => a.strictEq b = false) ∧ vs ⊆ [] := by
    intro ys hys
    simp [persisted, h0] at hys
  obtain ⟨vs, hids, hpw⟩ := addAll_storedIds adds st0 st [] hinv (by simpa using hid) h xs hxs
  exact ids_pairwise hids hpw

/-- C15, amended, at a concrete input: the elbow added at `clock1` with no id
and the tee added at `clock2` with the id that `handleSubmit` gave it. -/
theorem adds_with_distinct_ids_have_distinct_ids_witness :
    [JVal.obj (jsonifyObj (itemToStore Engine.decimal clock2 teeSubmitted)),
        JVal.obj (jsonifyObj elbowRecord)].Pairwise
      fun a b => sameId a b = false :=
  adds_with_distinct_ids_have_distinct_ids browser Engine.decimal noStorage
    (storeAddedItem browser Engine.decimal clock2 oneItem teeSubmitted false).2
    [(clock1, elbowForm), (clock2, teeSubmitted)]
    [JVal.obj (jsonifyObj (itemToStore Engine.decimal clock2 teeSubmitted)),
      JVal.obj (jsonifyObj elbowRecord)] rfl
    (List.Pairwise.cons (fun b hb => by
      rw [List.mem_singleton.mp hb]
      rfl) (List.pairwise_singleton _ _))
    rfl rfl

/-! ## Listing, and faults of the stored text -/

/-- C16: in a browser, when the collection slot is absent or holds text that
does not parse or parses to a value that is no array, `fetchAddedItems` leaves
the empty sequence (it is a total function: no fault leaves it). -/
theorem list_of_bad_slot_is_empty (env : Env) (st : Storage) (prev : List JVal)
    (hw : env.hasWindow = true) (hp : persisted st = none) :
    fetchAddedItems env st prev = [] := by
  unfold fetchAddedItems
  simp only [hw, if_true]
  cases env.localStorage with
  | available =>
    simp only
    split
    · rfl
    · unfold persisted at hp
      cases ht : st recentKey with
      | none => rfl
      | some t =>
        rw [ht] at hp
        simp only at hp ⊢
        split
        · cases hx : JSON.parse t with
          | error err => rfl
          | ok w =>
            rw [hx] at hp
            cases w <;> first | rfl | simp at hp
        · rfl
  | missing => rfl
  | denied => rfl

/-- C16 at a concrete input: a slot holding text that is no JSON. -/
theorem list_of_bad_slot_is_empty_witness :
    fetchAddedItems browser malformedStorage [JVal.obj elbowRecord] = [] :=
  list_of_bad_slot_is_empty browser malformedStorage [JVal.obj elbowRecord] rfl rfl

/-- C17 fails as stated: the slot parses to an array of one element, a record
without an id, and `fetchAddedItems` returns the empty sequence. -/
theorem list_omits_records_without_id :
    (persisted legacyStorage).map List.length = some 1 ∧
      storedField legacyStorage 0 "name" = some (.ok (.str "Elbow")) ∧
      fetchAddedItems browser legacyStorage [] = [] :=
  ⟨rfl, rfl, rfl⟩

/-- C17, amended: in a browser whose storage can be read, when the slot parses
to an array with no `null` entry, `fetchAddedItems` returns the elements that
are truthy and have a truthy id, in their order; it returns the full sequence
when every element is such. -/
theorem list_returns_valid_items (env : Env) (st : Storage) (prev xs : List JVal)
    (hw : env.hasWindow = true) (ha : env.localStorage = .available)
    (hget : env.getItemThrows = false) (hold : persisted st = some xs)
    (hnull : ∀ x ∈ xs, x ≠ JVal.null) :
    fetchAddedItems env st prev = xs.filter isValidItem ∧
      ((∀ x ∈ xs, isValidItem x = true) → fetchAddedItems env st prev = xs) := by
  obtain ⟨t, ht, htt, hparse⟩ := persisted_slot hold
  have hall : xs.all logsImage = true := by
    rw [List.all_eq_true]
    intro x hx
    exact logsImage_of_clean (map_eq_self_mem (persisted_clean hold) x hx) (hnull x hx)
  have hf : fetchAddedItems env st prev = xs.filter isValidItem := by
    unfold fetchAddedItems
    simp only [hw, ha, hget, ht, htt, hparse, hall, if_true, Bool.false_eq_true, if_false]
  refine ⟨hf, ?_⟩
  intro hv
  rw [hf, List.filter_eq_self]
  exact hv

/-- C17, amended, at a concrete input: the collection of two records. -/
theorem list_returns_valid_items_witness :
    fetchAddedItems browser twoItems [] =
        [JVal.obj teeRecord, JVal.obj (jsonifyObj elbowRecord)].filter isValidItem ∧
      ((∀ x ∈ [JVal.obj teeRecord, JVal.obj (jsonifyObj elbowRecord)], isValidItem x = true) →
        fetchAddedItems browser twoItems [] =
          [JVal.obj teeRecord, JVal.obj (jsonifyObj elbowRecord)]) :=
  list_returns_valid_items browser twoItems [] [JVal.obj teeRecord, JVal.obj (jsonifyObj elbowRecord)]
    rfl rfl rfl rfl (by simp)

/-- C18 fails as stated: the page is mounted and the storage is available and
accepts every write, but the slot holds `[null]`, and an update returns false
without writing. -/
theorem update_over_null_entry_fails :
    browser.isMounted = true ∧ browser.hasWindow = true ∧
      browser.localStorage = .available ∧ (∀ key t, browser.setItemOk key t = true) ∧
      persisted nullStorage = some [JVal.null] ∧
      (storeAddedItem browser Engine.decimal clock1 nullStorage fullUpdate true).1 = false ∧
      persisted (storeAddedItem browser Engine.decimal clock1 nullStorage fullUpdate true).2 =
        some [JVal.null] :=
  ⟨rfl, rfl, rfl, fun _ _ => rfl, rfl, rfl, rfl⟩

/-- C18, amended: for an add, whatever the slot held before, and for an update
when the array read from the slot has no `null` entry, `storeAddedItem` builds
its array without a fault and returns true exactly when the page is mounted,
the storage is available and the write of the collection is accepted; it
returns false when the write is rejected. -/
theorem storeAddedItem_true_iff (env : Env) (e : Engine) (c : Clock) (st : Storage) (item : Obj)
    (isUpdate : Bool)
    (hnull : isUpdate = true → ∀ old, persisted st = some old → ∀ x ∈ old, x ≠ JVal.null) :
    ∃ items, placeItem (existingItems env st) item (itemToStore e c item) isUpdate = .ok items ∧
      ((storeAddedItem env e c st item isUpdate).1 = true ↔
        (env.isMounted = true ∧ env.hasWindow = true ∧ env.localStorage = .available ∧
          env.setItemOk recentKey (JSON.stringify (.arr (keepLast20 items))) = true)) := by
  obtain ⟨items, hpl⟩ := @placeItem_ok (existingItems env st) item (itemToStore e c item)
    isUpdate (by
      intro hu x hx key
      obtain ⟨old, ho, hxo⟩ := existingItems_mem hx
      exact prop_ok_of_clean (map_eq_self_mem (existingItems_clean env st) x hx)
        (hnull hu old ho x hxo) key)
  refine ⟨items, hpl, ?_, ?_⟩
  · intro h
    have hs : storeAddedItem env e c st item isUpdate =
        (true, (storeAddedItem env e c st item isUpdate).2) := Prod.ext h rfl
    obtain ⟨hm, hw, ha, items', hpl', hset, _⟩ := store_success hs
    rw [hpl] at hpl'
    cases hpl'
    exact ⟨hm, hw, ha, hset⟩
  · rintro ⟨hm, hw, ha, hset⟩
    exact store_ok hm hw ha hpl hset

/-- C18, amended, at a concrete input: an add over a slot holding text that is
no JSON. -/
theorem storeAddedItem_true_iff_witness :
    ∃ items, placeItem (existingItems browser malformedStorage) elbowForm
        (itemToStore Engine.decimal clock1 elbowForm) false = .ok items ∧
      ((storeAddedItem browser Engine.decimal clock1 malformedStorage elbowForm false).1 = true ↔
        (browser.isMounted = true ∧ browser.hasWindow = true ∧
          browser.localStorage = .available ∧
          browser.setItemOk recentKey (JSON.stringify (.arr (keepLast20 items))) = true)) :=
  storeAddedItem_true_iff browser Engine.decimal clock1 malformedStorage elbowForm false
    (by intro h; cases h)

/-- C19: when the slot holds text that does not parse, or that parses to a
value that is no array (or holds nothing), a successful add persists an array
of exactly one record, the one built from the input. -/
theorem add_over_corrupt_slot (env : Env) (e : Engine) (c : Clock) (st st' : Storage)
    (item : Obj) (hp : persisted st = none)
    (h : storeAddedItem env e c st item false = (true, st')) :
    persisted st' = some [(JVal.obj (itemToStore e c item)).jsonify] := by
  obtain ⟨items, hpl, hps⟩ := persisted_of_success h
  rw [existingItems_nil_of_none hp] at hpl
  simp only [placeItem, Bool.false_eq_true, if_false, Except.ok.injEq] at hpl
  subst hpl
  rw [hps, keepLast20_cons]
  simp

/-- C19 at a concrete input: an add over a slot holding text that is no JSON. -/
theorem add_over_corrupt_slot_witness :
    persisted (storeAddedItem browser Engine.decimal clock1 malformedStorage elbowForm false).2 =
      some [(JVal.obj (itemToStore Engine.decimal clock1 elbowForm)).jsonify] :=
  add_over_corrupt_slot browser Engine.decimal clock1 malformedStorage _ elbowForm rfl rfl

/-! ## Faults of the storage -/

/-- C20, the code at failing inputs: with a storage that rejects the write,
`handleUpdateItem` ends in the exception of `setItem`; with a storage that is
denied, `handleClearItems` ends in the exception of the access; while
`handleDeleteItem`, `fetchAddedItems` and `storeAddedItem`, which catch, end
with the state unchanged, the empty sequence and false. -/
theorem unguarded_handlers_throw :
    handleUpdateItem quotaFull oneItem (.obj elbowRecord) = .error .domException ∧
      handleClearItems storageDenied true oneItem [JVal.obj elbowRecord]
        = .error .domException ∧
      (handleDeleteItem quotaFull oneItem [JVal.obj elbowRecord] (.obj elbowRecord) (some 0)).2
        = [JVal.obj elbowRecord] ∧
      fetchAddedItems storageDenied oneItem [JVal.obj elbowRecord] = [] ∧
      (storeAddedItem quotaFull Engine.decimal clock2 oneItem teeForm false).1 = false :=
  ⟨rfl, rfl, rfl, rfl, rfl⟩

/-! ## The fittings page -/

/-- C21: when the items that `loadStoredItems` returns have pairwise distinct
ids, and so have the sample items, no two items of the merged list that
`fetchItems` builds have the same id (by `===`), also when a stored and a
sample item share an id. -/
theorem merged_ids_distinct (env : Env) (e : Engine) (h : Host) (st : Storage)
    (data : List Obj)
    (hS : ∀ s, loadStoredItems env e h st = some s → idsDistinct s)
    (hF : idsDistinct data) :
    idsDistinct (fetchItems env e h st data).1 :=
  combinedData_pairwise hS hF

/-- C21 at a concrete input: the stored elbow, and two sample items of which
the first has the id of the stored elbow. -/
theorem merged_ids_distinct_witness :
    idsDistinct
      (fetchItems browser Engine.decimal plainHost oneItem [sampleElbow, lowStocked]).1 :=
  merged_ids_distinct browser Engine.decimal plainHost oneItem [sampleElbow, lowStocked]
    (fun s hs => by
      have hl : loadStoredItems browser Engine.decimal plainHost oneItem = some [elbowShown] := by
        with_unfolding_all rfl
      rw [← Option.some.inj (hl.symm.trans hs)]
      exact List.pairwise_singleton _ _)
    (List.Pairwise.cons (fun b hb => by
      rw [List.mem_singleton.mp hb]
      rfl) (List.pairwise_singleton _ _))

/-- C22 fails as stated: the persisted collection holds one record, of the
category "pipes" and the name "Steel Pipe"; `loadStoredItems` returns it,
because the letters "tee" occur in its name. -/
theorem pipe_listed_among_fittings :
    (persisted pipeStorage).map (List.map fun x => x.get "category") = some [.str "pipes"] ∧
      (loadStoredItems browser Engine.decimal plainHost pipeStorage).map
        (List.map fun d => d "name") = some [.str "Steel Pipe"] :=
  ⟨rfl, rfl⟩

/-- C22, amended: when `loadStoredItems` returns a list, its items are, in
order, the display items built from exactly those persisted records whose
category is "fittings" or "Fittings" or whose name contains "elbow", "tee" or
"coupling" in any case of letters. -/
theorem stored_fittings_are_the_matches (env : Env) (e : Engine) (h : Host) (st : Storage)
    (xs : List JVal) (S : List Obj)
    (hp : persisted st = some xs)
    (hload : loadStoredItems env e h st = some S) :
    List.Forall₂ (fun x d => displayItem e h x = .ok d) (xs.filter matchesFittings) S := by
  obtain ⟨ys, hys, hd⟩ := load_some hload
  rw [hp] at hys
  rw [Option.some.inj hys]
  exact displayAll_forall₂ hd

/-- C22, amended, at a concrete input: the storage that holds the elbow. -/
theorem stored_fittings_are_the_matches_witness :
    List.Forall₂ (fun x d => displayItem Engine.decimal plainHost x = .ok d)
      ([JVal.obj elbowRecord].filter matchesFittings) [elbowShown] :=
  stored_fittings_are_the_matches browser Engine.decimal plainHost oneItem
    [JVal.obj elbowRecord] [elbowShown] rfl (by with_unfolding_all rfl)

/-- C23: when `loadStoredItems` returns a non-empty list S, the merged list of
`fetchItems` is S followed by the sample items, in their order, whose id is
the id of no item of S (by the equality of `Set.prototype.has`), so every
merged item with the id of a stored item is a stored item; when it returns
`null` or an empty list, the merged list is the sample list. -/
theorem merged_is_stored_then_new_samples (env : Env) (e : Engine) (h : Host) (st : Storage)
    (S F : List Obj)
    (hload : loadStoredItems env e h st = some S) (hS : S ≠ []) :
    (fetchItems env e h st F).1 =
        S ++ F.filter (fun d => S.all fun x => !(x "id").sameValueZero (d "id")) ∧
      (∀ m ∈ (fetchItems env e h st F).1,
        (∃ x ∈ S, (x "id").sameValueZero (m "id") = true) → m ∈ S) ∧
      ∀ st2, loadStoredItems env e h st2 = none ∨ loadStoredItems env e h st2 = some [] →
        (fetchItems env e h st2 F).1 = F := by
  have hm : (fetchItems env e h st F).1 =
      S ++ F.filter (fun d => S.all fun x => !(x "id").sameValueZero (d "id")) := by
    show combinedData (loadStoredItems env e h st) F = _
    rw [hload, combinedData_some hS]
  refine ⟨hm, ?_, ?_⟩
  · intro m hmem hex
    rw [hm, List.mem_append] at hmem
    rcases hmem with hin | hin
    · exact hin
    · obtain ⟨x, hx, hsame⟩ := hex
      have hall := (List.mem_filter.mp hin).2
      rw [List.all_eq_true] at hall
      have := hall x hx
      rw [hsame] at this
      cases this
  · intro st2 h2
    show combinedData (loadStoredItems env e h st2) F = F
    rcases h2 with h2 | h2 <;> rw [h2] <;> rfl

/-- C23 at a concrete input: the stored elbow, and two sample items of which
the first has the id of the stored elbow. -/
theorem merged_is_stored_then_new_samples_witness :
    (fetchItems browser Engine.decimal plainHost oneItem [sampleElbow, lowStocked]).1 =
        [elbowShown] ++ [sampleElbow, lowStocked].filter
          (fun d => [elbowShown].all fun x => !(x "id").sameValueZero (d "id")) ∧
      (∀ m ∈ (fetchItems browser Engine.decimal plainHost oneItem [sampleElbow, lowStocked]).1,
        (∃ x ∈ [elbowShown], (x "id").sameValueZero (m "id") = true) → m ∈ [elbowShown]) ∧
      ∀ st2, loadStoredItems browser Engine.decimal plainHost st2 = none ∨
          loadStoredItems browser Engine.decimal plainHost st2 = some [] →
        (fetchItems browser Engine.decimal plainHost st2 [sampleElbow, lowStocked]).1
          = [sampleElbow, lowStocked] :=
  merged_is_stored_then_new_samples browser Engine.decimal plainHost oneItem [elbowShown]
    [sampleElbow, lowStocked] (by with_unfolding_all rfl) (List.cons_ne_nil _ _)

/-- C24 fails as stated: for the one sample item `oddSample`, of price 2,
stock level 3 and value 100, the total value of the statistics is 100, and
price * stockLevel is 6. -/
theorem total_value_is_not_price_times_stock :
    (fetchItems browser Engine.decimal plainHost noStorage [oddSample]).1 = [oddSample] ∧
      (fetchItems browser Engine.decimal plainHost noStorage [oddSample]).2.value
        = .num (.fin 100) ∧
      Engine.decimal.times (oddSample "price") (oddSample "stockLevel") = .num (.fin 6) := by
  refine ⟨rfl, ?_, ?_⟩ <;> with_unfolding_all rfl

/-- C24, amended: the statistics of `fetchItems` are those of its merged list;
for every sequence of items whose `value` fields are numbers, the total value
is the sum of the `value` fields, added to 0 one after the other in the order
of the sequence, each sum being the nearest double; it is the exact sum of the
fields when these are finite and every partial sum is a double; for the empty
sequence the total count, the low-stock count, the total value and the
distinct-type count are all zero. -/
theorem total_value_is_sum_of_values (env : Env) (e : Engine) (h : Host) (st : Storage)
    (data items : List Obj)
    (hv : ∀ item ∈ items, ∃ n, item "value" = .num n) :
    (statsOf e h items).value =
        .num (items.foldl (fun sum item => sum.add (e.toNumber (item "value"))) (.fin 0)) ∧
      (∀ vs : List ℚ, (items.map fun item => item "value") = vs.map (fun v => JVal.num (.fin v)) →
        (∀ k, roundDouble (vs.take k).sum = .fin (vs.take k).sum) →
        (statsOf e h items).value = .num (.fin vs.sum)) ∧
      (fetchItems env e h st data).2 = statsOf e h (fetchItems env e h st data).1 ∧
      statsOf e h [] = ⟨0, 0, .num (.fin 0), 0⟩ :=
  ⟨statsOf_value h e items hv, fun vs hvs hex => statsOf_value_exact h e items vs hvs hex,
    rfl, rfl⟩

/-- C24, amended, at a concrete input: two sample items, of values 100 and 20,
whose total is 120. -/
theorem total_value_is_sum_of_values_witness :
    (statsOf Engine.decimal plainHost [oddSample, wellStocked]).value = .num (.fin 120) ∧
      (fetchItems browser Engine.decimal plainHost noStorage [oddSample, wellStocked]).2 =
        statsOf Engine.decimal plainHost
          (fetchItems browser Engine.decimal plainHost noStorage [oddSample, wellStocked]).1 ∧
      statsOf Engine.decimal plainHost [] = ⟨0, 0, .num (.fin 0), 0⟩ :=
  have hv : ∀ item ∈ [oddSample, wellStocked], ∃ n, item "value" = .num n := fun item hi => by
    rcases List.mem_cons.mp hi with rfl | hi
    · exact ⟨_, rfl⟩
    · rw [List.mem_singleton.mp hi]
      exact ⟨_, rfl⟩
  have key := total_value_is_sum_of_values browser Engine.decimal plainHost noStorage
    [oddSample, wellStocked] [oddSample, wellStocked] hv
  ⟨by
    have := key.2.1 [100, 20] rfl (fun k => by
      match k with
      | 0 => with_unfolding_all rfl
      | 1 => with_unfolding_all rfl
      | k + 2 =>
        rw [List.take_of_length_le (by simp)]
        with_unfolding_all rfl)
    rw [this]
    norm_num, key.2.2.1, key.2.2.2⟩

/-- C25 fails as stated: two sample items have the same stock level, 5, and
the reorder levels 3 and 10 in their own fields; the low-stock count is 1,
which the count of the stock levels below one threshold is for no threshold. -/
theorem low_stock_uses_each_items_level :
    (fetchItems browser Engine.decimal plainHost noStorage [wellStocked, lowStocked]).2.lowStock
        = 1 ∧
      wellStocked "stockLevel" = lowStocked "stockLevel" ∧
      ∀ t, countBelow t [wellStocked, lowStocked] ≠ 1 := by
  refine ⟨rfl, rfl, ?_⟩
  intro t
  have h1 : wellStocked "stockLevel" = .num (.fin 5) := rfl
  have h2 : lowStocked "stockLevel" = .num (.fin 5) := rfl
  by_cases ht : (5 : ℚ) < t <;> simp [countBelow, List.countP_cons, h1, h2, ht]

/-- C25, amended: for every sequence of items whose stock level and reorder
level are numbers, the low-stock count is the number of items whose stock
level is strictly less than the item's own `reorderLevel` field; an item whose
stock level is its reorder level is not counted; every item that
`loadStoredItems` builds has the reorder level 15. -/
theorem low_stock_counts_below_own_level (e : Engine) (h : Host) (items : List Obj)
    (hn : ∀ item ∈ items, ∃ a b, item "stockLevel" = .num a ∧ item "reorderLevel" = .num b) :
    (statsOf e h items).lowStock = items.countP belowOwnLevel ∧
      (∀ item : Obj, item "stockLevel" = item "reorderLevel" → belowOwnLevel item = false) ∧
      ∀ x d, displayItem e h x = .ok d → d "reorderLevel" = .num (.fin 15) := by
  refine ⟨statsOf_lowStock h e items hn, ?_, fun x d hd => (displayItem_fields hd).2.2.2⟩
  intro item heq
  unfold belowOwnLevel
  rw [heq]
  cases item "reorderLevel" with
  | num a => cases a <;> simp [JNum.lt]
  | _ => rfl

/-- C25, amended, at a concrete input: the two sample items of stock level 5. -/
theorem low_stock_counts_below_own_level_witness :
    (statsOf Engine.decimal plainHost [wellStocked, lowStocked]).lowStock =
        [wellStocked, lowStocked].countP belowOwnLevel ∧
      (∀ item : Obj, item "stockLevel" = item "reorderLevel" → belowOwnLevel item = false) ∧
      ∀ x d, displayItem Engine.decimal plainHost x = .ok d →
        d "reorderLevel" = .num (.fin 15) :=
  low_stock_counts_below_own_level Engine.decimal plainHost [wellStocked, lowStocked]
    (fun item hi => by
      rcases List.mem_cons.mp hi with rfl | hi
      · exact ⟨_, _, rfl, rfl⟩
      · rw [List.mem_singleton.mp hi]
        exact ⟨_, _, rfl, rfl⟩)

/-! ## The records that are written, and what an update leaves alone -/

/-- C26 fails as stated: an input whose price is the number `Infinity` is
added with success, and the persisted record has the price `null`, the text
that JSON writes for an infinite number. -/
theorem infinite_price_is_stored_as_null :
    pricelessForm "price" = .num (.inf false) ∧
      (storeAddedItem browser Engine.decimal clock1 noStorage pricelessForm false).1 = true ∧
      storedField (storeAddedItem browser Engine.decimal clock1 noStorage pricelessForm false).2
        0 "price" = some (.ok .null) :=
  ⟨rfl, rfl, rfl⟩

/-- C26, amended: for every input item (missing, empty and non-numeric fields
included), the record `itemToStore` that `storeAddedItem` builds has a name, a
material and a size that are not null, "Unknown" and "Standard" for a missing
or empty material and size, and a stock level and a price that are the numbers
the input's values convert to, 0 when they convert to none. When none of the
copied values is an infinite number, which JSON has no text for, every record
that a successful `storeAddedItem` leaves in the persisted array and did not
read from it is such a record, and after an add it is at the head. -/
theorem written_record_is_well_formed (env : Env) (e : Engine) (c : Clock) (st st' : Storage)
    (item : Obj) (isUpdate : Bool)
    (hfin : e.finiteInput item = true)
    (h : storeAddedItem env e c st item isUpdate = (true, st')) :
    e.wellFormed item (itemToStore e c item) ∧
      ∃ xs, persisted st' = some xs ∧
        (∀ x ∈ xs, x ∈ existingItems env st ∨ ∃ r, x = .obj r ∧ e.wellFormed item r) ∧
        (isUpdate = false → ∃ r, xs.head? = some (.obj r) ∧ e.wellFormed item r) := by
  obtain ⟨items, hpl, hp⟩ := persisted_of_success h
  refine ⟨wellFormed_built e c item, _, hp, ?_, ?_⟩
  · intro x hx
    obtain ⟨y, hy, rfl⟩ := List.mem_map.mp hx
    rcases placeItem_mem hpl (mem_keepLast20 hy) with hold | ⟨idv, rfl⟩
    · left
      rw [map_eq_self_mem (existingItems_clean env st) y hold]
      exact hold
    · right
      exact ⟨_, jsonify_obj _, wellFormed_written e c item idv hfin⟩
  · intro hu
    subst hu
    simp only [placeItem, Bool.false_eq_true, if_false, Except.ok.injEq] at hpl
    subst hpl
    rw [keepLast20_cons]
    refine ⟨jsonifyObj (itemToStore e c item), by simp [jsonify_obj], ?_⟩
    have hself : itemToStore e c item = (itemToStore e c item).set "id" (itemToStore e c item "id") := by
      funext key
      by_cases hk : key = "id" <;> simp [Obj.set, hk]
    rw [hself]
    exact wellFormed_written e c item _ hfin

/-- C26, amended, at a concrete input: an item with no name, no material, no size, a
price that is no number and no stock level. -/
theorem written_record_is_well_formed_witness :
    Engine.decimal.wellFormed bareItem (itemToStore Engine.decimal clock1 bareItem) ∧
      ∃ xs, persisted (storeAddedItem browser Engine.decimal clock1 noStorage bareItem false).2
          = some xs ∧
        (∀ x ∈ xs, x ∈ existingItems browser noStorage ∨
          ∃ r, x = .obj r ∧ Engine.decimal.wellFormed bareItem r) ∧
        (false = false →
          ∃ r, xs.head? = some (.obj r) ∧ Engine.decimal.wellFormed bareItem r) :=
  written_record_is_well_formed browser Engine.decimal clock1 noStorage _ bareItem false rfl rfl

/-- C27 fails as stated: the handoff slot holds the elbow record; the storage
rejects the write of the collection, the update returns false, and the handoff
slot still holds the record. -/
theorem handoff_kept_when_write_fails :
    (persisted handoffStorage).map List.length = some 1 ∧
      (handoffStorage updateKey).isSome = true ∧
      (storeAddedItem quotaFull Engine.decimal clock2 handoffStorage fullUpdate true).1 = false ∧
      ((storeAddedItem quotaFull Engine.decimal clock2 handoffStorage fullUpdate true).2
        updateKey).isSome = true :=
  ⟨rfl, rfl, rfl, rfl⟩

/-- C27, amended: when `storeAddedItem` is called with isUpdate = true and
`removeItem` does not throw, the handoff slot is absent afterwards if the call
reports success; if it reports failure the storage, the handoff slot with it,
is as it was. -/
theorem handoff_cleared_on_success (env : Env) (e : Engine) (c : Clock) (st st' : Storage)
    (item : Obj) (ok : Bool)
    (hrm : env.removeItemThrows = false)
    (h : storeAddedItem env e c st item true = (ok, st')) :
    (ok = true → st' updateKey = none) ∧ (ok = false → st' = st) := by
  constructor
  · intro hok
    subst hok
    exact store_success_handoff h hrm
  · intro hok
    subst hok
    have h1 : (storeAddedItem env e c st item true).1 = false := by rw [h]
    have h2 := store_failure_keeps env e c st item true h1
    rw [h] at h2
    exact h2

/-- C27, amended, at a concrete input: a successful update with the record in
the handoff slot. -/
theorem handoff_cleared_on_success_witness :
    (true = true →
        (storeAddedItem browser Engine.decimal clock2 handoffStorage fullUpdate true).2 updateKey
          = none) ∧
      (true = false →
        (storeAddedItem browser Engine.decimal clock2 handoffStorage fullUpdate true).2
          = handoffStorage) :=
  handoff_cleared_on_success browser Engine.decimal clock2 handoffStorage _ fullUpdate true rfl rfl

/-- C28: `handleImageUpload` rejects a selected file, showing the message that
the image is too large and leaving the image preview as it was, exactly when
the size of the file exceeds 2 * 1024 * 1024 bytes; a smaller file, and one of
exactly 2,097,152 bytes, is read, and its data URL becomes the preview. -/
theorem image_rejected_iff_too_large (f : File) (imagePreview : JVal) :
    (handleImageUpload (some f) imagePreview = (some tooLargeMessage, imagePreview) ↔
        2 * 1024 * 1024 < f.size) ∧
      ((handleImageUpload (some f) imagePreview).1 = some tooLargeMessage ↔
        2 * 1024 * 1024 < f.size) ∧
      (∀ url, f.size ≤ 2 * 1024 * 1024 → f.result = some url →
        handleImageUpload (some f) imagePreview = (none, .str url)) ∧
      ∀ url, handleImageUpload (some ⟨2097152, some url⟩) imagePreview = (none, .str url) := by
  have hne : readErrorMessage ≠ tooLargeMessage := by decide
  have hlast : ∀ url, handleImageUpload (some ⟨2097152, some url⟩) imagePreview =
      (none, .str url) := fun url => by simp [handleImageUpload]
  rw [handleImageUpload_some]
  by_cases h : f.size > 2 * 1024 * 1024
  · rw [if_pos h]
    exact ⟨⟨fun _ => h, fun _ => rfl⟩, ⟨fun _ => h, fun _ => rfl⟩,
      fun url hle => absurd h (Nat.not_lt.mpr hle), hlast⟩
  · rw [if_neg h]
    refine ⟨⟨fun h2 => ?_, fun h2 => absurd h2 h⟩, ⟨fun h2 => ?_, fun h2 => absurd h2 h⟩,
      fun url _ hr => by rw [hr], hlast⟩
    · cases hr : f.result with
      | none => rw [hr] at h2; exact absurd (Option.some.inj (congrArg Prod.fst h2)) hne
      | some url => rw [hr] at h2; exact absurd (congrArg Prod.fst h2) (by intro h3; cases h3)
    · cases hr : f.result with
      | none => rw [hr] at h2; exact absurd (Option.some.inj h2) hne
      | some url => rw [hr] at h2; exact absurd h2 (by intro h3; cases h3)

/-- C29: in a persisted collection of at most 20 records, a successful update
that locates a record at index `k` leaves a collection of the same length in
which the record at every index other than `k` is the record that was there
before. -/
theorem update_leaves_others (env : Env) (e : Engine) (c : Clock) (st st' : Storage)
    (item : Obj) (old : List JVal) (k : ℕ)
    (hget : env.getItemThrows = false) (hold : persisted st = some old)
    (hlen : old.length ≤ 20)
    (hloc : locate old item = .ok (some k))
    (h : storeAddedItem env e c st item true = (true, st')) :
    ∃ xs, persisted st' = some xs ∧ xs.length = old.length ∧
      ∀ j, j ≠ k → xs[j]? = old[j]? := by
  obtain ⟨_, oldId, _, hp⟩ := update_located hget hold hloc h
  rw [keepLast20_of_le (by simpa using hlen)] at hp
  refine ⟨_, hp, by simp, ?_⟩
  intro j hj
  rw [List.getElem?_set_ne (Ne.symm hj)]

/-- C29 at a concrete input: the update of the elbow at index 1 of the tee and
the elbow. -/
theorem update_leaves_others_witness :
    ∃ xs, persisted (storeAddedItem browser Engine.decimal clock3 twoItems fullUpdate true).2
        = some xs ∧
      xs.length = [JVal.obj teeRecord, JVal.obj (jsonifyObj elbowRecord)].length ∧
      ∀ j, j ≠ 1 → xs[j]? = [JVal.obj teeRecord, JVal.obj (jsonifyObj elbowRecord)][j]? :=
  update_leaves_others browser Engine.decimal clock3 twoItems _ fullUpdate
    [JVal.obj teeRecord, JVal.obj (jsonifyObj elbowRecord)] 1 rfl rfl (by decide) rfl rfl

/-! ## The value of a stored item -/

/-- C30 fails as stated: the persisted elbow has the price 4.35 and the stock
level 100; the value of its display item, and the total value with it, is
434.99999999999994, the double nearest to the product, which is neither the
exact product of the two doubles nor 435. -/
theorem stored_value_is_rounded :
    (persisted centStorage).map (List.map fun x => (x.get "price", x.get "stockLevel"))
        = some [(.num (.fin double435), .num (.fin 100))] ∧
      (loadStoredItems browser Engine.decimal plainHost centStorage).map
        (List.map fun d => d "value") = some [.num (.fin (7652600929320959 / 17592186044416))] ∧
      (fetchItems browser Engine.decimal plainHost centStorage []).2.value
        = .num (.fin (7652600929320959 / 17592186044416)) ∧
      (7652600929320959 / 17592186044416 : ℚ) ≠ double435 * 100 ∧
      (7652600929320959 / 17592186044416 : ℚ) ≠ 435 := by
  refine ⟨by with_unfolding_all rfl, by with_unfolding_all rfl, by with_unfolding_all rfl, ?_, ?_⟩
  · norm_num [double435]
  · norm_num

/-- C30, amended: when `loadStoredItems` returns a list S from a persisted
collection whose fitting records have a price and a stock level that are
numbers, every item of S has the price and the stock level of its record and
for value the double nearest to their product, and the total value of the
statistics over a merged list made of S alone is the sum of these values,
added to 0 one after the other, each sum being the nearest double.  When every
product and every partial sum of the products is a double, each value is the
exact product and the total is the exact sum of price * stockLevel. -/
theorem stored_value_is_double_product (env : Env) (e : Engine) (h : Host) (st : Storage)
    (xs : List JVal) (S : List Obj)
    (hp : persisted st = some xs)
    (hnum : ∀ x ∈ xs, matchesFittings x = true →
      ∃ p s, x.get "price" = .num (.fin p) ∧ x.get "stockLevel" = .num (.fin s))
    (hload : loadStoredItems env e h st = some S) :
    List.Forall₂ (fun x d =>
        d "value" = .num (roundDouble ((x.get "price").toRat * (x.get "stockLevel").toRat)) ∧
          d "price" = x.get "price" ∧ d "stockLevel" = x.get "stockLevel")
        (xs.filter matchesFittings) S ∧
      (fetchItems env e h st []).2.value =
        .num (S.foldl (fun sum d => sum.add (e.toNumber (d "value"))) (.fin 0)) ∧
      ((∀ d ∈ S, roundDouble ((d "price").toRat * (d "stockLevel").toRat) =
          .fin ((d "price").toRat * (d "stockLevel").toRat)) →
        (∀ k, roundDouble
            ((S.take k).map fun d => (d "price").toRat * (d "stockLevel").toRat).sum =
          .fin ((S.take k).map fun d => (d "price").toRat * (d "stockLevel").toRat).sum) →
        (∀ d ∈ S, d "value" = .num (.fin ((d "price").toRat * (d "stockLevel").toRat))) ∧
          (fetchItems env e h st []).2.value =
            .num (.fin (S.map fun d => (d "price").toRat * (d "stockLevel").toRat).sum)) := by
  have hF2 := forall₂_numeric (stored_fittings_aux hp hload) fun x hx =>
    hnum x (List.mem_filter.mp hx).1 (List.mem_filter.mp hx).2
  have hvals := forall₂_values hF2
  have hmerged : (fetchItems env e h st []).1 = S := by
    show combinedData (loadStoredItems env e h st) [] = S
    rw [hload]
    by_cases hS : S = []
    · subst hS; rfl
    · rw [combinedData_some hS]; simp
  have hstats : (fetchItems env e h st []).2 = statsOf e h (fetchItems env e h st []).1 := rfl
  rw [hstats, hmerged]
  refine ⟨hF2, statsOf_value h e S fun d hd => ⟨_, hvals d hd⟩, ?_⟩
  intro hprod hsum
  have hexact : ∀ d ∈ S, d "value" = .num (.fin ((d "price").toRat * (d "stockLevel").toRat)) :=
    fun d hd => by rw [hvals d hd, hprod d hd]
  refine ⟨hexact, ?_⟩
  apply statsOf_value_exact
  · rw [List.map_map]
    apply List.map_congr_left
    intro d hd
    exact hexact d hd
  · intro k
    rw [← List.map_take]
    exact hsum k

/-- C30, amended, at a concrete input: the stored elbow, of price 50 and stock
level 10, whose value and total are 500. -/
theorem stored_value_is_double_product_witness :
    List.Forall₂ (fun x d =>
        d "value" = .num (roundDouble ((x.get "price").toRat * (x.get "stockLevel").toRat)) ∧
          d "price" = x.get "price" ∧ d "stockLevel" = x.get "stockLevel")
        ([JVal.obj elbowRecord].filter matchesFittings) [elbowShown] ∧
      (fetchItems browser Engine.decimal plainHost oneItem []).2.value =
        .num ([elbowShown].foldl
          (fun sum d => sum.add (Engine.decimal.toNumber (d "value"))) (.fin 0)) ∧
      (∀ d ∈ [elbowShown], d "value" = .num (.fin ((d "price").toRat * (d "stockLevel").toRat))) ∧
      (fetchItems browser Engine.decimal plainHost oneItem []).2.value = .num (.fin 500) :=
  have key := stored_value_is_double_product browser Engine.decimal plainHost oneItem
    [JVal.obj elbowRecord] [elbowShown] rfl
    (fun x hx _ => by
      rw [List.mem_singleton.mp hx]
      exact ⟨50, 10, rfl, rfl⟩)
    (by with_unfolding_all rfl)
  have hex := key.2.2
    (fun d hd => by
      rw [List.mem_singleton.mp hd]
      with_unfolding_all rfl)
    (fun k => by
      match k with
      | 0 => with_unfolding_all rfl
      | k + 1 =>
        rw [List.take_of_length_le (by simp)]
        with_unfolding_all rfl)
  ⟨key.1, key.2.1, hex.1, by
    rw [hex.2]
    with_unfolding_all rfl⟩

end PlumbX
